import Mathlib

/-!
# plyr-helper: a shallow embedding of `dist/plyr-helper.js`

JavaScript strings are modelled as `List Char` (a `Char` stands for one UTF-16
code unit, so URLs are taken within the Basic Multilingual Plane), JavaScript
numbers that hold layout measurements and ratios as rationals (`ℚ`),
`null`/`undefined` as `none`.  Values read from the browser (computed styles,
`offsetWidth`, `offsetHeight`) are inputs of the functions that read them.
Regular expressions are run by a backtracking matcher that lists the matches in
the order JavaScript tries them.  The numbers read from attributes by
`parseFloat` are `NaN`, an infinity or a rational, with the range of a double:
a decimal too small reads as zero, one too large as `Infinity`.  A function
that can throw returns an `Outcome`, the state it leaves together with whether
it returned or threw; a loop stops at the first throw.  The size of the
embedded `iframe` is given twice: as the inline percentages the code writes,
and as the box the injected style sheet makes of them.
-/

namespace PlyrHelper

/-! ## Cover scale: `updateVideoScale` and the body of `handleResize` -/

/-- The three non-null values of `videoData.type`. -/
inductive VideoType where
  | youtube
  | vimeo
  | video
  deriving DecidableEq, Repr

/-- Inline `width` and `height` of the embedded `iframe`, in percent of the
containing block; `none` is "not set inline". -/
structure IframeStyle where
  width : Option ℚ
  height : Option ℚ
  deriving DecidableEq

/-- The part of a wrapper element (`.dt-video-container`) that the helper reads
and writes: the inline style copied from the reference image, the custom
property `--plyr-video-scale`, the `iframe` found by
`wrapper.querySelector("iframe")` (if any), the lazy placeholder child and
`dataset.videoIndex`. -/
structure Wrapper where
  styleWidth : List Char
  styleHeight : List Char
  styleMaxWidth : List Char
  styleMaxHeight : List Char
  styleBorderRadius : List Char
  styleAspectRatio : List Char
  scaleVar : Option ℚ
  iframe : Option IframeStyle
  hasPlaceholder : Bool
  videoIndex : Option ℕ
  deriving DecidableEq

/-- What `window.getComputedStyle(referenceImg)` returns, for the properties the
helper copies. -/
structure ComputedStyle where
  width : List Char
  height : List Char
  maxWidth : List Char
  maxHeight : List Char
  borderRadius : List Char
  aspectRatio : List Char
  deriving DecidableEq

/-- The values the DOM returns for `wrapper.offsetWidth` and
`wrapper.offsetHeight` at the moment they are read. -/
structure Layout where
  offsetWidth : ℚ
  offsetHeight : ℚ
  deriving DecidableEq

/-- The function `updateVideoScale` (lines 753-808), with the division operator as a
parameter.  For a direct file the function only restyles the `video` element
and returns; for YouTube and Vimeo it computes the cover scale, writes
`Math.max(1, scale)` to `--plyr-video-scale` and sizes the `iframe`. -/
def updateVideoScaleWith (div : ℚ → ℚ → ℚ) (videoType : VideoType) (lay : Layout)
    (wrapper : Wrapper) : Wrapper :=
  if videoType = VideoType.video then wrapper
  else
    let videoAspectRatio := div 16 9
    let containerWidth := lay.offsetWidth
    let containerHeight := lay.offsetHeight
    if containerWidth = 0 ∨ containerHeight = 0 then wrapper
    else
      let containerAspectRatio := div containerWidth containerHeight
      let scale :=
        if containerAspectRatio > videoAspectRatio then
          div containerAspectRatio videoAspectRatio
        else
          div videoAspectRatio containerAspectRatio
      let wrapper1 := { wrapper with scaleVar := some (max 1 scale) }
      match wrapper1.iframe with
      | none => wrapper1
      | some _ =>
        if containerAspectRatio > videoAspectRatio then
          { wrapper1 with iframe := some ⟨some 100, some (100 * scale)⟩ }
        else
          { wrapper1 with iframe := some ⟨some (100 * scale), some 100⟩ }

/-- The function `updateVideoScale` with JavaScript's `/`. -/
def updateVideoScale (videoType : VideoType) (lay : Layout) (wrapper : Wrapper) : Wrapper :=
  updateVideoScaleWith (fun a b => a / b) videoType lay wrapper

/-- The body of the `videoPlayers.forEach` callback of `handleResize`
(lines 1031-1137) for one registry item, with the division operator as a
parameter: the wrapper's inline style is refreshed from the reference image,
then, for YouTube and Vimeo, the cover scale is recomputed. -/
def handleResizeItemWith (div : ℚ → ℚ → ℚ) (videoType : VideoType) (cs : ComputedStyle)
    (lay : Layout) (wrapper : Wrapper) : Wrapper :=
  let wrapper0 :=
    { wrapper with
      styleWidth := cs.width
      styleHeight := cs.height
      styleMaxWidth := cs.maxWidth
      styleMaxHeight := cs.maxHeight
      styleBorderRadius := cs.borderRadius
      styleAspectRatio :=
        if cs.aspectRatio ≠ [] ∧ cs.aspectRatio ≠ "auto".data then cs.aspectRatio
        else wrapper.styleAspectRatio }
  if videoType = VideoType.video then wrapper0
  else if videoType = VideoType.youtube ∨ videoType = VideoType.vimeo then
    let videoAspectRatio := div 16 9
    let containerWidth := lay.offsetWidth
    let containerHeight := lay.offsetHeight
    if containerWidth = 0 ∨ containerHeight = 0 then wrapper0
    else
      let containerAspectRatio := div containerWidth containerHeight
      let scale :=
        if containerAspectRatio > videoAspectRatio then
          div containerAspectRatio videoAspectRatio
        else
          div videoAspectRatio containerAspectRatio
      let wrapper1 := { wrapper0 with scaleVar := some (max 1 scale) }
      match wrapper1.iframe with
      | none => wrapper1
      | some _ =>
        if containerAspectRatio > videoAspectRatio then
          { wrapper1 with iframe := some ⟨some 100, some (100 * scale)⟩ }
        else
          { wrapper1 with iframe := some ⟨some (100 * scale), some 100⟩ }
  else wrapper0

/-- The `forEach` body of `handleResize` with JavaScript's `/`. -/
def handleResizeItem (videoType : VideoType) (cs : ComputedStyle) (lay : Layout)
    (wrapper : Wrapper) : Wrapper :=
  handleResizeItemWith (fun a b => a / b) videoType cs lay wrapper

/-- The rectangle the inline percentages of an `iframe` stand for in a `w × h`
container: what the frame would occupy if its inline `width` and `height` were
its used size (the intent of the comments at lines 795-805).  They are not: see
`renderedFrameRect`. -/
def inlineFrameRect (w h : ℚ) (f : IframeStyle) : Option (ℚ × ℚ) :=
  match f.width, f.height with
  | some pw, some ph => some (w * pw / 100, h * ph / 100)
  | _, _ => none

/-- The rectangle the `iframe` of a wrapper occupies in a `w × h` container
under the style sheet the helper injects.  The rule
`.dt-video-container .plyr__video-embed iframe` (lines 189-197) declares
`width: 100% !important`, `height: 100% !important` and
`transform: translate(-50%, -50%) scale(var(--plyr-video-scale, 1.0)) !important`.
An `!important` declaration of a style sheet wins over an inline declaration
without it, so the inline `width` and `height` are not used: the frame is laid
out at the size of the container (the embed container fills the wrapper,
lines 178-186) and scaled by the same factor on both axes; the factor is `1.0`
while the variable is not set. -/
def renderedFrameRect (w h : ℚ) (wrapper : Wrapper) : Option (ℚ × ℚ) :=
  match wrapper.iframe with
  | none => none
  | some _ => some (w * wrapper.scaleVar.getD 1, h * wrapper.scaleVar.getD 1)

/-! ## JavaScript string operations -/

/-- A JavaScript string, as its sequence of characters. -/
abbrev JsString := List Char

/-- The test `s.includes(sub)`: some position of `s` starts with `sub`. -/
def includes (sub : JsString) : JsString → Bool
  | [] => sub.isPrefixOf []
  | c :: cs => sub.isPrefixOf (c :: cs) || includes sub cs

/-- Worker of `jsSplit`: `skip` counts the separator characters still to be
dropped, `acc` is the current segment, reversed. -/
def jsSplitGo (sep : JsString) : ℕ → JsString → JsString → List JsString
  | _, acc, [] => [acc.reverse]
  | skip + 1, acc, _ :: cs => jsSplitGo sep skip acc cs
  | 0, acc, c :: cs =>
    if sep.isPrefixOf (c :: cs) then acc.reverse :: jsSplitGo sep (sep.length - 1) [] cs
    else jsSplitGo sep 0 (c :: acc) cs

/-- The call `s.split(sep)` for a non-empty string separator `sep`. -/
def jsSplit (sep : JsString) (s : JsString) : List JsString :=
  jsSplitGo sep 0 [] s

/-- Worker of `splitClass`. -/
def splitClassGo (p : Char → Bool) : JsString → JsString → List JsString
  | acc, [] => [acc.reverse]
  | acc, c :: cs =>
    if p c then acc.reverse :: splitClassGo p [] cs else splitClassGo p (c :: acc) cs

/-- The call `s.split(/[...]/)` for a regular expression that is one character class
`p`. -/
def splitClass (p : Char → Bool) (s : JsString) : List JsString :=
  splitClassGo p [] s

/-- The class `\s` of a JavaScript regular expression (white space and line
terminators). -/
def isJsSpace (c : Char) : Bool :=
  c.toNat = 0x09 || c.toNat = 0x0A || c.toNat = 0x0B || c.toNat = 0x0C || c.toNat = 0x0D
    || c.toNat = 0x20 || c.toNat = 0xA0 || c.toNat = 0x1680
    || (0x2000 ≤ c.toNat && c.toNat ≤ 0x200A)
    || c.toNat = 0x2028 || c.toNat = 0x2029 || c.toNat = 0x202F || c.toNat = 0x205F
    || c.toNat = 0x3000 || c.toNat = 0xFEFF

/-- The class `\d`. -/
def isJsDigit (c : Char) : Bool := c.isDigit

/-- The class `\w`. -/
def isJsWord (c : Char) : Bool := c.isAlphanum || c = '_'

/-- The class `.` (no `s` flag): any character but a line terminator. -/
def isJsDot (c : Char) : Bool :=
  !(c.toNat = 0x0A || c.toNat = 0x0D || c.toNat = 0x2028 || c.toNat = 0x2029)

/-- The class `[^\/]`. -/
def notSlash (c : Char) : Bool := !(c = '/')

/-- The class `[?&]`. -/
def isQueryMark (c : Char) : Bool := c = '?' || c = '&'

/-- The class `[?&#]`. -/
def isIdStop (c : Char) : Bool := c = '?' || c = '&' || c = '#'

/-- The class `[^"&?\/\s]` of the YouTube pattern. -/
def isYouTubeIdChar (c : Char) : Bool :=
  !(c.toNat = 0x22 || c = '&' || c = '?' || c = '/' || isJsSpace c)

/-! ## A backtracking matcher for the regular expressions of the helper -/

/-- The regular expressions used by the helper.  Every `*` and `+` in them is
applied to a single character class, so `star` takes a class. `cap` is capture
group 1. -/
inductive Re where
  | chr (p : Char → Bool)
  | eps
  | eos
  | seq (a b : Re)
  | alt (a b : Re)
  | star (p : Char → Bool)
  | cap (a : Re)

/-- A matcher state: the text captured by group 1 so far, and the input still
to be read. -/
structure MState where
  cap : Option JsString
  rest : JsString
  deriving DecidableEq

/-- The inputs left after a greedy `p*`, longest match first. -/
def starRests (p : Char → Bool) : JsString → List JsString
  | [] => [[]]
  | c :: cs => if p c then starRests p cs ++ [c :: cs] else [c :: cs]

/-- All ways of matching `r` at the start of the input, in the order in which a
backtracking matcher tries them (alternatives left to right, quantifiers
greedy). -/
def Re.run : Re → MState → List MState
  | Re.chr p, st =>
    match st.rest with
    | [] => []
    | c :: cs => if p c then [⟨st.cap, cs⟩] else []
  | Re.eps, st => [st]
  | Re.eos, st => if st.rest = [] then [st] else []
  | Re.seq a b, st => (a.run st).flatMap (fun st1 => b.run st1)
  | Re.alt a b, st => a.run st ++ b.run st
  | Re.star p, st => (starRests p st.rest).map (fun r => ⟨st.cap, r⟩)
  | Re.cap a, st =>
    (a.run st).map
      (fun st1 => ⟨some (st.rest.take (st.rest.length - st1.rest.length)), st1.rest⟩)

/-- The call `s.match(r)` for a regular expression without the `g` flag: the first way
of matching at the leftmost position where there is one. -/
def Re.exec (r : Re) : JsString → Option MState
  | [] => (r.run ⟨none, []⟩).head?
  | c :: cs =>
    match (r.run ⟨none, c :: cs⟩).head? with
    | some m => some m
    | none => Re.exec r cs

/-- A literal string. -/
def Re.lit : JsString → Re
  | [] => Re.eps
  | c :: cs => Re.seq (Re.chr (fun x => x = c)) (Re.lit cs)

/-- A literal string under the `i` flag; the pattern letters are ASCII lower
case, and only the two ASCII cases of a letter match it. -/
def Re.liti : JsString → Re
  | [] => Re.eps
  | c :: cs => Re.seq (Re.chr (fun x => x.toLower = c)) (Re.liti cs)

/-- One or more characters of a class, `p+`. -/
def Re.plus (p : Char → Bool) : Re := Re.seq (Re.chr p) (Re.star p)

/-- An optional part, `a?` (greedy). -/
def Re.opt (a : Re) : Re := Re.alt a Re.eps

/-- A fixed number of repetitions, `a` taken `n` times. -/
def Re.rep : ℕ → Re → Re
  | 0, _ => Re.eps
  | n + 1, a => Re.seq a (Re.rep n a)

/-- The pattern
`/(?:youtube\.com\/(?:[^\/]+\/.+\/|(?:v|e(?:mbed)?)\/|.*[?&]v=)|youtu\.be\/)([^"&?\/\s]{11})/`. -/
def youTubeRe : Re :=
  Re.seq
    (Re.alt
      (Re.seq (Re.lit "youtube.com/".data)
        (Re.alt
          (Re.seq (Re.plus notSlash)
            (Re.seq (Re.lit "/".data) (Re.seq (Re.plus isJsDot) (Re.lit "/".data))))
          (Re.alt
            (Re.seq (Re.alt (Re.lit "v".data) (Re.seq (Re.lit "e".data) (Re.opt (Re.lit "mbed".data))))
              (Re.lit "/".data))
            (Re.seq (Re.star isJsDot) (Re.seq (Re.chr isQueryMark) (Re.lit "v=".data))))))
      (Re.lit "youtu.be/".data))
    (Re.cap (Re.rep 11 (Re.chr isYouTubeIdChar)))

/-- The pattern
`/(?:vimeo\.com\/(?:video\/|channels\/(?:\w+\/)?|groups\/(?:[^\/]*)\/videos\/|album\/(?:\d+)\/video\/|)(\d+)(?:$|\/|\?))/`. -/
def vimeoRe : Re :=
  Re.seq (Re.lit "vimeo.com/".data)
    (Re.seq
      (Re.alt (Re.lit "video/".data)
        (Re.alt
          (Re.seq (Re.lit "channels/".data) (Re.opt (Re.seq (Re.plus isJsWord) (Re.lit "/".data))))
          (Re.alt
            (Re.seq (Re.lit "groups/".data) (Re.seq (Re.star notSlash) (Re.lit "/videos/".data)))
            (Re.alt
              (Re.seq (Re.lit "album/".data) (Re.seq (Re.plus isJsDigit) (Re.lit "/video/".data)))
              Re.eps))))
      (Re.seq (Re.cap (Re.plus isJsDigit))
        (Re.alt Re.eos (Re.alt (Re.lit "/".data) (Re.lit "?".data)))))

/-- The pattern `/\.(mp4|webm|ogg|mov)($|\?)/i`; its two groups are only used
for grouping, the caller tests the match for truthiness. -/
def videoFileRe : Re :=
  Re.seq (Re.lit ".".data)
    (Re.seq
      (Re.alt (Re.liti "mp4".data)
        (Re.alt (Re.liti "webm".data) (Re.alt (Re.liti "ogg".data) (Re.liti "mov".data))))
      (Re.alt Re.eos (Re.lit "?".data)))

/-! ## The URL classifier -/

/-- The record `{ type, id }` returned by `detectVideoType`. -/
structure VideoData where
  type : Option VideoType
  id : Option JsString
  deriving DecidableEq

/-- The function `getYouTubeId` (lines 63-74).  `none` in the first branch stands for the
`TypeError` of indexing `undefined`, which the guard excludes. -/
def getYouTubeId (url : JsString) : Option JsString :=
  if includes "youtu.be/".data url then
    match (jsSplit "youtu.be/".data url)[1]? with
    | some seg => (splitClass isIdStop seg).head?
    | none => none
  else
    match youTubeRe.exec url with
    | some m => m.cap
    | none => none

/-- The function `getVimeoId` (lines 76-82). -/
def getVimeoId (url : JsString) : Option JsString :=
  match vimeoRe.exec url with
  | some m => m.cap
  | none => none

/-- The function `detectVideoType` (lines 32-61); the argument is `none` for a missing
attribute (`null`). -/
def detectVideoType (url : Option JsString) : VideoData :=
  match url with
  | none => ⟨none, none⟩
  | some [] => ⟨none, none⟩
  | some (c :: cs) =>
    let url := c :: cs
    if includes "youtube.com".data url || includes "youtu.be".data url then
      ⟨some VideoType.youtube, getYouTubeId url⟩
    else if includes "vimeo.com".data url then
      ⟨some VideoType.vimeo, getVimeoId url⟩
    else if (videoFileRe.exec url).isSome then
      ⟨some VideoType.video, some url⟩
    else ⟨none, none⟩

/-! ## Descriptor images -/

/-- An `img[data-dt-video="true"]` element: its attributes, and the computed
style the browser reports for it when it is scanned. -/
structure Img where
  attrs : List (String × JsString)
  computed : ComputedStyle
  deriving DecidableEq

/-- The call `img.getAttribute(name)`; `none` is `null`. -/
def Img.getAttribute (img : Img) (name : String) : Option JsString :=
  img.attrs.lookup name

/-- The test `img.getAttribute(name) === "true"`. -/
def Img.flag (img : Img) (name : String) : Bool :=
  img.getAttribute name = some "true".data

/-- The value of `img.getAttribute("data-dt-video-quality") || "default"`. -/
def Img.quality (img : Img) : JsString :=
  match img.getAttribute "data-dt-video-quality" with
  | none => "default".data
  | some [] => "default".data
  | some q => q

/-! ## Control lists, MIME types and theme colours -/

/-- The method `String.prototype.trim`: white space and line terminators are
removed at both ends. -/
def jsTrim (s : JsString) : JsString :=
  ((s.dropWhile isJsSpace).reverse.dropWhile isJsSpace).reverse

/-- The allow-list `validControls` of `parseCustomControls`. -/
def validControls : List JsString :=
  ["play-large".data, "play".data, "progress".data, "current-time".data, "mute".data,
   "volume".data, "captions".data, "settings".data, "pip".data, "airplay".data,
   "fullscreen".data, "restart".data, "fast-forward".data]

/-- The function `parseCustomControls` (lines 85-108); `none` is `null`. -/
def parseCustomControls (controlsStr : Option JsString) : Option (List JsString) :=
  match controlsStr with
  | none => none
  | some [] => none
  | some (c :: cs) =>
    let requestedControls := (jsSplit ",".data (c :: cs)).map jsTrim
    some (requestedControls.filter (fun control => validControls.contains control))

/-- The function `getVideoMimeType` (lines 111-125).  `toLowerCase` is taken on
ASCII letters, which is all the `switch` can tell apart. -/
def getVideoMimeType (url : JsString) : JsString :=
  let last :=
    match (jsSplit ".".data url).getLast? with
    | some seg => seg
    | none => []
  let first :=
    match (jsSplit "?".data last).head? with
    | some seg => seg
    | none => []
  let extension := first.map Char.toLower
  if extension = "mp4".data then "video/mp4".data
  else if extension = "webm".data then "video/webm".data
  else if extension = "ogg".data then "video/ogg".data
  else if extension = "mov".data then "video/quicktime".data
  else "video/mp4".data

/-! ## Numbers read from attributes -/

/-- A JavaScript number: `NaN`, an infinity, or a finite value.  A finite value
is kept exactly: the rounding of a decimal literal to the nearest double is not
modelled, but the range of the doubles is (see `FloatLit.value`), so a number
is zero, negative, positive or infinite here exactly when it is in the
program; `-0` is `0`. -/
inductive JsNum where
  | nan
  | inf (negative : Bool)
  | fin (q : ℚ)
  deriving DecidableEq

/-- Truthiness of a number: `NaN` and `0` are falsy. -/
def JsNum.truthy : JsNum → Bool
  | JsNum.nan => false
  | JsNum.inf _ => true
  | JsNum.fin q => decide (q ≠ 0)

/-- The expression `x || d` on numbers. -/
def JsNum.orElse (x d : JsNum) : JsNum :=
  if x.truthy then x else d

/-- The comparison `a < b`; it is false when either side is `NaN`. -/
def JsNum.lt : JsNum → JsNum → Bool
  | JsNum.fin a, JsNum.fin b => decide (a < b)
  | JsNum.fin _, JsNum.inf negative => !negative
  | JsNum.inf negative, JsNum.fin _ => negative
  | JsNum.inf a, JsNum.inf b => a && !b
  | _, _ => false

/-- The comparison `a > b`. -/
def JsNum.gt (a b : JsNum) : Bool := JsNum.lt b a

/-- The comparison `a >= b`; it is false when either side is `NaN`. -/
def JsNum.ge : JsNum → JsNum → Bool
  | JsNum.nan, _ => false
  | _, JsNum.nan => false
  | a, b => !JsNum.lt a b

/-- The function `Math.floor`. -/
def JsNum.floor : JsNum → JsNum
  | JsNum.nan => JsNum.nan
  | JsNum.inf negative => JsNum.inf negative
  | JsNum.fin q => JsNum.fin (⌊q⌋ : ℤ)

/-- Whether a number is finite, that is neither `NaN` nor an infinity. -/
def JsNum.isFinite : JsNum → Bool
  | JsNum.fin _ => true
  | _ => false

/-- The longest prefix of a string that is a `StrDecimalLiteral`, read after
the leading white space: nothing, a signed `Infinity`, or a signed decimal
`mantissa × 10 ^ exponent`. -/
inductive FloatLit where
  | none
  | infinity (negative : Bool)
  | decimal (negative : Bool) (mantissa : ℕ) (exponent : ℤ)
  deriving DecidableEq

/-- The value of a run of decimal digits. -/
def digitsValue (ds : JsString) : ℕ :=
  ds.foldl (fun n c => 10 * n + (c.toNat - '0'.toNat)) 0

/-- The value of the `ExponentPart` at the start of a string, `0` when there is
no complete one. -/
def scanExponent (s : JsString) : ℤ :=
  match s with
  | [] => 0
  | c :: r =>
    if c = 'e' ∨ c = 'E' then
      match r with
      | '-' :: d =>
        if d.takeWhile isJsDigit ≠ [] then -(digitsValue (d.takeWhile isJsDigit) : ℤ) else 0
      | '+' :: d =>
        if d.takeWhile isJsDigit ≠ [] then (digitsValue (d.takeWhile isJsDigit) : ℤ) else 0
      | d =>
        if d.takeWhile isJsDigit ≠ [] then (digitsValue (d.takeWhile isJsDigit) : ℤ) else 0
    else 0

/-- The literal `parseFloat` reads from a string. -/
def scanFloat (s : JsString) : FloatLit :=
  let t := s.dropWhile isJsSpace
  let negative := decide (t.head? = some '-')
  let u :=
    match t with
    | '-' :: r => r
    | '+' :: r => r
    | _ => t
  if "Infinity".data.isPrefixOf u then FloatLit.infinity negative
  else
    let ip := u.takeWhile isJsDigit
    let r1 := u.dropWhile isJsDigit
    let fp :=
      match r1 with
      | '.' :: r => r.takeWhile isJsDigit
      | _ => []
    let r2 :=
      match r1 with
      | '.' :: r => r.dropWhile isJsDigit
      | _ => r1
    if ip = [] ∧ fp = [] then FloatLit.none
    else FloatLit.decimal negative (digitsValue (ip ++ fp)) (scanExponent r2 - fp.length)

/-- The number a literal stands for, the double nearest to its exact value
`mantissa × 10 ^ exponent` (ties to even).  The least positive double is
`2 ^ (-1074)`, so an exact value of at most `2 ^ (-1075)` reads as zero; the
greatest finite double is `2 ^ 1024 - 2 ^ 971`, so an exact value of at least
`2 ^ 1024 - 2 ^ 970` reads as an infinity; between the two bounds the exact
value is kept. -/
def FloatLit.value : FloatLit → JsNum
  | FloatLit.none => JsNum.nan
  | FloatLit.infinity negative => JsNum.inf negative
  | FloatLit.decimal negative mantissa exponent =>
    if (mantissa : ℚ) * (10 : ℚ) ^ exponent ≤ 1 / 2 ^ 1075 then JsNum.fin 0
    else if (2 : ℚ) ^ 1024 - 2 ^ 970 ≤ (mantissa : ℚ) * (10 : ℚ) ^ exponent then
      JsNum.inf negative
    else JsNum.fin ((if negative then -1 else 1) * (mantissa : ℚ) * (10 : ℚ) ^ exponent)

/-- The call `parseFloat(img.getAttribute(name))`; a missing attribute is
`null`, which reads as `NaN`. -/
def parseFloat (attr : Option JsString) : JsNum :=
  match attr with
  | none => JsNum.nan
  | some s => (scanFloat s).value

/-! ## The configuration of a session -/

/-- The local variables `initializeSingleVideo` reads from the image
(lines 471-498), after `if (autoplay) mute = true`. -/
structure Config where
  videoUrl : Option JsString
  controls : Bool
  mute : Bool
  playbackRate : JsNum
  loop : Bool
  poster : Option JsString
  autoplay : Bool
  themeColor : Option JsString
  customControlsStr : Option JsString
  startTime : JsNum
  endTime : JsNum
  quality : JsString
  pauseOnBlur : Bool
  playOnHover : Bool
  customControls : Option (List JsString)

/-- Lines 471-498 of `initializeSingleVideo`. -/
def readConfig (img : Img) : Config :=
  let mute := img.flag "data-dt-video-mute"
  let autoplay := img.flag "data-dt-video-autoplay"
  let customControlsStr := img.getAttribute "data-dt-video-custom-controls"
  { videoUrl := img.getAttribute "data-dt-video-url"
    controls := img.flag "data-dt-video-controls"
    mute := if autoplay then true else mute
    playbackRate :=
      (parseFloat (img.getAttribute "data-dt-video-playback-rate")).orElse (JsNum.fin 1)
    loop := img.flag "data-dt-video-loop"
    poster := img.getAttribute "src"
    autoplay := autoplay
    themeColor := img.getAttribute "data-dt-video-theme-color"
    customControlsStr := customControlsStr
    startTime := (parseFloat (img.getAttribute "data-dt-video-start-time")).orElse (JsNum.fin 0)
    endTime := (parseFloat (img.getAttribute "data-dt-video-end-time")).orElse (JsNum.fin 0)
    quality := img.quality
    pauseOnBlur := img.flag "data-dt-video-pause-on-blur"
    playOnHover := img.flag "data-dt-video-play-on-hover"
    customControls := parseCustomControls customControlsStr }

/-- The common part of `plyrOptions` (lines 684-710); the provider-specific
`youtube` and `vimeo` entries are left out. -/
structure PlyrOptions where
  controls : List JsString
  muted : Bool
  autoplay : Bool
  loopActive : Bool
  speedSelected : JsNum
  poster : Option JsString
  clickToPlay : Bool
  resetOnEnd : Bool

/-- The object `plyrOptions` (lines 684-710).  An array, even an empty one, is
truthy, so `customControls || ...` is `customControls` unless it is `null`. -/
def plyrOptions (cfg : Config) : PlyrOptions :=
  { controls :=
      match cfg.customControls with
      | some list => list
      | none =>
        if cfg.controls then
          ["play-large".data, "play".data, "progress".data, "current-time".data, "mute".data,
           "volume".data, "captions".data, "settings".data, "fullscreen".data]
        else []
    muted := cfg.mute
    autoplay := cfg.autoplay
    loopActive := cfg.loop
    speedSelected := cfg.playbackRate
    poster := if cfg.autoplay then none else cfg.poster
    clickToPlay := !cfg.autoplay
    resetOnEnd := if cfg.loop then true else false }

/-- The `video` element built for a direct file, with its `source` child
(lines 625-656); `currentTime` is `none` when it is not assigned. -/
structure VideoElement where
  controls : Bool
  muted : Bool
  loop : Bool
  autoplay : Bool
  poster : Option JsString
  playbackRate : JsNum
  currentTime : Option JsNum
  sourceSrc : JsString
  sourceType : JsString

/-- Lines 625-656 of `initializeSingleVideo`, for `videoData.id = id`: the
properties assigned to the `video` element and its `source` child.  Two of the
assignments can throw, see `createVideoElementThrows`. -/
def createVideoElement (cfg : Config) (id : JsString) : VideoElement :=
  { controls := cfg.controls
    muted := cfg.mute
    loop := cfg.loop
    autoplay := cfg.autoplay
    poster := cfg.poster
    playbackRate := cfg.playbackRate
    currentTime := if cfg.startTime.gt (JsNum.fin 0) then some cfg.startTime else none
    sourceSrc := id
    sourceType := getVideoMimeType id }

/-- Whether building the `video` element throws.  The attributes `playbackRate`
and `currentTime` of a media element have the IDL type `double`, so the
assignment `videoEl.playbackRate = playbackRate` of line 632 throws a
`TypeError` when the rate is not finite, and so does
`videoEl.currentTime = startTime` of line 637, made when `startTime > 0`, for a
start time that is not finite.  Every finite rate is taken to be supported by
the user agent. -/
def createVideoElementThrows (cfg : Config) : Bool :=
  !cfg.playbackRate.isFinite || (cfg.startTime.gt (JsNum.fin 0) && !cfg.startTime.isFinite)

/-- The address of the YouTube `iframe` (lines 576-596).  The conversion of a
number to a string (`toStr`) and `encodeURIComponent(window.location.origin)`
(`origin`) are parameters. -/
def youtubeSrc (toStr : JsNum → JsString) (origin : JsString) (id : JsString) (cfg : Config) :
    JsString :=
  let src0 :=
    "https://www.youtube.com/embed/".data ++ id ++ "?origin=".data ++ origin ++
      "&enablejsapi=1&widgetid=1&modestbranding=1&playsinline=1&showinfo=0&rel=0&iv_load_policy=3&fs=0&autohide=0".data
  let src1 :=
    if cfg.startTime.gt (JsNum.fin 0) then src0 ++ "&start=".data ++ toStr cfg.startTime.floor
    else src0
  let src2 :=
    if cfg.endTime.gt (JsNum.fin 0) then src1 ++ "&end=".data ++ toStr cfg.endTime.floor
    else src1
  if cfg.autoplay then src2 ++ "&autoplay=1&mute=1".data else src2

/-- The address of the Vimeo `iframe` (lines 599-611); `toStr` is the
conversion of a number to a string. -/
def vimeoSrc (toStr : JsNum → JsString) (id : JsString) (cfg : Config) : JsString :=
  let src0 := "https://player.vimeo.com/video/".data ++ id ++ "?byline=0&portrait=0&title=0".data
  let src1 :=
    if cfg.startTime.gt (JsNum.fin 0) then src0 ++ "#t=".data ++ toStr cfg.startTime ++ "s".data
    else src0
  if cfg.autoplay then src1 ++ "&autoplay=1&muted=1".data else src1

/-- The `src` given to the `iframe` of a remote provider (lines 574-612). -/
def iframeSrc (toStr : JsNum → JsString) (origin : JsString) (type : VideoType)
    (id : JsString) (cfg : Config) : JsString :=
  if type = VideoType.youtube then youtubeSrc toStr origin id cfg
  else vimeoSrc toStr id cfg

/-- The part of an address before its first `#`: everything but the
fragment. -/
def beforeFragment (url : JsString) : JsString :=
  url.takeWhile (fun c => !decide (c = '#'))

/-- What the `timeupdate` handlers read and write on the player: the playback
position and whether playback is paused. -/
structure Player where
  currentTime : JsNum
  paused : Bool
  deriving DecidableEq

/-- The `timeupdate` handler of lines 908-917. -/
def endTimeHandler (cfg : Config) (player : Player) : Player :=
  if player.currentTime.ge cfg.endTime then
    if cfg.loop then { currentTime := cfg.startTime, paused := false }
    else { player with paused := true }
  else player

/-- The `timeupdate` handlers the `ready` callback registers on the player
(lines 906-918). -/
def timeUpdateHandlers (type : VideoType) (cfg : Config) : List (Player → Player) :=
  if type = VideoType.video ∧ cfg.endTime.gt (JsNum.fin 0) then [endTimeHandler cfg] else []

/-- The digits of a proper fraction `num / den` after the decimal point, up to
`fuel` of them. -/
def fractionDigits : ℕ → ℕ → ℕ → JsString
  | 0, _, _ => []
  | fuel + 1, num, den =>
    if num = 0 then []
    else Nat.digitChar (num * 10 / den) :: fractionDigits fuel (num * 10 % den) den

/-- The plain decimal notation of a number.  It is what JavaScript prints for
the numbers of the examples (integers and short decimal fractions between
`1e-6` and `1e21`); the address builders take the conversion as a parameter, so
that what is proved of them holds for every conversion. -/
def showNumber : JsNum → JsString
  | JsNum.nan => "NaN".data
  | JsNum.inf false => "Infinity".data
  | JsNum.inf true => "-Infinity".data
  | JsNum.fin q =>
    (if q < 0 then "-".data else []) ++ Nat.toDigits 10 (q.num.natAbs / q.den) ++
      (if q.den = 1 then []
       else '.' :: fractionDigits q.den (q.num.natAbs % q.den) q.den)

/-! ## Theme colours -/

/-- The value of a hexadecimal digit. -/
def hexDigitValue (c : Char) : Option ℕ :=
  if c.isDigit then some (c.toNat - '0'.toNat)
  else if 'a'.toNat ≤ c.toNat ∧ c.toNat ≤ 'f'.toNat then some (c.toNat - 'a'.toNat + 10)
  else if 'A'.toNat ≤ c.toNat ∧ c.toNat ≤ 'F'.toNat then some (c.toNat - 'A'.toNat + 10)
  else none

/-- The value of a run of hexadecimal digits. -/
def hexValue (ds : JsString) : ℕ :=
  ds.foldl (fun n c => 16 * n + (hexDigitValue c).getD 0) 0

/-- The integer read by `parseInt(s, 16)`, if any: leading white space, a
sign and a `0x` prefix are skipped, then the longest run of hexadecimal digits
is read. -/
def scanHexInt (s : JsString) : Option ℤ :=
  let t := s.dropWhile isJsSpace
  let negative := decide (t.head? = some '-')
  let u :=
    match t with
    | '-' :: r => r
    | '+' :: r => r
    | _ => t
  let v :=
    match u with
    | '0' :: 'x' :: r => r
    | '0' :: 'X' :: r => r
    | _ => u
  let ds := v.takeWhile (fun c => (hexDigitValue c).isSome)
  if ds = [] then none
  else some ((if negative then -1 else 1) * (hexValue ds : ℤ))

/-- The call `parseInt(s, 16)`; without a digit the result is `NaN`. -/
def parseIntHex (s : JsString) : JsNum :=
  match scanHexInt s with
  | none => JsNum.nan
  | some z => JsNum.fin (z : ℚ)

/-- The object `{ r, g, b }`. -/
structure Rgb where
  r : JsNum
  g : JsNum
  b : JsNum
  deriving DecidableEq

/-- The function `hexToRgb` (lines 128-145).  The result is an `Except` to
show the `try` of the caller; no operation of the function throws on a
string, so it is always `ok`. -/
def hexToRgb (hex : JsString) : Except Unit Rgb :=
  let hex :=
    match hex with
    | '#' :: r => r
    | _ => hex
  match hex with
  | [h0, h1, h2] =>
    Except.ok
      { r := parseIntHex [h0, h0], g := parseIntHex [h1, h1], b := parseIntHex [h2, h2] }
  | _ =>
    Except.ok
      { r := parseIntHex (hex.take 2)
        g := parseIntHex ((hex.drop 2).take 2)
        b := parseIntHex ((hex.drop 4).take 2) }

/-- The variable `rgbColor` of `initializeSingleVideo` (lines 509-515), for a
non-empty theme colour: `hexToRgb(themeColor.replace("#", ""))`, with the blue
fallback of the `catch` clause. -/
def rgbColor (themeColor : JsString) : Rgb :=
  match hexToRgb (themeColor.erase '#') with
  | Except.ok rgb => rgb
  | Except.error _ => { r := JsNum.fin 0, g := JsNum.fin 138, b := JsNum.fin 255 }

/-! ## The page scan, lazy loading and the player registry -/

/-- An entry of `pendingPlyrVideos`; `wrapper` is a reference to a wrapper
element (its position in `State.wrappers`). -/
structure PendingEntry where
  img : Img
  wrapper : ℕ
  referenceImg : Img
  deriving DecidableEq

/-- An entry of the `videoPlayers` registry (lines 740-750).  `referenceImg` is
a clone of the image, so it carries the same attributes; the fields `player`,
`videoElement`, `startTime` and `endTime` of the source are not read by the
operations modelled here and are left out. -/
structure Session where
  wrapper : ℕ
  referenceImg : Img
  autoplay : Bool
  videoType : VideoType
  quality : JsString
  deriving DecidableEq

/-- The closure of the click handler of a lazy placeholder (lines 449-455): the
variables `index`, `img`, `wrapper` and `referenceImg` it captured. -/
structure ClickHandler where
  index : ℕ
  img : Img
  wrapper : ℕ
  referenceImg : Img
  deriving DecidableEq

/-- The mutable state of the page: the pending list, the registry, the wrappers
under observation by `lazyLoadObserver`, the wrapper elements created so far (a
wrapper reference is a position in this list), the click handlers registered on
placeholders, and whether `initializePlyr` has registered its resize listeners
(lines 1143-1157). -/
structure State where
  pendingPlyrVideos : List (Option PendingEntry)
  videoPlayers : List Session
  observed : List ℕ
  wrappers : List Wrapper
  clickHandlers : List ClickHandler
  resizeListening : Bool
  deriving DecidableEq

/-- How a call ends: it returns, or it throws an exception nothing in the helper
catches; either way it leaves the page in a state. -/
inductive Outcome where
  | returned (σ : State)
  | threw (σ : State)
  deriving DecidableEq

/-- The state in which a call leaves the page. -/
def Outcome.state : Outcome → State
  | Outcome.returned σ => σ
  | Outcome.threw σ => σ

/-- Whether a call threw. -/
def Outcome.hasThrown : Outcome → Bool
  | Outcome.returned _ => false
  | Outcome.threw _ => true

/-- The read `arr[i]` on a JavaScript array with holes; a hole, `undefined` and `null`
are all `none`. -/
def getSlot {α : Type} (arr : List (Option α)) (i : ℕ) : Option α :=
  (arr[i]?).join

/-- The write `arr[i] = v` on a JavaScript array: writing past the end pads the array
with holes. -/
def setSlot {α : Type} : List (Option α) → ℕ → Option α → List (Option α)
  | [], 0, v => [v]
  | [], i + 1, v => none :: setSlot [] i v
  | _ :: xs, 0, v => v :: xs
  | x :: xs, i + 1, v => x :: setSlot xs i v

/-- Apply `f` to the wrapper element referenced by `ref`. -/
def modifyWrapper (f : Wrapper → Wrapper) : List Wrapper → ℕ → List Wrapper
  | [], _ => []
  | w :: ws, 0 => f w :: ws
  | w :: ws, ref + 1 => w :: modifyWrapper f ws ref

/-- Lines 556-559 of `initializeSingleVideo`: the lazy placeholder, if any, is
removed from the wrapper. -/
def removePlaceholder (w : Wrapper) : Wrapper :=
  { w with hasPlaceholder := false }

/-- What `initializeSingleVideo` does to the wrapper once the URL is resolved
(lines 556-675): the lazy placeholder, if any, is removed and the player
container is appended, with an `iframe` for YouTube and Vimeo and a `video`
element for a direct file. -/
def attachPlayer (type : VideoType) (w : Wrapper) : Wrapper :=
  { w with
    hasPlaceholder := false
    iframe :=
      if type = VideoType.youtube ∨ type = VideoType.vimeo then some ⟨none, none⟩
      else w.iframe }

/-- The function `initializeSingleVideo(img, wrapper, referenceImg)` (lines
469-1027), as far as the pending list, the registry and the wrapper are
concerned.  When the classifier gives no type or no (non-empty) id the function
logs and returns.  Otherwise the placeholder is removed and the player
container is built; for a direct file this throws when
`createVideoElementThrows`, before the container is appended to the wrapper
and before the session is pushed.  When nothing throws, the player is in the
wrapper and the session is pushed. -/
def initializeSingleVideo (img : Img) (wrapper : ℕ) (referenceImg : Img) (σ : State) :
    Outcome :=
  let videoUrl := img.getAttribute "data-dt-video-url"
  let autoplay := img.flag "data-dt-video-autoplay"
  let quality := img.quality
  let videoData := detectVideoType videoUrl
  match videoData.type, videoData.id with
  | none, _ => Outcome.returned σ
  | some _, none => Outcome.returned σ
  | some _, some [] => Outcome.returned σ
  | some type, some (_ :: _) =>
    if type = VideoType.video ∧ createVideoElementThrows (readConfig img) = true then
      Outcome.threw { σ with wrappers := modifyWrapper removePlaceholder σ.wrappers wrapper }
    else
      Outcome.returned
        { σ with
          wrappers := modifyWrapper (attachPlayer type) σ.wrappers wrapper
          videoPlayers :=
            σ.videoPlayers ++
              [{ wrapper := wrapper, referenceImg := referenceImg, autoplay := autoplay,
                 videoType := type, quality := quality }] }

/-- The wrapper element created for an image (lines 368-447): its inline
style is copied from the computed style of the image; for a lazy image it holds
the placeholder and `dataset.videoIndex = index`. -/
def createWrapper (img : Img) (lazyLoad : Bool) (index : ℕ) : Wrapper :=
  let computedStyle := img.computed
  { styleWidth := computedStyle.width
    styleHeight := computedStyle.height
    styleMaxWidth := computedStyle.maxWidth
    styleMaxHeight := computedStyle.maxHeight
    styleBorderRadius := computedStyle.borderRadius
    styleAspectRatio :=
      if computedStyle.aspectRatio ≠ [] ∧ computedStyle.aspectRatio ≠ "auto".data then
        computedStyle.aspectRatio
      else []
    scaleVar := none
    iframe := none
    hasPlaceholder := lazyLoad
    videoIndex := if lazyLoad then some index else none }

/-- The body of `images.forEach(function (img, index) ...)` (lines 348-467): a
wrapper is created for the image; a lazy image gets a placeholder, a pending
entry, a click handler and is observed, any other image is initialised at
once, and an exception of `initializeSingleVideo` leaves the body. -/
def scanImage (img : Img) (index : ℕ) (σ : State) : Outcome :=
  let lazyLoad := img.flag "data-dt-video-lazy-load"
  let wrapper := σ.wrappers.length
  let referenceImg := img
  let σ1 := { σ with wrappers := σ.wrappers ++ [createWrapper img lazyLoad index] }
  if lazyLoad then
    Outcome.returned
      { σ1 with
        pendingPlyrVideos :=
          setSlot σ1.pendingPlyrVideos index
            (some { img := img, wrapper := wrapper, referenceImg := referenceImg })
        clickHandlers :=
          σ1.clickHandlers ++
            [{ index := index, img := img, wrapper := wrapper, referenceImg := referenceImg }]
        observed := σ1.observed ++ [wrapper] }
  else
    initializeSingleVideo img wrapper referenceImg σ1

/-- The loop `images.forEach` from a given index; an exception thrown for one
image ends the loop, the images after it are not visited. -/
def scanFrom : ℕ → List Img → State → Outcome
  | _, [], σ => Outcome.returned σ
  | index, img :: rest, σ =>
    match scanImage img index σ with
    | Outcome.returned σ1 => scanFrom (index + 1) rest σ1
    | Outcome.threw σ1 => Outcome.threw σ1

/-- The state when `initializePlyr` starts. -/
def State.initial : State :=
  { pendingPlyrVideos := [], videoPlayers := [], observed := [], wrappers := [],
    clickHandlers := [], resizeListening := false }

/-- The page scan of `initializePlyr`. -/
def scanImages (page : List Img) : Outcome :=
  scanFrom 0 page State.initial

/-- An `IntersectionObserverEntry`: `isIntersecting` and the observed wrapper
`target`. -/
structure IntersectionEntry where
  isIntersecting : Bool
  target : ℕ
  deriving DecidableEq

/-- The body of `entries.forEach` in the callback of `lazyLoadObserver`
(lines 316-337).  `parseInt(lazyVideo.dataset.videoIndex, 10)` is the index
stored in the data set, `NaN` when there is none.  When
`initializeSingleVideo` throws, the two statements after the call (the slot set
to `null`, `unobserve`) are not reached. -/
def lazyLoadEntry (σ : State) (entry : IntersectionEntry) : Outcome :=
  if entry.isIntersecting then
    let lazyVideo := entry.target
    match (σ.wrappers[lazyVideo]?).bind (fun w => w.videoIndex) with
    | none => Outcome.returned σ
    | some videoIndex =>
      match getSlot σ.pendingPlyrVideos videoIndex with
      | none => Outcome.returned σ
      | some videoData =>
        match initializeSingleVideo videoData.img videoData.wrapper videoData.referenceImg σ with
        | Outcome.threw σ1 => Outcome.threw σ1
        | Outcome.returned σ1 =>
          Outcome.returned
            { σ1 with
              pendingPlyrVideos := setSlot σ1.pendingPlyrVideos videoIndex none
              observed := σ1.observed.filter (fun t => t ≠ lazyVideo) }
  else Outcome.returned σ

/-- The callback of `lazyLoadObserver`: `entries.forEach`, left at the first
entry whose handling throws. -/
def lazyLoadObserver : List IntersectionEntry → State → Outcome
  | [], σ => Outcome.returned σ
  | entry :: entries, σ =>
    match lazyLoadEntry σ entry with
    | Outcome.returned σ1 => lazyLoadObserver entries σ1
    | Outcome.threw σ1 => Outcome.threw σ1

/-- The click handler of a lazy placeholder (lines 449-455).  When
`initializeSingleVideo` throws, the two statements after the call are not
reached. -/
def placeholderClick (h : ClickHandler) (σ : State) : Outcome :=
  match getSlot σ.pendingPlyrVideos h.index with
  | none => Outcome.returned σ
  | some _ =>
    match initializeSingleVideo h.img h.wrapper h.referenceImg σ with
    | Outcome.threw σ1 => Outcome.threw σ1
    | Outcome.returned σ1 =>
      Outcome.returned
        { σ1 with
          pendingPlyrVideos := setSlot σ1.pendingPlyrVideos h.index none
          observed := σ1.observed.filter (fun t => t ≠ h.wrapper) }

/-- The function `handleResize` (lines 1030-1138): every registry item's
wrapper is restyled; `env` gives, for a wrapper reference, what the browser
reports for the reference image's computed style and for the wrapper's offset
size.  The registry only ever holds session objects, so the guard
`if (!item) return` of the source never fires. -/
def handleResize (env : ℕ → ComputedStyle × Layout) (σ : State) : State :=
  { σ with
    wrappers :=
      σ.videoPlayers.foldl
        (fun ws item =>
          modifyWrapper
            (handleResizeItem item.videoType (env item.wrapper).1 (env item.wrapper).2)
            ws item.wrapper)
        σ.wrappers }

/-- What can happen after the scan: the observer callback fires with some
entries, the `n`-th registered click handler runs, or a resize (or media query
change) is signalled. -/
inductive Event where
  | intersect (entries : List IntersectionEntry)
  | click (n : ℕ)
  | resize (env : ℕ → ComputedStyle × Layout)

/-- One event.  An exception thrown by a handler ends the handler and is
reported by the browser; the page goes on in the state the handler left.  A
resize runs `handleResize` when the listeners are registered. -/
def step (σ : State) : Event → State
  | Event.intersect entries => (lazyLoadObserver entries σ).state
  | Event.click n =>
    match σ.clickHandlers[n]? with
    | some h => (placeholderClick h σ).state
    | none => σ
  | Event.resize env => if σ.resizeListening then handleResize env σ else σ

/-- The state in which `initializePlyr` leaves the page.  When the scan
returns, the resize listeners are registered (lines 1143-1157); when it
throws, the function is left before that.  The call `handleResize()` of
line 1140 reads the layout, which is an input of the event `resize`: it is the
event `resize` at the head of the events. -/
def afterScan (page : List Img) : State :=
  match scanImages page with
  | Outcome.returned σ => { σ with resizeListening := true }
  | Outcome.threw σ => σ

/-- The state reached from the scan of `page` by a sequence of events. -/
def run (page : List Img) (events : List Event) : State :=
  events.foldl step (afterScan page)

/-- A wrapper as `scanImage` and `initializeSingleVideo` leave it for an eager
YouTube or Vimeo image whose computed style is empty: no placeholder, an
`iframe` without inline size, no scale yet. -/
def Wrapper.embedded : Wrapper :=
  { styleWidth := [], styleHeight := [], styleMaxWidth := [], styleMaxHeight := [],
    styleBorderRadius := [], styleAspectRatio := [], scaleVar := none,
    iframe := some ⟨none, none⟩, hasPlaceholder := false, videoIndex := none }

/-- A computed style with every property empty. -/
def ComputedStyle.empty : ComputedStyle :=
  { width := [], height := [], maxWidth := [], maxHeight := [], borderRadius := [],
    aspectRatio := [] }

/-- The path shapes named for Vimeo URLs, as the text between `vimeo.com/` and
the numeric id: nothing, `video/`, `channels/<name>/` with `<name>` a non-empty
run of word characters, `groups/<name>/videos/` with `<name>` free of `/`, and
`album/<digits>/video/`. -/
inductive VimeoPath : JsString → Prop where
  | plain : VimeoPath []
  | video : VimeoPath "video/".data
  | channel (name : JsString) (hne : name ≠ []) (hw : ∀ c ∈ name, isJsWord c = true) :
      VimeoPath ("channels/".data ++ (name ++ "/".data))
  | group (name : JsString) (hs : ∀ c ∈ name, notSlash c = true) :
      VimeoPath ("groups/".data ++ (name ++ "/videos/".data))
  | album (digits : JsString) (hne : digits ≠ []) (hd : ∀ c ∈ digits, isJsDigit c = true) :
      VimeoPath ("album/".data ++ (digits ++ "/video/".data))

/-- The wording of the specification for a direct file: the URL has a file
extension `mp4`, `webm`, `ogg` or `mov` (in any letter case) that is followed
by the end of the string or by `?`. -/
def hasVideoFileExtension (url : JsString) : Prop :=
  ∃ p ext q, url = p ++ ('.' :: (ext ++ q)) ∧
    ext.map Char.toLower ∈ ["mp4".data, "webm".data, "ogg".data, "mov".data] ∧
    (q = [] ∨ ∃ r, q = '?' :: r)

/-- The wording of the specification for a resolved descriptor: the URL of the
image classifies to a non-null type with a non-null, non-empty id. -/
def resolves (img : Img) : Bool :=
  match (detectVideoType (img.getAttribute "data-dt-video-url")).type,
    (detectVideoType (img.getAttribute "data-dt-video-url")).id with
  | some _, some (_ :: _) => true
  | _, _ => false

/-- Whether `initializeSingleVideo` throws for an image: its URL resolves to a
direct file and building the `video` element throws. -/
def constructionThrows (img : Img) : Bool :=
  resolves img &&
    (decide ((detectVideoType (img.getAttribute "data-dt-video-url")).type =
      some VideoType.video) &&
      createVideoElementThrows (readConfig img))

/-- The sessions of the registry, each with the state of its wrapper element in
place of the reference to it. -/
def sessionViews (σ : State) : List (Option Wrapper × Img × Bool × VideoType × JsString) :=
  σ.videoPlayers.map
    (fun s => (σ.wrappers[s.wrapper]?, s.referenceImg, s.autoplay, s.videoType, s.quality))

/-- The value of `parseInt(target.dataset.videoIndex, 10)` for the wrapper referenced by
`target`; `none` is `NaN`. -/
def datasetIndex (σ : State) (target : ℕ) : Option ℕ :=
  (σ.wrappers[target]?).bind (fun w => w.videoIndex)

/-- An event is a trigger of slot `i` in state `σ`: an observer callback with
at least one intersecting entry, all of whose intersecting entries are for
wrappers with `dataset.videoIndex = i`, or a click on a placeholder whose
handler captured `index = i`. -/
def Event.triggers (σ : State) (i : ℕ) : Event → Prop
  | Event.intersect entries =>
    (∃ e ∈ entries, e.isIntersecting = true) ∧
      ∀ e ∈ entries, e.isIntersecting = true → datasetIndex σ e.target = some i
  | Event.click n => ∃ h, σ.clickHandlers[n]? = some h ∧ h.index = i
  | Event.resize _ => False

/-- The invariant of the states reached from the scan of `page`: a pending
entry sits in the slot of its own wrapper, belongs to the image at that
position and has no session yet; a click handler captured the wrapper of its
own index; `dataset.videoIndex` of a wrapper is its own reference; every
session refers to an existing wrapper and to the image at that position; and no
two sessions share a wrapper. -/
structure State.WellFormed (page : List Img) (σ : State) : Prop where
  pending_entry : ∀ i e, getSlot σ.pendingPlyrVideos i = some e →
    e.wrapper = i ∧ page[i]? = some e.img ∧ e.referenceImg = e.img
  pending_fresh : ∀ i e, getSlot σ.pendingPlyrVideos i = some e →
    i < σ.wrappers.length ∧ ∀ s ∈ σ.videoPlayers, s.wrapper ≠ i
  handler_entry : ∀ h ∈ σ.clickHandlers,
    h.wrapper = h.index ∧ page[h.index]? = some h.img ∧ h.referenceImg = h.img
  dataset_entry : ∀ t i, datasetIndex σ t = some i → i = t
  session_entry : ∀ s ∈ σ.videoPlayers,
    s.wrapper < σ.wrappers.length ∧ page[s.wrapper]? = some s.referenceImg
  session_nodup : (σ.videoPlayers.map (fun s => s.wrapper)).Nodup

/-- A second invariant of the states reached from the scan: the wrapper of a
pending slot still holds its placeholder, unless the construction for its image
throws (a trigger then removes the placeholder and leaves the slot pending). -/
def State.PlaceholderKept (σ : State) : Prop :=
  ∀ i e, getSlot σ.pendingPlyrVideos i = some e → constructionThrows e.img = false →
    ∃ w, σ.wrappers[i]? = some w ∧ w.hasPlaceholder = true

/-! ## Example images -/

/-- A lazy image for the YouTube short link `https://youtu.be/abcdEFGH123`. -/
def lazyYouTubeImg : Img :=
  { attrs :=
      [("data-dt-video", "true".data),
       ("data-dt-video-url", "https://youtu.be/abcdEFGH123".data),
       ("data-dt-video-lazy-load", "true".data)]
    computed := ComputedStyle.empty }

/-- An eager image for the Vimeo URL `https://vimeo.com/123456789`. -/
def eagerVimeoImg : Img :=
  { attrs :=
      [("data-dt-video", "true".data),
       ("data-dt-video-url", "https://vimeo.com/123456789".data)]
    computed := ComputedStyle.empty }

/-- An eager image whose URL, `https://example.com/page`, does not resolve. -/
def eagerUnknownImg : Img :=
  { attrs :=
      [("data-dt-video", "true".data),
       ("data-dt-video-url", "https://example.com/page".data)]
    computed := ComputedStyle.empty }

/-- An eager Vimeo image with autoplay, a start time of 5 s and an end time of
10 s. -/
def autoplayVimeoImg : Img :=
  { attrs :=
      [("data-dt-video", "true".data),
       ("data-dt-video-url", "https://vimeo.com/123456789".data),
       ("data-dt-video-autoplay", "true".data),
       ("data-dt-video-start-time", "5".data),
       ("data-dt-video-end-time", "10".data)]
    computed := ComputedStyle.empty }

/-- An eager direct-file image with a negative playback rate, start time and
end time. -/
def negativeNumbersImg : Img :=
  { attrs :=
      [("data-dt-video", "true".data),
       ("data-dt-video-url", "https://example.com/video.mp4".data),
       ("data-dt-video-playback-rate", "-2".data),
       ("data-dt-video-start-time", "-5".data),
       ("data-dt-video-end-time", "-1".data)]
    computed := ComputedStyle.empty }

/-- An eager image with `data-dt-video-controls="true"` whose custom controls
string, `"bogus,nope"`, holds no name of the allow-list. -/
def bogusControlsImg : Img :=
  { attrs :=
      [("data-dt-video", "true".data),
       ("data-dt-video-url", "https://example.com/video.mp4".data),
       ("data-dt-video-controls", "true".data),
       ("data-dt-video-custom-controls", "bogus,nope".data)]
    computed := ComputedStyle.empty }

/-- A lazy image whose URL, `https://example.com/page`, does not resolve. -/
def lazyUnknownImg : Img :=
  { attrs :=
      [("data-dt-video", "true".data),
       ("data-dt-video-url", "https://example.com/page".data),
       ("data-dt-video-lazy-load", "true".data)]
    computed := ComputedStyle.empty }

/-- An eager image for the direct file `https://example.com/video.mp4` with
`data-dt-video-playback-rate="Infinity"`. -/
def eagerInfiniteRateImg : Img :=
  { attrs :=
      [("data-dt-video", "true".data),
       ("data-dt-video-url", "https://example.com/video.mp4".data),
       ("data-dt-video-playback-rate", "Infinity".data)]
    computed := ComputedStyle.empty }

/-- A lazy image for the direct file `https://example.com/video.mp4` with
`data-dt-video-playback-rate="Infinity"`. -/
def lazyInfiniteRateImg : Img :=
  { attrs :=
      [("data-dt-video", "true".data),
       ("data-dt-video-url", "https://example.com/video.mp4".data),
       ("data-dt-video-playback-rate", "Infinity".data),
       ("data-dt-video-lazy-load", "true".data)]
    computed := ComputedStyle.empty }

/-- An eager direct-file image whose playback rate, `1e-400`, is below the
range of the doubles and whose start time, `1e400`, is above it. -/
def outOfRangeNumbersImg : Img :=
  { attrs :=
      [("data-dt-video", "true".data),
       ("data-dt-video-url", "https://example.com/video.mp4".data),
       ("data-dt-video-playback-rate", "1e-400".data),
       ("data-dt-video-start-time", "1e400".data)]
    computed := ComputedStyle.empty }

/-! ## Theorems -/

theorem coverScale_ge_one (w h : ℚ) (hw : 0 < w) (hh : 0 < h) :
    (1 : ℚ) ≤ (if w / h > 16 / 9 then w / h / (16 / 9) else 16 / 9 / (w / h)) := by
  have hq : 0 < w / h := div_pos hw hh
  split_ifs with hc
  · rw [le_div_iff₀ (by norm_num)]; linarith
  · rw [le_div_iff₀ hq]; push_neg at hc; linarith

theorem updateVideoScale_fields (videoType : VideoType) (hv : videoType ≠ VideoType.video)
    (w h : ℚ) (hw : w ≠ 0) (hh : h ≠ 0) (wrapper : Wrapper) :
    (updateVideoScale videoType ⟨w, h⟩ wrapper).scaleVar =
        some (max 1 (if w / h > 16 / 9 then w / h / (16 / 9) else 16 / 9 / (w / h))) ∧
    (updateVideoScale videoType ⟨w, h⟩ wrapper).iframe =
        wrapper.iframe.map (fun _ =>
          if w / h > 16 / 9 then ⟨some 100, some (100 * (w / h / (16 / 9)))⟩
          else ⟨some (100 * (16 / 9 / (w / h))), some 100⟩) := by
  simp only [updateVideoScale, updateVideoScaleWith, if_neg hv, hw, hh, or_self, if_false]
  cases hi : wrapper.iframe with
  | none => simp [hi]
  | some f =>
    by_cases hc : w / h > 16 / 9
    · simp [hi, hc, if_pos hc]
    · simp [hi, hc, if_neg hc]

theorem handleResizeItem_fields (videoType : VideoType) (hv : videoType ≠ VideoType.video)
    (cs : ComputedStyle) (w h : ℚ) (hw : w ≠ 0) (hh : h ≠ 0) (wrapper : Wrapper) :
    (handleResizeItem videoType cs ⟨w, h⟩ wrapper).scaleVar =
        some (max 1 (if w / h > 16 / 9 then w / h / (16 / 9) else 16 / 9 / (w / h))) ∧
    (handleResizeItem videoType cs ⟨w, h⟩ wrapper).iframe =
        wrapper.iframe.map (fun _ =>
          if w / h > 16 / 9 then ⟨some 100, some (100 * (w / h / (16 / 9)))⟩
          else ⟨some (100 * (16 / 9 / (w / h))), some 100⟩) := by
  have hyv : videoType = VideoType.youtube ∨ videoType = VideoType.vimeo := by
    cases videoType <;> simp at hv ⊢
  simp only [handleResizeItem, handleResizeItemWith, if_neg hv, if_pos hyv, hw, hh, or_self,
    if_false]
  cases hi : wrapper.iframe with
  | none => simp [hi]
  | some f =>
    by_cases hc : w / h > 16 / 9
    · simp [hi, hc, if_pos hc]
    · simp [hi, hc, if_neg hc]

/-- C1: for a YouTube or Vimeo session and a container of positive width `w`
and height `h`, the scale that `updateVideoScale` and `handleResize` write to
`--plyr-video-scale` is `(w/h)/(16/9)` when `w/h > 16/9` and `(16/9)/(w/h)`
otherwise; that value is at least 1, so `Math.max(1, scale)` is `scale`
itself. -/
theorem cover_scale_formula (videoType : VideoType) (hv : videoType ≠ VideoType.video)
    (cs : ComputedStyle) (w h : ℚ) (hw : 0 < w) (hh : 0 < h) (wrapper : Wrapper) :
    (1 : ℚ) ≤ (if w / h > 16 / 9 then w / h / (16 / 9) else 16 / 9 / (w / h)) ∧
    max 1 (if w / h > 16 / 9 then w / h / (16 / 9) else 16 / 9 / (w / h)) =
      (if w / h > 16 / 9 then w / h / (16 / 9) else 16 / 9 / (w / h)) ∧
    (updateVideoScale videoType ⟨w, h⟩ wrapper).scaleVar =
      some (if w / h > 16 / 9 then w / h / (16 / 9) else 16 / 9 / (w / h)) ∧
    (handleResizeItem videoType cs ⟨w, h⟩ wrapper).scaleVar =
      some (if w / h > 16 / 9 then w / h / (16 / 9) else 16 / 9 / (w / h)) := by
  have h1 := coverScale_ge_one w h hw hh
  have hu := (updateVideoScale_fields videoType hv w h (ne_of_gt hw) (ne_of_gt hh) wrapper).1
  have hr := (handleResizeItem_fields videoType hv cs w h (ne_of_gt hw) (ne_of_gt hh) wrapper).1
  rw [max_eq_right h1] at hu hr
  exact ⟨h1, max_eq_right h1, hu, hr⟩

/-- Witness of C1: a YouTube session in a 400 × 300 container. -/
theorem cover_scale_formula_witness :
    (1 : ℚ) ≤ (if (400 : ℚ) / 300 > 16 / 9 then (400 : ℚ) / 300 / (16 / 9)
      else 16 / 9 / ((400 : ℚ) / 300)) ∧
    max 1 (if (400 : ℚ) / 300 > 16 / 9 then (400 : ℚ) / 300 / (16 / 9)
      else 16 / 9 / ((400 : ℚ) / 300)) =
      (if (400 : ℚ) / 300 > 16 / 9 then (400 : ℚ) / 300 / (16 / 9)
        else 16 / 9 / ((400 : ℚ) / 300)) ∧
    (updateVideoScale VideoType.youtube ⟨400, 300⟩ Wrapper.embedded).scaleVar =
      some (if (400 : ℚ) / 300 > 16 / 9 then (400 : ℚ) / 300 / (16 / 9)
        else 16 / 9 / ((400 : ℚ) / 300)) ∧
    (handleResizeItem VideoType.youtube ComputedStyle.empty ⟨400, 300⟩ Wrapper.embedded).scaleVar =
      some (if (400 : ℚ) / 300 > 16 / 9 then (400 : ℚ) / 300 / (16 / 9)
        else 16 / 9 / ((400 : ℚ) / 300)) :=
  cover_scale_formula VideoType.youtube (by decide) ComputedStyle.empty 400 300 (by norm_num)
    (by norm_num) Wrapper.embedded

/-- C2 (code bug): for a YouTube or Vimeo session whose wrapper holds an
`iframe`, in a container of positive width `w` and height `h`,
`updateVideoScale` and `handleResize` write the same inline size on the
`iframe`: when `w/h > 16/9` the width is 100% and the height `100 * scale` %,
otherwise the width is `100 * scale` % and the height 100%, with
`100 * scale ≥ 100`; the rectangle these percentages stand for has aspect
ratio exactly 16:9 and covers the container.  But the style sheet the helper
injects sets `width: 100% !important`, `height: 100% !important` and a uniform
`scale(var(--plyr-video-scale))` on the same `iframe`, so the inline size is
not used: the frame is `w * scale` by `h * scale`, it covers the container, and
its aspect ratio is that of the container, `w/h`, which is 16:9 only when the
container is.  At 800 × 300 the inline size is 100% by 150% (800 by 450), the
frame is 1200 by 450, of ratio 8:3. -/
theorem iframe_inline_size_overridden (videoType : VideoType)
    (hv : videoType ≠ VideoType.video)
    (cs : ComputedStyle) (w h : ℚ) (hw : 0 < w) (hh : 0 < h) (wrapper : Wrapper)
    (hf : wrapper.iframe ≠ none) :
    (∃ g : IframeStyle,
      (updateVideoScale videoType ⟨w, h⟩ wrapper).iframe = some g ∧
      (handleResizeItem videoType cs ⟨w, h⟩ wrapper).iframe = some g ∧
      (w / h > 16 / 9 → g.width = some 100 ∧ g.height = some (100 * (w / h / (16 / 9))) ∧
        (100 : ℚ) ≤ 100 * (w / h / (16 / 9))) ∧
      (¬ w / h > 16 / 9 → g.width = some (100 * (16 / 9 / (w / h))) ∧ g.height = some 100 ∧
        (100 : ℚ) ≤ 100 * (16 / 9 / (w / h))) ∧
      ∃ fw fh : ℚ, inlineFrameRect w h g = some (fw, fh) ∧ fw / fh = 16 / 9 ∧
        w ≤ fw ∧ h ≤ fh) ∧
    (∃ rw rh : ℚ,
      renderedFrameRect w h (updateVideoScale videoType ⟨w, h⟩ wrapper) = some (rw, rh) ∧
      renderedFrameRect w h (handleResizeItem videoType cs ⟨w, h⟩ wrapper) = some (rw, rh) ∧
      rw = w * (if w / h > 16 / 9 then w / h / (16 / 9) else 16 / 9 / (w / h)) ∧
      rh = h * (if w / h > 16 / 9 then w / h / (16 / 9) else 16 / 9 / (w / h)) ∧
      rw / rh = w / h ∧ w ≤ rw ∧ h ≤ rh ∧
      (rw / rh = 16 / 9 ↔ w / h = 16 / 9)) ∧
    (handleResizeItem VideoType.youtube ComputedStyle.empty ⟨800, 300⟩ Wrapper.embedded).iframe
      = some ⟨some 100, some 150⟩ ∧
    inlineFrameRect 800 300 ⟨some 100, some 150⟩ = some (800, 450) ∧
    renderedFrameRect 800 300
      (handleResizeItem VideoType.youtube ComputedStyle.empty ⟨800, 300⟩ Wrapper.embedded)
      = some (1200, 450) ∧
    (1200 : ℚ) / 450 ≠ 16 / 9 := by
  have hw0 : w ≠ 0 := ne_of_gt hw
  have hh0 : h ≠ 0 := ne_of_gt hh
  have h1 := coverScale_ge_one w h hw hh
  obtain ⟨hus, hu⟩ := updateVideoScale_fields videoType hv w h hw0 hh0 wrapper
  obtain ⟨hrs, hr⟩ := handleResizeItem_fields videoType hv cs w h hw0 hh0 wrapper
  rw [max_eq_right h1] at hus hrs
  obtain ⟨f, hf'⟩ := Option.ne_none_iff_exists'.mp hf
  rw [hf', Option.map_some'] at hu hr
  have hq : 0 < w / h := div_pos hw hh
  have hrect : ∀ (wr : Wrapper) (g : IframeStyle) (s : ℚ), wr.iframe = some g →
      wr.scaleVar = some s → renderedFrameRect w h wr = some (w * s, h * s) := by
    intro wr g s hg hs
    simp [renderedFrameRect, hg, hs]
  have h800 : (handleResizeItem VideoType.youtube ComputedStyle.empty ⟨800, 300⟩
      Wrapper.embedded).iframe = some ⟨some 100, some 150⟩ ∧
      (handleResizeItem VideoType.youtube ComputedStyle.empty ⟨800, 300⟩
        Wrapper.embedded).scaleVar = some (3 / 2) := by
    obtain ⟨a, b⟩ := handleResizeItem_fields VideoType.youtube (by decide) ComputedStyle.empty
      800 300 (by norm_num) (by norm_num) Wrapper.embedded
    have hc : (800 : ℚ) / 300 > 16 / 9 := by norm_num
    rw [if_pos hc] at a b
    refine ⟨?_, ?_⟩
    · rw [b]
      simp only [Wrapper.embedded, Option.map_some', Option.some.injEq, IframeStyle.mk.injEq,
        true_and]
      norm_num
    · rw [a]
      norm_num
  refine ⟨?_, ?_, h800.1, ?_, ?_, by norm_num⟩
  · by_cases hc : w / h > 16 / 9
    · rw [if_pos hc] at hu hr h1
      refine ⟨_, hu, hr, fun _ => ⟨rfl, rfl, by linarith⟩, fun hn => absurd hc hn, ?_⟩
      refine ⟨w * 100 / 100, h * (100 * (w / h / (16 / 9))) / 100, rfl, ?_, by linarith, ?_⟩
      · field_simp
        ring
      · have : h * (100 * (w / h / (16 / 9))) / 100 = h * (w / h / (16 / 9)) := by ring
        rw [this]
        nlinarith
    · rw [if_neg hc] at hu hr h1
      refine ⟨_, hu, hr, fun hp => absurd hp hc, fun _ => ⟨rfl, rfl, by linarith⟩, ?_⟩
      refine ⟨w * (100 * (16 / 9 / (w / h))) / 100, h * 100 / 100, rfl, ?_, ?_, by linarith⟩
      · field_simp
        ring
      · have : w * (100 * (16 / 9 / (w / h))) / 100 = w * (16 / 9 / (w / h)) := by ring
        rw [this]
        nlinarith
  · have hspos : (0 : ℚ) < (if w / h > 16 / 9 then w / h / (16 / 9) else 16 / 9 / (w / h)) := by
      linarith
    have hratio : w * (if w / h > 16 / 9 then w / h / (16 / 9) else 16 / 9 / (w / h)) /
        (h * (if w / h > 16 / 9 then w / h / (16 / 9) else 16 / 9 / (w / h))) = w / h :=
      mul_div_mul_right w h (ne_of_gt hspos)
    refine ⟨_, _, hrect _ _ _ hu hus, hrect _ _ _ hr hrs, rfl, rfl, hratio, ?_, ?_, ?_⟩
    · nlinarith
    · nlinarith
    · rw [hratio]
  · simp [inlineFrameRect]
    norm_num
  · rw [show renderedFrameRect 800 300 (handleResizeItem VideoType.youtube ComputedStyle.empty
        ⟨800, 300⟩ Wrapper.embedded) = some (800 * (3 / 2), 300 * (3 / 2)) by
      simp [renderedFrameRect, h800.1, h800.2]]
    norm_num

/-- Witness of C2: a Vimeo session in an 800 × 300 container. -/
theorem iframe_inline_size_overridden_witness :
    (∃ g : IframeStyle,
      (updateVideoScale VideoType.vimeo ⟨800, 300⟩ Wrapper.embedded).iframe = some g ∧
      (handleResizeItem VideoType.vimeo ComputedStyle.empty ⟨800, 300⟩ Wrapper.embedded).iframe
        = some g ∧
      ((800 : ℚ) / 300 > 16 / 9 → g.width = some 100 ∧
        g.height = some (100 * ((800 : ℚ) / 300 / (16 / 9))) ∧
        (100 : ℚ) ≤ 100 * ((800 : ℚ) / 300 / (16 / 9))) ∧
      (¬ (800 : ℚ) / 300 > 16 / 9 → g.width = some (100 * (16 / 9 / ((800 : ℚ) / 300))) ∧
        g.height = some 100 ∧ (100 : ℚ) ≤ 100 * (16 / 9 / ((800 : ℚ) / 300))) ∧
      ∃ fw fh : ℚ, inlineFrameRect 800 300 g = some (fw, fh) ∧ fw / fh = 16 / 9 ∧
        (800 : ℚ) ≤ fw ∧ (300 : ℚ) ≤ fh) ∧
    (∃ rw rh : ℚ,
      renderedFrameRect 800 300 (updateVideoScale VideoType.vimeo ⟨800, 300⟩ Wrapper.embedded)
        = some (rw, rh) ∧
      renderedFrameRect 800 300
        (handleResizeItem VideoType.vimeo ComputedStyle.empty ⟨800, 300⟩ Wrapper.embedded)
        = some (rw, rh) ∧
      rw = 800 * (if (800 : ℚ) / 300 > 16 / 9 then (800 : ℚ) / 300 / (16 / 9)
        else 16 / 9 / ((800 : ℚ) / 300)) ∧
      rh = 300 * (if (800 : ℚ) / 300 > 16 / 9 then (800 : ℚ) / 300 / (16 / 9)
        else 16 / 9 / ((800 : ℚ) / 300)) ∧
      rw / rh = (800 : ℚ) / 300 ∧ (800 : ℚ) ≤ rw ∧ (300 : ℚ) ≤ rh ∧
      (rw / rh = 16 / 9 ↔ (800 : ℚ) / 300 = 16 / 9)) ∧
    (handleResizeItem VideoType.youtube ComputedStyle.empty ⟨800, 300⟩ Wrapper.embedded).iframe
      = some ⟨some 100, some 150⟩ ∧
    inlineFrameRect 800 300 ⟨some 100, some 150⟩ = some (800, 450) ∧
    renderedFrameRect 800 300
      (handleResizeItem VideoType.youtube ComputedStyle.empty ⟨800, 300⟩ Wrapper.embedded)
      = some (1200, 450) ∧
    (1200 : ℚ) / 450 ≠ 16 / 9 :=
  iframe_inline_size_overridden VideoType.vimeo (by decide) ComputedStyle.empty 800 300
    (by norm_num) (by norm_num) Wrapper.embedded (by simp [Wrapper.embedded])

/-- C3: when the container width or the container height is 0, a scale
recomputation uses no quotient (the result is the same whatever the division
operator returns) and leaves the scale state as it was: `updateVideoScale`
returns the wrapper unchanged, and after the `handleResize` body
`--plyr-video-scale` and the `iframe` size are what they were before. -/
theorem zero_dimension_no_recompute (div : ℚ → ℚ → ℚ) (videoType : VideoType)
    (cs : ComputedStyle) (lay : Layout) (wrapper : Wrapper)
    (hz : lay.offsetWidth = 0 ∨ lay.offsetHeight = 0) :
    updateVideoScaleWith div videoType lay wrapper = wrapper ∧
    (handleResizeItemWith div videoType cs lay wrapper).scaleVar = wrapper.scaleVar ∧
    (handleResizeItemWith div videoType cs lay wrapper).iframe = wrapper.iframe := by
  refine ⟨?_, ?_, ?_⟩
  · simp only [updateVideoScaleWith, if_pos hz]
    split_ifs <;> rfl
  · simp only [handleResizeItemWith, if_pos hz]
    split_ifs <;> rfl
  · simp only [handleResizeItemWith, if_pos hz]
    split_ifs <;> rfl

/-- Witness of C3: a YouTube session whose container is 0 wide and 300 high,
with an `iframe` sized by an earlier recomputation. -/
theorem zero_dimension_no_recompute_witness :
    ((⟨0, 300⟩ : Layout).offsetWidth = 0 ∨ (⟨0, 300⟩ : Layout).offsetHeight = 0) ∧
    updateVideoScaleWith (fun a b => a / b) VideoType.youtube ⟨0, 300⟩
      { Wrapper.embedded with scaleVar := some (3 / 2), iframe := some ⟨some 100, some 150⟩ } =
      { Wrapper.embedded with scaleVar := some (3 / 2), iframe := some ⟨some 100, some 150⟩ } ∧
    (handleResizeItemWith (fun a b => a / b) VideoType.youtube ComputedStyle.empty ⟨0, 300⟩
      { Wrapper.embedded with scaleVar := some (3 / 2),
                              iframe := some ⟨some 100, some 150⟩ }).scaleVar = some (3 / 2) ∧
    (handleResizeItemWith (fun a b => a / b) VideoType.youtube ComputedStyle.empty ⟨0, 300⟩
      { Wrapper.embedded with scaleVar := some (3 / 2),
                              iframe := some ⟨some 100, some 150⟩ }).iframe =
      some ⟨some 100, some 150⟩ :=
  ⟨Or.inl rfl,
    zero_dimension_no_recompute (fun a b => a / b) VideoType.youtube ComputedStyle.empty ⟨0, 300⟩
      { Wrapper.embedded with scaleVar := some (3 / 2), iframe := some ⟨some 100, some 150⟩ }
      (Or.inl rfl)⟩
/-- The segment in progress is a prefix of the first piece `jsSplitGo` returns. -/
theorem jsSplitGo_head (sep : JsString) (s : JsString) :
    ∀ (skip : ℕ) (acc : JsString),
      ∃ t rest, jsSplitGo sep skip acc s = (acc.reverse ++ t) :: rest := by
  induction s with
  | nil => intro skip acc; exact ⟨[], [], by cases skip <;> simp [jsSplitGo]⟩
  | cons c cs ih =>
    intro skip acc
    cases skip with
    | succ k =>
      obtain ⟨t, rest, h⟩ := ih k acc
      exact ⟨t, rest, by simp [jsSplitGo, h]⟩
    | zero =>
      by_cases hp : sep.isPrefixOf (c :: cs) = true
      · exact ⟨[], jsSplitGo sep (sep.length - 1) [] cs, by simp [jsSplitGo, hp]⟩
      · obtain ⟨t, rest, h⟩ := ih 0 (c :: acc)
        exact ⟨c :: t, rest, by simp [jsSplitGo, hp, h]⟩

/-- A pattern that contains a character outside `good` and no character of
`stop` is not a prefix of a run of `good` characters followed by nothing or by
a `stop` character. -/
theorem isPrefixOf_run_false (good stop : Char → Bool) (bad : Char) (hbad : good bad = false) :
    ∀ (t pat suffix : JsString), bad ∈ pat → (∀ x ∈ pat, stop x = false) →
      (∀ a ∈ t, good a = true) →
      (suffix = [] ∨ ∃ c rest, suffix = c :: rest ∧ stop c = true) →
      pat.isPrefixOf (t ++ suffix) = false := by
  intro t
  induction t with
  | nil =>
    intro pat suffix hmem hstop _ hsuf
    cases pat with
    | nil => simp at hmem
    | cons x pat' =>
      rcases hsuf with rfl | ⟨c, rest, rfl, hc⟩
      · simp [List.isPrefixOf]
      · have hx : stop x = false := hstop x (by simp)
        have : x ≠ c := by rintro rfl; rw [hc] at hx; exact Bool.noConfusion hx
        simp [List.isPrefixOf, this]
  | cons a t ih =>
    intro pat suffix hmem hstop hgood hsuf
    cases pat with
    | nil => simp at hmem
    | cons x pat' =>
      by_cases hxa : x = a
      · subst hxa
        have hgx : good x = true := hgood x (by simp)
        have hne : bad ≠ x := by rintro rfl; rw [hbad] at hgx; exact Bool.noConfusion hgx
        have hmem' : bad ∈ pat' := by
          rcases List.mem_cons.mp hmem with h | h
          · exact absurd h hne
          · exact h
        have := ih pat' suffix hmem' (fun y hy => hstop y (by simp [hy]))
          (fun b hb => hgood b (by simp [hb])) hsuf
        simp [List.isPrefixOf, this]
      · simp [List.isPrefixOf, hxa]

/-- A run of characters none of which can complete the separator is added to
the segment in progress. -/
theorem jsSplitGo_run (sep : JsString) (good stop : Char → Bool) (bad : Char)
    (hbad : good bad = false) (hmem : bad ∈ sep) (hstop : ∀ x ∈ sep, stop x = false)
    (suffix : JsString) (hsuf : suffix = [] ∨ ∃ c rest, suffix = c :: rest ∧ stop c = true) :
    ∀ (t acc : JsString), (∀ a ∈ t, good a = true) →
      jsSplitGo sep 0 acc (t ++ suffix) = jsSplitGo sep 0 (t.reverse ++ acc) suffix := by
  intro t
  induction t with
  | nil => intro acc _; simp
  | cons a t ih =>
    intro acc hgood
    have hp := isPrefixOf_run_false good stop bad hbad (a :: t) sep suffix hmem hstop hgood hsuf
    have hp' : sep.isPrefixOf (a :: (t ++ suffix)) = false := by simpa using hp
    rw [List.cons_append, jsSplitGo, if_neg (by simp [hp']), ih (a :: acc)
      (fun b hb => hgood b (by simp [hb]))]
    simp

/-- Splitting at a character class: a run without class characters, then a
class character. -/
theorem splitClassGo_run (p : Char → Bool) :
    ∀ (t acc : JsString) (c : Char) (rest : JsString), (∀ a ∈ t, p a = false) → p c = true →
      splitClassGo p acc (t ++ c :: rest) = (acc.reverse ++ t) :: splitClassGo p [] rest := by
  intro t
  induction t with
  | nil => intro acc c rest _ hc; simp [splitClassGo, hc]
  | cons a t ih =>
    intro acc c rest ht hc
    have ha : p a = false := ht a (by simp)
    rw [List.cons_append, splitClassGo, if_neg (by simp [ha]),
      ih (a :: acc) c rest (fun b hb => ht b (by simp [hb])) hc]
    simp

/-- Splitting at a character class: a run without class characters up to the
end. -/
theorem splitClassGo_all (p : Char → Bool) :
    ∀ (t acc : JsString), (∀ a ∈ t, p a = false) →
      splitClassGo p acc t = [acc.reverse ++ t] := by
  intro t
  induction t with
  | nil => intro acc _; simp [splitClassGo]
  | cons a t ih =>
    intro acc ht
    have ha : p a = false := ht a (by simp)
    rw [splitClassGo, if_neg (by simp [ha]), ih (a :: acc) (fun b hb => ht b (by simp [hb]))]
    simp
theorem isIdStop_iff (c : Char) : isIdStop c = true ↔ (c = '?' ∨ c = '&' ∨ c = '#') := by
  simp [isIdStop, or_assoc]

theorem idChar_not_stop (c : Char) (h : c.isAlphanum = true ∨ c = '-' ∨ c = '_') :
    isIdStop c = false := by
  cases hs : isIdStop c with
  | false => rfl
  | true =>
    rcases (isIdStop_iff c).mp hs with rfl | rfl | rfl <;> revert h <;> decide

theorem idChar_not_dot (c : Char) (h : c.isAlphanum = true ∨ c = '-' ∨ c = '_') :
    (!decide (c = '.')) = true := by
  by_cases hc : c = '.'
  · subst hc; revert h; decide
  · simp [hc]

/-- The classifier on a non-empty URL. -/
theorem detectVideoType_ne_nil (url : JsString) (h : url ≠ []) :
    detectVideoType (some url) =
      if (includes "youtube.com".data url || includes "youtu.be".data url) = true then
        ⟨some VideoType.youtube, getYouTubeId url⟩
      else if includes "vimeo.com".data url = true then
        ⟨some VideoType.vimeo, getVimeoId url⟩
      else if (videoFileRe.exec url).isSome = true then
        ⟨some VideoType.video, some url⟩
      else ⟨none, none⟩ := by
  cases url with
  | nil => exact absurd rfl h
  | cons c cs => rfl

/-- C6: for an 11-character identifier `id` of letters, digits, `-` and `_`,
`detectVideoType("https://youtu.be/" + id + suffix)` is
`{ type: "youtube", id: id }`, where `suffix` is empty or starts with `?`,
`&` or `#`. -/
theorem youtu_be_short_link (id suffix : JsString) (_hlen : id.length = 11)
    (hid : ∀ c ∈ id, c.isAlphanum = true ∨ c = '-' ∨ c = '_')
    (hsuf : suffix = [] ∨ ∃ c rest, suffix = c :: rest ∧ (c = '?' ∨ c = '&' ∨ c = '#')) :
    detectVideoType (some ("https://youtu.be/".data ++ id ++ suffix)) =
      ⟨some VideoType.youtube, some id⟩ := by
  have hsuf' : suffix = [] ∨ ∃ c rest, suffix = c :: rest ∧ isIdStop c = true := by
    rcases hsuf with h | ⟨c, rest, h, hc⟩
    · exact Or.inl h
    · exact Or.inr ⟨c, rest, h, (isIdStop_iff c).mpr hc⟩
  have hrun := jsSplitGo_run "youtu.be/".data (fun c => !decide (c = '.')) isIdStop '.'
    (by decide) (by decide) (by decide) suffix hsuf' id [] (fun a ha => idChar_not_dot a (hid a ha))
  have hsplit : (jsSplit "youtu.be/".data ("https://youtu.be/".data ++ id ++ suffix))[1]?
      = (jsSplitGo "youtu.be/".data 0 [] (id ++ suffix))[0]? := by
    simp [jsSplit, jsSplitGo, List.isPrefixOf]
  have hinc1 : includes "youtu.be".data ("https://youtu.be/".data ++ id ++ suffix) = true := by
    simp [includes, List.isPrefixOf]
  have hinc2 : includes "youtu.be/".data ("https://youtu.be/".data ++ id ++ suffix) = true := by
    simp [includes, List.isPrefixOf]
  have hstop : ∀ a ∈ id, isIdStop a = false := fun a ha => idChar_not_stop a (hid a ha)
  have hseg : ((jsSplitGo "youtu.be/".data 0 [] (id ++ suffix))[0]?).bind
      (fun seg => (splitClass isIdStop seg).head?) = some id := by
    rw [hrun]
    rcases hsuf' with rfl | ⟨c, rest, rfl, hc⟩
    · simp [jsSplitGo, splitClass, splitClassGo_all isIdStop id [] hstop]
    · have hnp : List.isPrefixOf "youtu.be/".data (c :: rest) = false := by
        rcases (isIdStop_iff c).mp hc with rfl | rfl | rfl <;> simp [List.isPrefixOf]
      obtain ⟨t, more, ht⟩ := jsSplitGo_head "youtu.be/".data rest 0 (c :: (id.reverse ++ []))
      rw [jsSplitGo, if_neg (by simp [hnp]), ht]
      simp [splitClass, splitClassGo_run isIdStop id [] c t hstop hc]
  have hne : "https://youtu.be/".data ++ id ++ suffix ≠ [] := by simp
  rw [detectVideoType_ne_nil _ hne, hinc1]
  simp only [Bool.or_true, if_true]
  unfold getYouTubeId
  rw [hinc2, hsplit]
  simp only [if_true]
  cases hg : (jsSplitGo "youtu.be/".data 0 [] (id ++ suffix))[0]? with
  | none => rw [hg] at hseg; simp at hseg
  | some seg => rw [hg] at hseg; simpa using hseg

/-- Witness of C6: `"https://youtu.be/abcdEFGH123"` gives
`{ youtube, "abcdEFGH123" }`. -/
theorem youtu_be_short_link_witness :
    detectVideoType (some ("https://youtu.be/".data ++ "abcdEFGH123".data ++ [])) =
      ⟨some VideoType.youtube, some "abcdEFGH123".data⟩ :=
  youtu_be_short_link "abcdEFGH123".data [] (by decide) (by decide) (Or.inl rfl)

theorem mem_run_seq (a b : Re) (st m : MState) :
    m ∈ (Re.seq a b).run st ↔ ∃ x, x ∈ a.run st ∧ m ∈ b.run x := by
  simp [Re.run, List.mem_flatMap]

theorem mem_run_alt (a b : Re) (st m : MState) :
    m ∈ (Re.alt a b).run st ↔ m ∈ a.run st ∨ m ∈ b.run st := by
  simp [Re.run]

theorem mem_run_eps (st m : MState) : m ∈ Re.eps.run st ↔ m = st := by
  simp [Re.run]

theorem mem_run_eos (st m : MState) : m ∈ Re.eos.run st ↔ st.rest = [] ∧ m = st := by
  simp only [Re.run]
  split_ifs with h <;> simp [h]

theorem mem_run_chr (p : Char → Bool) (st m : MState) :
    m ∈ (Re.chr p).run st ↔ ∃ c, p c = true ∧ st.rest = c :: m.rest ∧ m.cap = st.cap := by
  obtain ⟨cap, rest⟩ := st
  obtain ⟨mc, mr⟩ := m
  cases rest with
  | nil => simp [Re.run]
  | cons c cs =>
    by_cases hp : p c = true
    · simp only [Re.run, if_pos hp, List.mem_singleton, MState.mk.injEq]
      constructor
      · rintro ⟨rfl, rfl⟩; exact ⟨c, hp, rfl, rfl⟩
      · rintro ⟨c', _, h, rfl⟩
        simp only [List.cons.injEq] at h
        exact ⟨rfl, h.2.symm⟩
    · simp only [Re.run, if_neg hp, List.not_mem_nil, false_iff]
      rintro ⟨c', hc', h, _⟩
      simp only [List.cons.injEq] at h
      exact hp (h.1 ▸ hc')

theorem mem_starRests (p : Char → Bool) :
    ∀ (s r : JsString), r ∈ starRests p s ↔ ∃ t, s = t ++ r ∧ ∀ c ∈ t, p c = true := by
  intro s
  induction s with
  | nil =>
    intro r
    simp only [starRests, List.mem_singleton]
    constructor
    · rintro rfl; exact ⟨[], rfl, by simp⟩
    · rintro ⟨t, h, _⟩
      have := List.append_eq_nil.mp h.symm
      exact this.2
  | cons c cs ih =>
    intro r
    by_cases hp : p c = true
    · simp only [starRests, if_pos hp, List.mem_append, List.mem_singleton, ih]
      constructor
      · rintro (⟨t, rfl, ht⟩ | rfl)
        · exact ⟨c :: t, rfl, by simpa [hp] using ht⟩
        · exact ⟨[], rfl, by simp⟩
      · rintro ⟨t, h, ht⟩
        cases t with
        | nil => right; simpa using h.symm
        | cons a t =>
          simp only [List.cons_append, List.cons.injEq] at h
          exact Or.inl ⟨t, h.2, fun x hx => ht x (by simp [hx])⟩
    · simp only [starRests, if_neg hp, List.mem_singleton]
      constructor
      · rintro rfl; exact ⟨[], rfl, by simp⟩
      · rintro ⟨t, h, ht⟩
        cases t with
        | nil => simpa using h.symm
        | cons a t =>
          simp only [List.cons_append, List.cons.injEq] at h
          exact absurd (h.1 ▸ ht a (by simp)) hp

theorem mem_run_star (p : Char → Bool) (st m : MState) :
    m ∈ (Re.star p).run st ↔
      m.cap = st.cap ∧ ∃ t, st.rest = t ++ m.rest ∧ ∀ c ∈ t, p c = true := by
  obtain ⟨mc, mr⟩ := m
  simp only [Re.run, List.mem_map, MState.mk.injEq, ← mem_starRests]
  constructor
  · rintro ⟨r, hr, rfl, rfl⟩; exact ⟨rfl, hr⟩
  · rintro ⟨rfl, hr⟩; exact ⟨mr, hr, rfl, rfl⟩

theorem mem_run_cap (a : Re) (st m : MState) :
    m ∈ (Re.cap a).run st ↔
      ∃ x, x ∈ a.run st ∧
        m = ⟨some (st.rest.take (st.rest.length - x.rest.length)), x.rest⟩ := by
  simp only [Re.run, List.mem_map]
  constructor
  · rintro ⟨x, hx, rfl⟩; exact ⟨x, hx, rfl⟩
  · rintro ⟨x, hx, rfl⟩; exact ⟨x, hx, rfl⟩

theorem mem_run_lit (s : JsString) :
    ∀ (st m : MState), m ∈ (Re.lit s).run st ↔ st.rest = s ++ m.rest ∧ m.cap = st.cap := by
  induction s with
  | nil =>
    intro st m
    obtain ⟨c, r⟩ := st
    obtain ⟨mc, mr⟩ := m
    simp only [Re.lit, mem_run_eps, MState.mk.injEq, List.nil_append]
    constructor
    · rintro ⟨rfl, rfl⟩; exact ⟨rfl, rfl⟩
    · rintro ⟨rfl, rfl⟩; exact ⟨rfl, rfl⟩
  | cons a s ih =>
    intro st m
    simp only [Re.lit, mem_run_seq, mem_run_chr, ih, decide_eq_true_eq, List.cons_append]
    constructor
    · rintro ⟨x, ⟨c, rfl, h1, h2⟩, h3, h4⟩
      exact ⟨by rw [h1, h3], by rw [h4, h2]⟩
    · rintro ⟨h1, h2⟩
      exact ⟨⟨st.cap, s ++ m.rest⟩, ⟨a, rfl, h1, rfl⟩, rfl, h2⟩

theorem exec_some_mem (r : Re) :
    ∀ (s : JsString) (m : MState), r.exec s = some m → ∃ t, m ∈ r.run ⟨none, t⟩ := by
  intro s
  induction s with
  | nil =>
    intro m h
    exact ⟨[], List.mem_of_mem_head? (by simpa [Re.exec] using h)⟩
  | cons c cs ih =>
    intro m h
    rw [Re.exec] at h
    cases hh : (r.run ⟨none, c :: cs⟩).head? with
    | none => rw [hh] at h; exact ih m h
    | some x =>
      rw [hh] at h
      simp only [Option.some.injEq] at h
      subst h
      exact ⟨c :: cs, List.mem_of_mem_head? hh⟩

theorem take_consumed (t r : JsString) :
    (t ++ r).take ((t ++ r).length - r.length) = t := by
  have : (t ++ r).length - r.length = t.length := by simp
  rw [this, List.take_left']
  rfl

/-- Whatever way the Vimeo pattern matches, group 1 holds a non-empty run of
digits. -/
theorem vimeoRe_cap (st m : MState) (h : m ∈ vimeoRe.run st) :
    ∃ id, m.cap = some id ∧ id ≠ [] ∧ ∀ c ∈ id, isJsDigit c = true := by
  simp only [vimeoRe, mem_run_seq] at h
  obtain ⟨x1, _, x2, _, x3, h3, h4⟩ := h
  have hcap : m.cap = x3.cap := by
    simp only [mem_run_alt, mem_run_eos, mem_run_lit] at h4
    rcases h4 with ⟨_, rfl⟩ | ⟨_, h⟩ | ⟨_, h⟩
    · rfl
    · exact h
    · exact h
  rw [mem_run_cap] at h3
  obtain ⟨y, hy, rfl⟩ := h3
  simp only [Re.plus, mem_run_seq, mem_run_chr, mem_run_star] at hy
  obtain ⟨z, ⟨c, hc, hz, _⟩, _, t, ht, hdig⟩ := hy
  refine ⟨c :: t, ?_, by simp, ?_⟩
  · have hx : x2.rest = (c :: t) ++ y.rest := by rw [hz, ht]; rfl
    rw [hcap]
    show some (List.take (x2.rest.length - y.rest.length) x2.rest) = some (c :: t)
    rw [hx, take_consumed]
  · intro a ha
    rcases List.mem_cons.mp ha with rfl | ha
    · exact hc
    · exact hdig a ha

theorem head_seq (a b : Re) (st x m : MState) (ha : (a.run st).head? = some x)
    (hb : (b.run x).head? = some m) : ((Re.seq a b).run st).head? = some m := by
  cases h1 : a.run st with
  | nil => rw [h1] at ha; simp at ha
  | cons y ys =>
    rw [h1] at ha
    simp only [List.head?_cons, Option.some.injEq] at ha
    subst ha
    cases h2 : b.run y with
    | nil => rw [h2] at hb; simp at hb
    | cons z zs =>
      rw [h2] at hb
      simp only [List.head?_cons, Option.some.injEq] at hb
      subst hb
      simp [Re.run, h1, h2]

theorem head_alt_left (a b : Re) (st m : MState) (ha : (a.run st).head? = some m) :
    ((Re.alt a b).run st).head? = some m := by
  cases h1 : a.run st with
  | nil => rw [h1] at ha; simp at ha
  | cons y ys =>
    rw [h1] at ha
    simp only [List.head?_cons, Option.some.injEq] at ha
    subst ha
    simp [Re.run, h1]

theorem head_alt_right (a b : Re) (st : MState) (ha : a.run st = []) :
    ((Re.alt a b).run st).head? = (b.run st).head? := by
  simp [Re.run, ha]

theorem run_seq_nil (a b : Re) (st : MState) (ha : a.run st = []) :
    (Re.seq a b).run st = [] := by
  simp [Re.run, ha]

theorem run_lit_append (s : JsString) :
    ∀ (cap : Option JsString) (rest : JsString),
      (Re.lit s).run ⟨cap, s ++ rest⟩ = [⟨cap, rest⟩] := by
  induction s with
  | nil => intro cap rest; simp [Re.lit, Re.run]
  | cons a s ih => intro cap rest; simp [Re.lit, Re.run, ih]

theorem run_lit_mismatch (a b : Char) (s rest : JsString) (cap : Option JsString)
    (h : b ≠ a) : (Re.lit (a :: s)).run ⟨cap, b :: rest⟩ = [] := by
  simp [Re.lit, Re.run, h]

theorem head_starRests (p : Char → Bool) (rest : JsString)
    (hrest : rest = [] ∨ ∃ c r, rest = c :: r ∧ p c = false) :
    ∀ t : JsString, (∀ c ∈ t, p c = true) → (starRests p (t ++ rest)).head? = some rest := by
  intro t
  induction t with
  | nil =>
    intro _
    rcases hrest with rfl | ⟨c, r, rfl, hc⟩
    · simp [starRests]
    · simp [starRests, hc]
  | cons a t ih =>
    intro ht
    have ha : p a = true := ht a (by simp)
    have := ih (fun c hc => ht c (by simp [hc]))
    cases hs : starRests p (t ++ rest) with
    | nil => rw [hs] at this; simp at this
    | cons y ys =>
      rw [hs] at this
      simp only [List.head?_cons, Option.some.injEq] at this
      simp [starRests, ha, hs, this]

theorem head_star (p : Char → Bool) (cap : Option JsString) (t rest : JsString)
    (ht : ∀ c ∈ t, p c = true) (hrest : rest = [] ∨ ∃ c r, rest = c :: r ∧ p c = false) :
    ((Re.star p).run ⟨cap, t ++ rest⟩).head? = some ⟨cap, rest⟩ := by
  have := head_starRests p rest hrest t ht
  cases hs : starRests p (t ++ rest) with
  | nil => rw [hs] at this; simp at this
  | cons y ys =>
    rw [hs] at this
    simp only [List.head?_cons, Option.some.injEq] at this
    simp [Re.run, hs, this]

theorem head_plus (p : Char → Bool) (cap : Option JsString) (t rest : JsString)
    (hne : t ≠ []) (ht : ∀ c ∈ t, p c = true)
    (hrest : rest = [] ∨ ∃ c r, rest = c :: r ∧ p c = false) :
    ((Re.plus p).run ⟨cap, t ++ rest⟩).head? = some ⟨cap, rest⟩ := by
  cases t with
  | nil => exact absurd rfl hne
  | cons a t =>
    have ha : p a = true := ht a (by simp)
    refine head_seq _ _ _ ⟨cap, t ++ rest⟩ _ ?_ ?_
    · simp [Re.run, ha]
    · exact head_star p cap t rest (fun c hc => ht c (by simp [hc])) hrest

theorem head_cap (a : Re) (st x : MState) (t : JsString) (ha : (a.run st).head? = some x)
    (hst : st.rest = t ++ x.rest) : ((Re.cap a).run st).head? = some ⟨some t, x.rest⟩ := by
  cases h1 : a.run st with
  | nil => rw [h1] at ha; simp at ha
  | cons y ys =>
    rw [h1] at ha
    simp only [List.head?_cons, Option.some.injEq] at ha
    subst ha
    simp only [Re.run, h1, List.map_cons, List.head?_cons, Option.some.injEq, MState.mk.injEq,
      and_true]
    rw [hst, take_consumed]

theorem exec_skip (r : Re) (c : Char) (cs : JsString) (h : r.run ⟨none, c :: cs⟩ = []) :
    r.exec (c :: cs) = r.exec cs := by
  rw [Re.exec, h]
  rfl

theorem exec_hit (r : Re) (s : JsString) (m : MState) (h : (r.run ⟨none, s⟩).head? = some m) :
    r.exec s = some m := by
  cases s with
  | nil => simpa [Re.exec] using h
  | cons c cs => rw [Re.exec, h]

/-- The path alternation of the Vimeo pattern. -/
theorem vimeoRe_eq :
    vimeoRe =
      Re.seq (Re.lit "vimeo.com/".data)
        (Re.seq
          (Re.alt (Re.lit "video/".data)
            (Re.alt
              (Re.seq (Re.lit "channels/".data)
                (Re.opt (Re.seq (Re.plus isJsWord) (Re.lit "/".data))))
              (Re.alt
                (Re.seq (Re.lit "groups/".data)
                  (Re.seq (Re.star notSlash) (Re.lit "/videos/".data)))
                (Re.alt
                  (Re.seq (Re.lit "album/".data)
                    (Re.seq (Re.plus isJsDigit) (Re.lit "/video/".data)))
                  Re.eps))))
          (Re.seq (Re.cap (Re.plus isJsDigit))
            (Re.alt Re.eos (Re.alt (Re.lit "/".data) (Re.lit "?".data))))) := rfl

theorem vimeo_tail_head (cap : Option JsString) (tail : JsString)
    (htail : tail = [] ∨ ∃ c rest, tail = c :: rest ∧ (c = '/' ∨ c = '?')) :
    ∃ m, ((Re.alt Re.eos (Re.alt (Re.lit "/".data) (Re.lit "?".data))).run ⟨cap, tail⟩).head?
      = some m ∧ m.cap = cap := by
  rcases htail with rfl | ⟨c, rest, rfl, rfl | rfl⟩
  · exact ⟨⟨cap, []⟩, by simp [Re.run], rfl⟩
  · exact ⟨⟨cap, rest⟩, by simp [Re.run, Re.lit], rfl⟩
  · exact ⟨⟨cap, rest⟩, by simp [Re.run, Re.lit], rfl⟩

theorem vimeo_digits_head (d tail : JsString) (hne : d ≠ [])
    (hd : ∀ c ∈ d, isJsDigit c = true)
    (htail : tail = [] ∨ ∃ c rest, tail = c :: rest ∧ (c = '/' ∨ c = '?')) :
    ∃ m, ((Re.seq (Re.cap (Re.plus isJsDigit))
        (Re.alt Re.eos (Re.alt (Re.lit "/".data) (Re.lit "?".data)))).run
          ⟨none, d ++ tail⟩).head? = some m ∧ m.cap = some d := by
  have hrest : tail = [] ∨ ∃ c r, tail = c :: r ∧ isJsDigit c = false := by
    rcases htail with h | ⟨c, rest, h, hc⟩
    · exact Or.inl h
    · refine Or.inr ⟨c, rest, h, ?_⟩
      rcases hc with rfl | rfl <;> decide
  have h1 := head_plus isJsDigit none d tail hne hd hrest
  have h2 := head_cap (Re.plus isJsDigit) ⟨none, d ++ tail⟩ ⟨none, tail⟩ d h1 rfl
  obtain ⟨m, hm, hcap⟩ := vimeo_tail_head (some d) tail htail
  exact ⟨m, head_seq _ _ _ _ _ h2 hm, hcap⟩

theorem digit_ne_path_letter (c : Char) (h : isJsDigit c = true) :
    c ≠ 'v' ∧ c ≠ 'c' ∧ c ≠ 'g' ∧ c ≠ 'a' := by
  refine ⟨?_, ?_, ?_, ?_⟩ <;> (rintro rfl; revert h; decide)

theorem vimeo_path_head (pre d tail : JsString) (hpre : VimeoPath pre) (hne : d ≠ [])
    (hd : ∀ c ∈ d, isJsDigit c = true) :
    ((Re.alt (Re.lit "video/".data)
      (Re.alt
        (Re.seq (Re.lit "channels/".data)
          (Re.opt (Re.seq (Re.plus isJsWord) (Re.lit "/".data))))
        (Re.alt
          (Re.seq (Re.lit "groups/".data)
            (Re.seq (Re.star notSlash) (Re.lit "/videos/".data)))
          (Re.alt
            (Re.seq (Re.lit "album/".data)
              (Re.seq (Re.plus isJsDigit) (Re.lit "/video/".data)))
            Re.eps)))).run ⟨none, pre ++ (d ++ tail)⟩).head? = some ⟨none, d ++ tail⟩ := by
  cases hpre with
  | plain =>
    cases d with
    | nil => exact absurd rfl hne
    | cons c d =>
      obtain ⟨h1, h2, h3, h4⟩ := digit_ne_path_letter c (hd c (by simp))
      rw [head_alt_right _ _ _ (by simp [Re.run, Re.lit, h1]),
        head_alt_right _ _ _ (by simp [Re.run, Re.lit, h2]),
        head_alt_right _ _ _ (by simp [Re.run, Re.lit, h3]),
        head_alt_right _ _ _ (by simp [Re.run, Re.lit, h4])]
      simp [Re.run]
  | video =>
    exact head_alt_left _ _ _ _ (by rw [run_lit_append]; rfl)
  | channel name hn hw =>
    rw [head_alt_right _ _ _ (by simp [Re.run, Re.lit])]
    refine head_alt_left _ _ _ _ ?_
    refine head_seq _ _ _ ⟨none, name ++ ("/".data ++ (d ++ tail))⟩ _ ?_ ?_
    · rw [List.append_assoc, List.append_assoc, run_lit_append]; rfl
    · refine head_alt_left _ _ _ _ ?_
      refine head_seq _ _ _ ⟨none, "/".data ++ (d ++ tail)⟩ _ ?_ ?_
      · exact head_plus isJsWord none name _ hn hw (Or.inr ⟨'/', d ++ tail, rfl, by decide⟩)
      · rw [run_lit_append]; rfl
  | group name hs =>
    rw [head_alt_right _ _ _ (by simp [Re.run, Re.lit]),
      head_alt_right _ _ _ (by simp [Re.run, Re.lit])]
    refine head_alt_left _ _ _ _ ?_
    refine head_seq _ _ _ ⟨none, name ++ ("/videos/".data ++ (d ++ tail))⟩ _ ?_ ?_
    · rw [List.append_assoc, List.append_assoc, run_lit_append]; rfl
    · refine head_seq _ _ _ ⟨none, "/videos/".data ++ (d ++ tail)⟩ _ ?_ ?_
      · exact head_star notSlash none name _ hs
          (Or.inr ⟨'/', "videos/".data ++ (d ++ tail), rfl, by decide⟩)
      · rw [run_lit_append]; rfl
  | album digits hn hdig =>
    rw [head_alt_right _ _ _ (by simp [Re.run, Re.lit]),
      head_alt_right _ _ _ (by simp [Re.run, Re.lit]),
      head_alt_right _ _ _ (by simp [Re.run, Re.lit])]
    refine head_alt_left _ _ _ _ ?_
    refine head_seq _ _ _ ⟨none, digits ++ ("/video/".data ++ (d ++ tail))⟩ _ ?_ ?_
    · rw [List.append_assoc, List.append_assoc, run_lit_append]; rfl
    · refine head_seq _ _ _ ⟨none, "/video/".data ++ (d ++ tail)⟩ _ ?_ ?_
      · exact head_plus isJsDigit none digits _ hn hdig
          (Or.inr ⟨'/', "video/".data ++ (d ++ tail), rfl, by decide⟩)
      · rw [run_lit_append]; rfl

theorem getVimeoId_known_path (pre d tail : JsString) (hpre : VimeoPath pre) (hne : d ≠ [])
    (hd : ∀ c ∈ d, isJsDigit c = true)
    (htail : tail = [] ∨ ∃ c rest, tail = c :: rest ∧ (c = '/' ∨ c = '?')) :
    getVimeoId ("https://vimeo.com/".data ++ (pre ++ (d ++ tail))) = some d := by
  obtain ⟨m, hm, hcap⟩ := vimeo_digits_head d tail hne hd htail
  have hpath := vimeo_path_head pre d tail hpre hne hd
  have hhead : (vimeoRe.run ⟨none, "vimeo.com/".data ++ (pre ++ (d ++ tail))⟩).head? = some m := by
    rw [vimeoRe_eq]
    refine head_seq _ _ _ ⟨none, pre ++ (d ++ tail)⟩ _ ?_ ?_
    · rw [run_lit_append]; rfl
    · exact head_seq _ _ _ _ _ hpath hm
  have hexec : vimeoRe.exec ("https://vimeo.com/".data ++ (pre ++ (d ++ tail))) = some m := by
    show vimeoRe.exec ('h' :: 't' :: 't' :: 'p' :: 's' :: ':' :: '/' :: '/' ::
      ("vimeo.com/".data ++ (pre ++ (d ++ tail)))) = some m
    rw [exec_skip _ _ _ (by simp [vimeoRe, Re.run, Re.lit]),
      exec_skip _ _ _ (by simp [vimeoRe, Re.run, Re.lit]),
      exec_skip _ _ _ (by simp [vimeoRe, Re.run, Re.lit]),
      exec_skip _ _ _ (by simp [vimeoRe, Re.run, Re.lit]),
      exec_skip _ _ _ (by simp [vimeoRe, Re.run, Re.lit]),
      exec_skip _ _ _ (by simp [vimeoRe, Re.run, Re.lit]),
      exec_skip _ _ _ (by simp [vimeoRe, Re.run, Re.lit]),
      exec_skip _ _ _ (by simp [vimeoRe, Re.run, Re.lit])]
    exact exec_hit _ _ _ hhead
  rw [getVimeoId, hexec]
  exact hcap

theorem getVimeoId_digits (url id : JsString) (h : getVimeoId url = some id) :
    id ≠ [] ∧ ∀ c ∈ id, isJsDigit c = true := by
  rw [getVimeoId] at h
  cases he : vimeoRe.exec url with
  | none => rw [he] at h; simp at h
  | some m =>
    rw [he] at h
    obtain ⟨t, ht⟩ := exec_some_mem vimeoRe url m he
    obtain ⟨id', h1, h2, h3⟩ := vimeoRe_cap _ _ ht
    have : id' = id := by
      have h' : m.cap = some id := h
      rw [h1] at h'
      exact Option.some.inj h'
    subst this
    exact ⟨h2, h3⟩

/-- C7, as amended: for a non-empty digit string `d`, a known path shape `pre`
and a `tail` that is empty or starts with `/` or `?`, the URL
`"https://vimeo.com/" + pre + d + tail`, when it contains neither
`"youtube.com"` nor `"youtu.be"`, is classified as `{ vimeo, d }`; and
every non-null id returned with type `vimeo` is a non-empty string of
digits. -/
theorem vimeo_id_extraction (pre d tail : JsString) (hpre : VimeoPath pre) (hne : d ≠ [])
    (hd : ∀ c ∈ d, isJsDigit c = true)
    (htail : tail = [] ∨ ∃ c rest, tail = c :: rest ∧ (c = '/' ∨ c = '?'))
    (hyc : includes "youtube.com".data ("https://vimeo.com/".data ++ (pre ++ (d ++ tail))) = false)
    (hyb : includes "youtu.be".data ("https://vimeo.com/".data ++ (pre ++ (d ++ tail))) = false) :
    detectVideoType (some ("https://vimeo.com/".data ++ (pre ++ (d ++ tail)))) =
        ⟨some VideoType.vimeo, some d⟩ ∧
    ∀ (url : Option JsString) (id : JsString),
      detectVideoType url = ⟨some VideoType.vimeo, some id⟩ →
        id ≠ [] ∧ ∀ c ∈ id, isJsDigit c = true := by
  constructor
  · have hne' : "https://vimeo.com/".data ++ (pre ++ (d ++ tail)) ≠ [] := by simp
    have hv : includes "vimeo.com".data ("https://vimeo.com/".data ++ (pre ++ (d ++ tail))) = true := by
      simp [includes, List.isPrefixOf]
    rw [detectVideoType_ne_nil _ hne', hyc, hyb, hv, getVimeoId_known_path pre d tail hpre hne hd htail]
    simp
  · intro url id h
    cases url with
    | none => simp [detectVideoType] at h
    | some u =>
      by_cases hu : u = []
      · subst hu; simp [detectVideoType] at h
      · rw [detectVideoType_ne_nil _ hu] at h
        split_ifs at h with h1 h2 h3
        · simp at h
        · simp only [VideoData.mk.injEq, true_and] at h
          exact getVimeoId_digits u id h
        · simp at h
        · simp at h

/-- Witness of C7: `"https://vimeo.com/123456789"` gives
`{ vimeo, "123456789" }`. -/
theorem vimeo_id_extraction_witness :
    detectVideoType (some ("https://vimeo.com/".data ++ ([] ++ ("123456789".data ++ [])))) =
        ⟨some VideoType.vimeo, some "123456789".data⟩ ∧
    ∀ (url : Option JsString) (id : JsString),
      detectVideoType url = ⟨some VideoType.vimeo, some id⟩ →
        id ≠ [] ∧ ∀ c ∈ id, isJsDigit c = true :=
  vimeo_id_extraction [] "123456789".data [] VimeoPath.plain (by decide) (by decide)
    (Or.inl rfl) (by decide) (by decide)

/-- Counterexample to C7 as stated: a plain Vimeo URL whose id is followed by
`?` and a query that mentions `youtu.be` is classified as YouTube with no id; a
group URL whose group name is `youtu.be` is classified as YouTube with id
`videos/123`; a channel URL whose name has a hyphen gets no id. -/
theorem vimeo_id_counterexample :
    detectVideoType (some "https://vimeo.com/123456789?share=youtu.be".data) =
        ⟨some VideoType.youtube, none⟩ ∧
    detectVideoType (some "https://vimeo.com/groups/youtu.be/videos/123".data) =
        ⟨some VideoType.youtube, some "videos/123".data⟩ ∧
    detectVideoType (some "https://vimeo.com/channels/staff-picks/123".data) =
        ⟨some VideoType.vimeo, none⟩ := by
  decide

theorem mem_run_liti (s : JsString) :
    ∀ (st m : MState), m ∈ (Re.liti s).run st ↔
      ∃ t, st.rest = t ++ m.rest ∧ t.map Char.toLower = s ∧ m.cap = st.cap := by
  induction s with
  | nil =>
    intro st m
    obtain ⟨c, r⟩ := st
    obtain ⟨mc, mr⟩ := m
    simp only [Re.liti, mem_run_eps, MState.mk.injEq, List.map_eq_nil_iff]
    constructor
    · rintro ⟨rfl, rfl⟩; exact ⟨[], rfl, rfl, rfl⟩
    · rintro ⟨t, h, rfl, rfl⟩; exact ⟨rfl, h.symm⟩
  | cons a s ih =>
    intro st m
    simp only [Re.liti, mem_run_seq, mem_run_chr, ih, decide_eq_true_eq]
    constructor
    · rintro ⟨x, ⟨c, rfl, h1, h2⟩, t, h3, rfl, h4⟩
      exact ⟨c :: t, by rw [h1, h3]; rfl, rfl, by rw [h4, h2]⟩
    · rintro ⟨t, h1, h2, h3⟩
      cases t with
      | nil => simp at h2
      | cons c t =>
        simp only [List.map_cons, List.cons.injEq] at h2
        exact ⟨⟨st.cap, t ++ m.rest⟩, ⟨c, h2.1, h1, rfl⟩, t, rfl, h2.2, h3⟩

theorem exec_isSome_iff (r : Re) :
    ∀ s : JsString, (r.exec s).isSome = true ↔ ∃ p t, s = p ++ t ∧ r.run ⟨none, t⟩ ≠ [] := by
  intro s
  induction s with
  | nil =>
    cases h : r.run ⟨none, []⟩ with
    | nil =>
      simp only [Re.exec, h, List.head?_nil, Option.isSome_none, Bool.false_eq_true, false_iff]
      rintro ⟨p, t, hpt, hne⟩
      have := List.append_eq_nil.mp hpt.symm
      rw [this.2] at hne
      exact hne h
    | cons x xs =>
      simp only [Re.exec, h, List.head?_cons, Option.isSome_some, true_iff]
      exact ⟨[], [], rfl, by rw [h]; simp⟩
  | cons c cs ih =>
    cases h : r.run ⟨none, c :: cs⟩ with
    | nil =>
      rw [exec_skip r c cs h, ih]
      constructor
      · rintro ⟨p, t, rfl, hne⟩; exact ⟨c :: p, t, rfl, hne⟩
      · rintro ⟨p, t, hpt, hne⟩
        cases p with
        | nil =>
          simp only [List.nil_append] at hpt
          rw [← hpt] at hne
          exact absurd h hne
        | cons a p =>
          simp only [List.cons_append, List.cons.injEq] at hpt
          exact ⟨p, t, hpt.2, hne⟩
    | cons x xs =>
      simp only [Re.exec, h, List.head?_cons, Option.isSome_some, true_iff]
      exact ⟨[], c :: cs, rfl, by rw [h]; simp⟩

theorem ne_nil_iff_exists_mem {α : Type} (l : List α) : l ≠ [] ↔ ∃ m, m ∈ l := by
  cases l with
  | nil => simp
  | cons a l => simp

theorem videoFileRe_run_ne_nil_iff (t : JsString) :
    videoFileRe.run ⟨none, t⟩ ≠ [] ↔
      ∃ ext q, t = '.' :: (ext ++ q) ∧
        ext.map Char.toLower ∈ ["mp4".data, "webm".data, "ogg".data, "mov".data] ∧
        (q = [] ∨ ∃ r, q = '?' :: r) := by
  rw [ne_nil_iff_exists_mem]
  simp only [videoFileRe, mem_run_seq, mem_run_alt, mem_run_lit, mem_run_liti, mem_run_eos]
  constructor
  · rintro ⟨m, x, ⟨hx, _⟩, y, hy, hm⟩
    have hq : y.rest = [] ∨ ∃ r, y.rest = '?' :: r := by
      rcases hm with ⟨h, _⟩ | ⟨h, _⟩
      · exact Or.inl h
      · exact Or.inr ⟨m.rest, h⟩
    have hext : ∃ e, x.rest = e ++ y.rest ∧
        e.map Char.toLower ∈ ["mp4".data, "webm".data, "ogg".data, "mov".data] := by
      rcases hy with ⟨e, h1, h2, _⟩ | ⟨e, h1, h2, _⟩ | ⟨e, h1, h2, _⟩ | ⟨e, h1, h2, _⟩
      · exact ⟨e, h1, by rw [h2]; simp⟩
      · exact ⟨e, h1, by rw [h2]; simp⟩
      · exact ⟨e, h1, by rw [h2]; simp⟩
      · exact ⟨e, h1, by rw [h2]; simp⟩
    obtain ⟨e, he, hmem⟩ := hext
    exact ⟨e, y.rest, by rw [hx, he]; rfl, hmem, hq⟩
  · rintro ⟨ext, q, rfl, hmem, hq⟩
    have hm : ∃ m : MState, (q = [] ∧ m = ⟨none, q⟩) ∨
        (q = "?".data ++ m.rest ∧ m.cap = none) := by
      rcases hq with rfl | ⟨r, rfl⟩
      · exact ⟨⟨none, []⟩, Or.inl ⟨rfl, rfl⟩⟩
      · exact ⟨⟨none, r⟩, Or.inr ⟨rfl, rfl⟩⟩
    obtain ⟨m, hm⟩ := hm
    refine ⟨m, ⟨none, ext ++ q⟩, ⟨rfl, rfl⟩, ⟨none, q⟩, ?_, hm⟩
    simp only [List.mem_cons, List.mem_singleton, List.not_mem_nil, or_false] at hmem
    rcases hmem with h | h | h | h
    · exact Or.inl ⟨ext, rfl, h, rfl⟩
    · exact Or.inr (Or.inl ⟨ext, rfl, h, rfl⟩)
    · exact Or.inr (Or.inr (Or.inl ⟨ext, rfl, h, rfl⟩))
    · exact Or.inr (Or.inr (Or.inr ⟨ext, rfl, h, rfl⟩))

/-- The test `url.match(/\.(mp4|webm|ogg|mov)($|\?)/i)` succeeds exactly on the
URLs that have a video file extension in the sense of the specification. -/
theorem videoFileRe_exec_iff (url : JsString) :
    (videoFileRe.exec url).isSome = true ↔ hasVideoFileExtension url := by
  rw [exec_isSome_iff]
  constructor
  · rintro ⟨p, t, rfl, hne⟩
    obtain ⟨ext, q, rfl, h1, h2⟩ := (videoFileRe_run_ne_nil_iff t).mp hne
    exact ⟨p, ext, q, rfl, h1, h2⟩
  · rintro ⟨p, ext, q, rfl, h1, h2⟩
    exact ⟨p, _, rfl, (videoFileRe_run_ne_nil_iff _).mpr ⟨ext, q, rfl, h1, h2⟩⟩

/-- C8: a URL that contains none of `"youtube.com"`, `"youtu.be"`,
`"vimeo.com"` and ends in `.mp4`, `.webm`, `.ogg` or `.mov` (in any letter
case), optionally followed by `?` and a query string, is classified as
`{ type: "video", id: url }` with the URL itself, unchanged, as id. -/
theorem direct_file_classified (p ext q : JsString)
    (hext : ext.map Char.toLower ∈ ["mp4".data, "webm".data, "ogg".data, "mov".data])
    (hq : q = [] ∨ ∃ r, q = '?' :: r)
    (hyc : includes "youtube.com".data (p ++ ('.' :: (ext ++ q))) = false)
    (hyb : includes "youtu.be".data (p ++ ('.' :: (ext ++ q))) = false)
    (hvm : includes "vimeo.com".data (p ++ ('.' :: (ext ++ q))) = false) :
    detectVideoType (some (p ++ ('.' :: (ext ++ q)))) =
      ⟨some VideoType.video, some (p ++ ('.' :: (ext ++ q)))⟩ := by
  have hne : p ++ ('.' :: (ext ++ q)) ≠ [] := by simp
  have hm : (videoFileRe.exec (p ++ ('.' :: (ext ++ q)))).isSome = true :=
    (videoFileRe_exec_iff _).mpr ⟨p, ext, q, rfl, hext, hq⟩
  rw [detectVideoType_ne_nil _ hne, hyc, hyb, hvm, hm]
  simp

/-- Witness of C8: `"https://example.com/video.mp4?x=1"`. -/
theorem direct_file_classified_witness :
    detectVideoType
        (some ("https://example.com/video".data ++ ('.' :: ("mp4".data ++ "?x=1".data)))) =
      ⟨some VideoType.video,
        some ("https://example.com/video".data ++ ('.' :: ("mp4".data ++ "?x=1".data)))⟩ :=
  direct_file_classified "https://example.com/video".data "mp4".data "?x=1".data (by decide)
    (Or.inr ⟨"x=1".data, rfl⟩) (by decide) (by decide) (by decide)

/-- C9: `detectVideoType` returns `{ type: null, id: null }` exactly when the
URL is missing or empty, or contains none of `"youtube.com"`, `"youtu.be"`,
`"vimeo.com"` and has no video file extension (in any letter case) followed by
the end of the string or `?`; in every other case the type is `youtube`,
`vimeo` or `video`.  `"https://example.com/page"` gives `{ null, null }`, and
`initializeSingleVideo` returns with the state as it is for an image with that
URL. -/
theorem unknown_exactly_when (url : Option JsString) :
    (detectVideoType url = ⟨none, none⟩ ↔
      (url = none ∨ url = some [] ∨
        ∃ u, url = some u ∧ includes "youtube.com".data u = false ∧
          includes "youtu.be".data u = false ∧ includes "vimeo.com".data u = false ∧
          ¬ hasVideoFileExtension u)) ∧
    (detectVideoType url ≠ ⟨none, none⟩ →
      ((detectVideoType url).type = some VideoType.youtube ∨
        (detectVideoType url).type = some VideoType.vimeo ∨
        (detectVideoType url).type = some VideoType.video)) ∧
    detectVideoType (some "https://example.com/page".data) = ⟨none, none⟩ ∧
    (∀ (img : Img) (wrapper : ℕ) (referenceImg : Img) (σ : State),
      img.getAttribute "data-dt-video-url" = some "https://example.com/page".data →
        initializeSingleVideo img wrapper referenceImg σ = Outcome.returned σ) := by
  refine ⟨?_, ?_, by decide, ?_⟩
  · cases url with
    | none => simp [detectVideoType]
    | some u =>
      by_cases hu : u = []
      · subst hu; simp [detectVideoType]
      · have hR : (some u = none ∨ some u = some [] ∨
            ∃ u1, some u = some u1 ∧ includes "youtube.com".data u1 = false ∧
              includes "youtu.be".data u1 = false ∧ includes "vimeo.com".data u1 = false ∧
              ¬ hasVideoFileExtension u1) ↔
            (includes "youtube.com".data u = false ∧ includes "youtu.be".data u = false ∧
              includes "vimeo.com".data u = false ∧ ¬ (videoFileRe.exec u).isSome = true) := by
          rw [videoFileRe_exec_iff]
          constructor
          · rintro (h | h | ⟨u1, h, rest⟩)
            · cases h
            · exact absurd (Option.some.inj h) hu
            · cases h; exact rest
          · intro h; exact Or.inr (Or.inr ⟨u, rfl, h⟩)
        rw [detectVideoType_ne_nil _ hu, hR]
        cases h1 : includes "youtube.com".data u <;> cases h2 : includes "youtu.be".data u <;>
          cases h3 : includes "vimeo.com".data u <;> cases h4 : (videoFileRe.exec u).isSome <;>
          simp
  · intro _
    cases url with
    | none => simp [detectVideoType] at *
    | some u =>
      by_cases hu : u = []
      · subst hu; simp [detectVideoType] at *
      · rw [detectVideoType_ne_nil _ hu] at *
        split_ifs at * <;> simp at *
  · intro img wrapper referenceImg σ h
    have hd : detectVideoType (some "https://example.com/page".data) = ⟨none, none⟩ := by decide
    simp only [initializeSingleVideo, h, hd]

/-- C10: classification is first match wins, in the order YouTube, Vimeo,
direct file: a URL containing `"youtube.com"` or `"youtu.be"` is classified as
`youtube` with the id `getYouTubeId` extracts (maybe `null`), whatever else
it contains; a URL without those markers that contains `"vimeo.com"` is
classified as `vimeo` with the id `getVimeoId` extracts (maybe `null`).  A
YouTube URL that also names `vimeo.com` and ends in `.mp4`, and whose id
extraction fails, stays `{ youtube, null }`; a Vimeo URL ending in `.mp4` whose
id extraction fails stays `{ vimeo, null }`. -/
theorem first_match_wins (url : JsString) :
    ((includes "youtube.com".data url = true ∨ includes "youtu.be".data url = true) →
      detectVideoType (some url) = ⟨some VideoType.youtube, getYouTubeId url⟩) ∧
    (includes "youtube.com".data url = false → includes "youtu.be".data url = false →
      includes "vimeo.com".data url = true →
      detectVideoType (some url) = ⟨some VideoType.vimeo, getVimeoId url⟩) ∧
    detectVideoType (some "https://youtube.com/vimeo.com/x.mp4".data) =
      ⟨some VideoType.youtube, none⟩ ∧
    detectVideoType (some "https://vimeo.com/x.mp4".data) = ⟨some VideoType.vimeo, none⟩ := by
  refine ⟨?_, ?_, by decide, by decide⟩
  · intro h
    have hne : url ≠ [] := by
      rintro rfl
      revert h
      decide
    rw [detectVideoType_ne_nil _ hne]
    rcases h with h | h <;> simp [h]
  · intro h1 h2 h3
    have hne : url ≠ [] := by
      rintro rfl
      revert h3
      decide
    rw [detectVideoType_ne_nil _ hne, h1, h2, h3]
    simp

theorem getSlot_setSlot_eq {α : Type} :
    ∀ (arr : List (Option α)) (i : ℕ) (v : Option α), getSlot (setSlot arr i v) i = v := by
  intro arr
  induction arr with
  | nil =>
    intro i
    induction i with
    | zero => intro v; simp [setSlot, getSlot]
    | succ i ih => intro v; simpa [setSlot, getSlot] using ih v
  | cons x xs ih =>
    intro i v
    cases i with
    | zero => simp [setSlot, getSlot]
    | succ i => simpa [setSlot, getSlot] using ih i v

theorem getSlot_nil {α : Type} (j : ℕ) : getSlot ([] : List (Option α)) j = none := by
  simp [getSlot]

theorem getSlot_setSlot_ne {α : Type} :
    ∀ (arr : List (Option α)) (i j : ℕ) (v : Option α), j ≠ i →
      getSlot (setSlot arr i v) j = getSlot arr j := by
  intro arr
  induction arr with
  | nil =>
    intro i
    induction i with
    | zero =>
      intro j v hj
      cases j with
      | zero => exact absurd rfl hj
      | succ j => simp [setSlot, getSlot]
    | succ i ih =>
      intro j v hj
      cases j with
      | zero => simp [setSlot, getSlot]
      | succ j =>
        have := ih j v (fun h => hj (by rw [h]))
        simpa [setSlot, getSlot] using this
  | cons x xs ih =>
    intro i j v hj
    cases i with
    | zero =>
      cases j with
      | zero => exact absurd rfl hj
      | succ j => simp [setSlot, getSlot]
    | succ i =>
      cases j with
      | zero => simp [setSlot, getSlot]
      | succ j =>
        have := ih i j v (fun h => hj (by rw [h]))
        simpa [setSlot, getSlot] using this

theorem modifyWrapper_length (f : Wrapper → Wrapper) :
    ∀ (ws : List Wrapper) (k : ℕ), (modifyWrapper f ws k).length = ws.length := by
  intro ws
  induction ws with
  | nil => intro k; simp [modifyWrapper]
  | cons w ws ih =>
    intro k
    cases k with
    | zero => simp [modifyWrapper]
    | succ k => simp [modifyWrapper, ih]

theorem modifyWrapper_getElem? (f : Wrapper → Wrapper) :
    ∀ (ws : List Wrapper) (k j : ℕ),
      (modifyWrapper f ws k)[j]? = if j = k then (ws[j]?).map f else ws[j]? := by
  intro ws
  induction ws with
  | nil => intro k j; simp [modifyWrapper]
  | cons w ws ih =>
    intro k j
    cases k with
    | zero =>
      cases j with
      | zero => simp [modifyWrapper]
      | succ j => simp [modifyWrapper]
    | succ k =>
      cases j with
      | zero => simp [modifyWrapper]
      | succ j => simp [modifyWrapper, ih]

theorem modifyWrapper_append_last (f : Wrapper → Wrapper) :
    ∀ (ws : List Wrapper) (w : Wrapper),
      modifyWrapper f (ws ++ [w]) ws.length = ws ++ [f w] := by
  intro ws
  induction ws with
  | nil => intro w; simp [modifyWrapper]
  | cons x xs ih => intro w; simp [modifyWrapper, ih]

theorem state_returned (σ : State) : (Outcome.returned σ).state = σ := rfl

theorem state_threw (σ : State) : (Outcome.threw σ).state = σ := rfl

/-- The three outcomes of `initializeSingleVideo`: the descriptor does not
resolve and the call returns with nothing changed; it resolves to a direct file
whose `video` element cannot be built, and the call throws with the
placeholder removed; or it resolves, the player is built in the wrapper, one
session is pushed and the call returns. -/
theorem initializeSingleVideo_cases (img : Img) (wrapper : ℕ) (referenceImg : Img) (σ : State) :
    (resolves img = false ∧ constructionThrows img = false ∧
      initializeSingleVideo img wrapper referenceImg σ = Outcome.returned σ) ∨
    (resolves img = true ∧ constructionThrows img = true ∧
      initializeSingleVideo img wrapper referenceImg σ =
        Outcome.threw { σ with wrappers := modifyWrapper removePlaceholder σ.wrappers wrapper }) ∨
    (resolves img = true ∧ constructionThrows img = false ∧ ∃ type,
      (detectVideoType (img.getAttribute "data-dt-video-url")).type = some type ∧
      initializeSingleVideo img wrapper referenceImg σ =
        Outcome.returned
          { σ with
            wrappers := modifyWrapper (attachPlayer type) σ.wrappers wrapper
            videoPlayers :=
              σ.videoPlayers ++
                [{ wrapper := wrapper, referenceImg := referenceImg,
                   autoplay := img.flag "data-dt-video-autoplay",
                   videoType := type, quality := img.quality }] }) := by
  cases ht : (detectVideoType (img.getAttribute "data-dt-video-url")).type with
  | none =>
    left
    simp only [resolves, constructionThrows, initializeSingleVideo, ht, Bool.false_and, and_self]
  | some type =>
    cases hi : (detectVideoType (img.getAttribute "data-dt-video-url")).id with
    | none =>
      left
      simp only [resolves, constructionThrows, initializeSingleVideo, ht, hi, Bool.false_and,
        and_self]
    | some id =>
      cases id with
      | nil =>
        left
        simp only [resolves, constructionThrows, initializeSingleVideo, ht, hi, Bool.false_and,
          and_self]
      | cons c cs =>
        right
        by_cases hthrow : type = VideoType.video ∧ createVideoElementThrows (readConfig img) = true
        · left
          simp only [resolves, constructionThrows, initializeSingleVideo, ht, hi, if_pos hthrow,
            true_and, Bool.true_and, and_true]
          simp [hthrow.1, hthrow.2]
        · right
          simp only [resolves, constructionThrows, initializeSingleVideo, ht, hi, if_neg hthrow,
            true_and, Bool.true_and]
          refine ⟨?_, type, rfl, rfl⟩
          simp only [not_and, Bool.not_eq_true] at hthrow
          by_cases hv : type = VideoType.video
          · simp [hv, hthrow hv]
          · simp [hv]

/-- A call of `initializeSingleVideo` that throws: the construction for the
image throws, and the state is the old one with the placeholder removed. -/
theorem initializeSingleVideo_threw (img : Img) (w : ℕ) (r : Img) (σ σ1 : State)
    (h : initializeSingleVideo img w r σ = Outcome.threw σ1) :
    constructionThrows img = true ∧
      σ1 = { σ with wrappers := modifyWrapper removePlaceholder σ.wrappers w } := by
  rcases initializeSingleVideo_cases img w r σ with ⟨_, _, h1⟩ | ⟨_, h2, h1⟩ | ⟨_, _, type, _, h1⟩
  · rw [h1] at h; cases h
  · rw [h1] at h; cases h; exact ⟨h2, rfl⟩
  · rw [h1] at h; cases h

/-- A call of `initializeSingleVideo` that returns: the construction for the
image does not throw. -/
theorem initializeSingleVideo_returned (img : Img) (w : ℕ) (r : Img) (σ σ1 : State)
    (h : initializeSingleVideo img w r σ = Outcome.returned σ1) :
    constructionThrows img = false := by
  rcases initializeSingleVideo_cases img w r σ with ⟨_, h2, _⟩ | ⟨_, _, h1⟩ | ⟨_, h2, _⟩
  · exact h2
  · rw [h1] at h; cases h
  · exact h2

theorem initializeSingleVideo_hasThrown (img : Img) (w : ℕ) (r : Img) (σ : State) :
    (initializeSingleVideo img w r σ).hasThrown = constructionThrows img := by
  rcases initializeSingleVideo_cases img w r σ with ⟨_, h2, h1⟩ | ⟨_, h2, h1⟩ | ⟨_, h2, type, _, h1⟩ <;>
    rw [h1, h2] <;> rfl

theorem initializeSingleVideo_pending (img : Img) (w : ℕ) (r : Img) (σ : State) :
    (initializeSingleVideo img w r σ).state.pendingPlyrVideos = σ.pendingPlyrVideos := by
  rcases initializeSingleVideo_cases img w r σ with ⟨_, _, h⟩ | ⟨_, _, h⟩ | ⟨_, _, type, _, h⟩ <;>
    rw [h] <;> rfl

theorem initializeSingleVideo_clickHandlers (img : Img) (w : ℕ) (r : Img) (σ : State) :
    (initializeSingleVideo img w r σ).state.clickHandlers = σ.clickHandlers := by
  rcases initializeSingleVideo_cases img w r σ with ⟨_, _, h⟩ | ⟨_, _, h⟩ | ⟨_, _, type, _, h⟩ <;>
    rw [h] <;> rfl

theorem initializeSingleVideo_observed (img : Img) (w : ℕ) (r : Img) (σ : State) :
    (initializeSingleVideo img w r σ).state.observed = σ.observed := by
  rcases initializeSingleVideo_cases img w r σ with ⟨_, _, h⟩ | ⟨_, _, h⟩ | ⟨_, _, type, _, h⟩ <;>
    rw [h] <;> rfl

theorem initializeSingleVideo_resizeListening (img : Img) (w : ℕ) (r : Img) (σ : State) :
    (initializeSingleVideo img w r σ).state.resizeListening = σ.resizeListening := by
  rcases initializeSingleVideo_cases img w r σ with ⟨_, _, h⟩ | ⟨_, _, h⟩ | ⟨_, _, type, _, h⟩ <;>
    rw [h] <;> rfl

theorem initializeSingleVideo_wrappers_length (img : Img) (w : ℕ) (r : Img) (σ : State) :
    (initializeSingleVideo img w r σ).state.wrappers.length = σ.wrappers.length := by
  rcases initializeSingleVideo_cases img w r σ with ⟨_, _, h⟩ | ⟨_, _, h⟩ | ⟨_, _, type, _, h⟩ <;>
    rw [h]
  · rfl
  · exact modifyWrapper_length _ _ _
  · exact modifyWrapper_length _ _ _

theorem modifyWrapper_videoIndex (f : Wrapper → Wrapper)
    (hf : ∀ w, (f w).videoIndex = w.videoIndex) (ws : List Wrapper) (k t : ℕ) :
    ((modifyWrapper f ws k)[t]?).bind (fun w => w.videoIndex) =
      (ws[t]?).bind (fun w => w.videoIndex) := by
  rw [modifyWrapper_getElem?]
  split_ifs with h
  · cases ws[t]? with
    | none => rfl
    | some w => simp [hf]
  · rfl

theorem initializeSingleVideo_datasetIndex (img : Img) (w : ℕ) (r : Img) (σ : State) (t : ℕ) :
    ((initializeSingleVideo img w r σ).state.wrappers[t]?).bind (fun w => w.videoIndex) =
      (σ.wrappers[t]?).bind (fun w => w.videoIndex) := by
  rcases initializeSingleVideo_cases img w r σ with ⟨_, _, h⟩ | ⟨_, _, h⟩ | ⟨_, _, type, _, h⟩ <;>
    rw [h]
  · rfl
  · exact modifyWrapper_videoIndex removePlaceholder (fun _ => rfl) σ.wrappers w t
  · exact modifyWrapper_videoIndex (attachPlayer type) (fun _ => rfl) σ.wrappers w t

theorem initializeSingleVideo_videoPlayers (img : Img) (w : ℕ) (r : Img) (σ : State) :
    ∃ l : List Session,
      (initializeSingleVideo img w r σ).state.videoPlayers = σ.videoPlayers ++ l ∧
      l.length = (if resolves img = true ∧ constructionThrows img = false then 1 else 0) ∧
      ∀ s ∈ l, s.wrapper = w ∧ s.referenceImg = r := by
  rcases initializeSingleVideo_cases img w r σ with
    ⟨hr, _, h⟩ | ⟨_, ht, h⟩ | ⟨hr, ht, type, _, h⟩
  · exact ⟨[], by rw [h]; simp [Outcome.state], by simp [hr], by simp⟩
  · exact ⟨[], by rw [h]; simp [Outcome.state], by simp [ht], by simp⟩
  · refine ⟨_, by rw [h]; rfl, by simp [hr, ht], ?_⟩
    intro s hs
    simp only [List.mem_singleton] at hs
    subst hs
    exact ⟨rfl, rfl⟩

/-- A state whose handlers, wrapper count and data-set indices are those of a
well-formed state, whose pending entries are among the old ones, and whose
registry has grown by at most one session, for a wrapper that is neither
pending any more nor registered yet, is well formed. -/
theorem wellFormed_extend {page : List Img} {σ σ1 : State} (hσ : σ.WellFormed page)
    (l : List Session) (hh : σ1.clickHandlers = σ.clickHandlers)
    (hlen : σ1.wrappers.length = σ.wrappers.length)
    (hds : ∀ t, datasetIndex σ1 t = datasetIndex σ t)
    (hvp : σ1.videoPlayers = σ.videoPlayers ++ l) (hl : l.length ≤ 1)
    (hp : ∀ j e, getSlot σ1.pendingPlyrVideos j = some e →
      getSlot σ.pendingPlyrVideos j = some e ∧ ∀ s ∈ l, s.wrapper ≠ j)
    (hnew : ∀ s ∈ l, s.wrapper < σ.wrappers.length ∧ page[s.wrapper]? = some s.referenceImg ∧
      ∀ s1 ∈ σ.videoPlayers, s1.wrapper ≠ s.wrapper) :
    σ1.WellFormed page := by
  refine ⟨?_, ?_, ?_, ?_, ?_, ?_⟩
  · intro i e he
    exact hσ.pending_entry i e (hp i e he).1
  · intro i e he
    obtain ⟨h1, h2⟩ := hp i e he
    obtain ⟨h3, h4⟩ := hσ.pending_fresh i e h1
    refine ⟨by rw [hlen]; exact h3, ?_⟩
    intro s hs
    rw [hvp, List.mem_append] at hs
    rcases hs with hs | hs
    · exact h4 s hs
    · exact h2 s hs
  · intro h hmem
    rw [hh] at hmem
    exact hσ.handler_entry h hmem
  · intro t i hti
    rw [hds] at hti
    exact hσ.dataset_entry t i hti
  · intro s hs
    rw [hvp, List.mem_append] at hs
    rw [hlen]
    rcases hs with hs | hs
    · exact hσ.session_entry s hs
    · exact ⟨(hnew s hs).1, (hnew s hs).2.1⟩
  · rw [hvp, List.map_append, List.nodup_append]
    refine ⟨hσ.session_nodup, ?_, ?_⟩
    · cases l with
      | nil => simp
      | cons a l =>
        cases l with
        | nil => simp
        | cons b l => simp at hl
    · intro a ha hb
      rw [List.mem_map] at ha hb
      obtain ⟨s1, hs1, rfl⟩ := ha
      obtain ⟨s2, hs2, h12⟩ := hb
      exact (hnew s2 hs2).2.2 s1 hs1 h12.symm

/-- Consuming slot `i`: the image at position `i` is initialised in wrapper
`i` and the slot is cleared. -/
theorem wellFormed_consume {page : List Img} {σ : State} (hσ : σ.WellFormed page)
    (i : ℕ) (e : PendingEntry) (he : getSlot σ.pendingPlyrVideos i = some e)
    (img r : Img) (hr : page[i]? = some r) (obs : List ℕ) :
    State.WellFormed page
      { (initializeSingleVideo img i r σ).state with
        pendingPlyrVideos :=
          setSlot (initializeSingleVideo img i r σ).state.pendingPlyrVideos i none
        observed := obs } := by
  obtain ⟨l, hvp, hlen, hl⟩ := initializeSingleVideo_videoPlayers img i r σ
  obtain ⟨hi, hfresh⟩ := hσ.pending_fresh i e he
  refine wellFormed_extend hσ l ?_ ?_ ?_ hvp ?_ ?_ ?_
  · exact initializeSingleVideo_clickHandlers img i r σ
  · exact initializeSingleVideo_wrappers_length img i r σ
  · intro t
    exact initializeSingleVideo_datasetIndex img i r σ t
  · rw [hlen]; split_ifs <;> simp
  · intro j e1 hj
    simp only [initializeSingleVideo_pending] at hj
    by_cases hji : j = i
    · subst hji
      rw [getSlot_setSlot_eq] at hj
      exact absurd hj (by simp)
    · rw [getSlot_setSlot_ne _ _ _ _ hji] at hj
      refine ⟨hj, ?_⟩
      intro s hs h
      exact hji (by rw [← h, (hl s hs).1])
  · intro s hs
    obtain ⟨h1, h2⟩ := hl s hs
    rw [h1, h2]
    exact ⟨hi, hr, hfresh⟩

/-- The state a throwing construction leaves is well formed: only the
placeholder of one wrapper is gone. -/
theorem wellFormed_removePlaceholder {page : List Img} {σ : State} (hσ : σ.WellFormed page)
    (w : ℕ) :
    State.WellFormed page
      { σ with wrappers := modifyWrapper removePlaceholder σ.wrappers w } := by
  refine wellFormed_extend hσ [] rfl (modifyWrapper_length _ _ _) ?_ (by simp) (by simp) ?_ ?_
  · intro t
    exact modifyWrapper_videoIndex removePlaceholder (fun _ => rfl) σ.wrappers w t
  · intro j e he
    exact ⟨he, by simp⟩
  · simp

theorem wellFormed_initializeSingleVideo_threw {page : List Img} {σ σ1 : State}
    (hσ : σ.WellFormed page) (img : Img) (w : ℕ) (r : Img)
    (h : initializeSingleVideo img w r σ = Outcome.threw σ1) : σ1.WellFormed page := by
  rw [(initializeSingleVideo_threw img w r σ σ1 h).2]
  exact wellFormed_removePlaceholder hσ w

/-- The outcomes of the handling of one observer entry: nothing happens; the
slot of the entry is consumed by a construction that returns; or the
construction throws and the slot stays pending. -/
theorem lazyLoadEntry_cases (σ : State) (entry : IntersectionEntry) :
    lazyLoadEntry σ entry = Outcome.returned σ ∨
    (∃ i e, entry.isIntersecting = true ∧ datasetIndex σ entry.target = some i ∧
      getSlot σ.pendingPlyrVideos i = some e ∧
      ((constructionThrows e.img = false ∧
          lazyLoadEntry σ entry =
            Outcome.returned
              { (initializeSingleVideo e.img e.wrapper e.referenceImg σ).state with
                pendingPlyrVideos :=
                  setSlot (initializeSingleVideo e.img e.wrapper e.referenceImg
                    σ).state.pendingPlyrVideos i none
                observed :=
                  (initializeSingleVideo e.img e.wrapper e.referenceImg σ).state.observed.filter
                    (fun t => t ≠ entry.target) }) ∨
        (constructionThrows e.img = true ∧
          lazyLoadEntry σ entry =
            Outcome.threw
              { σ with wrappers := modifyWrapper removePlaceholder σ.wrappers e.wrapper }))) := by
  by_cases hint : entry.isIntersecting = true
  · cases hidx : (σ.wrappers[entry.target]?).bind (fun w => w.videoIndex) with
    | none => left; simp only [lazyLoadEntry, if_pos hint, hidx]
    | some videoIndex =>
      cases hp : getSlot σ.pendingPlyrVideos videoIndex with
      | none => left; simp only [lazyLoadEntry, if_pos hint, hidx, hp]
      | some videoData =>
        right
        refine ⟨videoIndex, videoData, hint, hidx, hp, ?_⟩
        cases ho : initializeSingleVideo videoData.img videoData.wrapper videoData.referenceImg
          σ with
        | returned σ1 =>
          left
          refine ⟨initializeSingleVideo_returned _ _ _ _ _ ho, ?_⟩
          simp only [lazyLoadEntry, if_pos hint, hidx, hp, ho, Outcome.state]
        | threw σ1 =>
          right
          obtain ⟨h1, h2⟩ := initializeSingleVideo_threw _ _ _ _ _ ho
          refine ⟨h1, ?_⟩
          simp only [lazyLoadEntry, if_pos hint, hidx, hp, ho]
          rw [h2]
  · left; simp only [lazyLoadEntry, if_neg hint]

theorem wellFormed_lazyLoadEntry {page : List Img} {σ : State} (hσ : σ.WellFormed page)
    (entry : IntersectionEntry) : (lazyLoadEntry σ entry).state.WellFormed page := by
  rcases lazyLoadEntry_cases σ entry with h | ⟨i, e, _, _, hp, ⟨_, h⟩ | ⟨_, h⟩⟩
  · rw [h]; exact hσ
  · rw [h]
    obtain ⟨h1, h2, h3⟩ := hσ.pending_entry i e hp
    have := wellFormed_consume hσ i e hp e.img e.referenceImg (by rw [h3]; exact h2)
      ((initializeSingleVideo e.img i e.referenceImg σ).state.observed.filter
        (fun t => t ≠ entry.target))
    rw [h1]
    exact this
  · rw [h]
    exact wellFormed_removePlaceholder hσ e.wrapper

theorem wellFormed_lazyLoadObserver {page : List Img} (entries : List IntersectionEntry) :
    ∀ {σ : State}, σ.WellFormed page → (lazyLoadObserver entries σ).state.WellFormed page := by
  induction entries with
  | nil => intro σ hσ; exact hσ
  | cons e es ih =>
    intro σ hσ
    have h1 := wellFormed_lazyLoadEntry hσ e
    unfold lazyLoadObserver
    cases ho : lazyLoadEntry σ e with
    | returned σ1 =>
      rw [ho] at h1
      exact ih h1
    | threw σ1 =>
      rw [ho] at h1
      exact h1

/-- The outcomes of a click on a placeholder: nothing happens; the slot is
consumed by a construction that returns; or the construction throws and the
slot stays pending. -/
theorem placeholderClick_cases (h : ClickHandler) (σ : State) :
    (getSlot σ.pendingPlyrVideos h.index = none ∧ placeholderClick h σ = Outcome.returned σ) ∨
    (∃ e, getSlot σ.pendingPlyrVideos h.index = some e ∧
      ((constructionThrows h.img = false ∧
          placeholderClick h σ =
            Outcome.returned
              { (initializeSingleVideo h.img h.wrapper h.referenceImg σ).state with
                pendingPlyrVideos :=
                  setSlot (initializeSingleVideo h.img h.wrapper h.referenceImg
                    σ).state.pendingPlyrVideos h.index none
                observed :=
                  (initializeSingleVideo h.img h.wrapper h.referenceImg σ).state.observed.filter
                    (fun t => t ≠ h.wrapper) }) ∨
        (constructionThrows h.img = true ∧
          placeholderClick h σ =
            Outcome.threw
              { σ with wrappers := modifyWrapper removePlaceholder σ.wrappers h.wrapper }))) := by
  cases hp : getSlot σ.pendingPlyrVideos h.index with
  | none => left; exact ⟨rfl, by simp only [placeholderClick, hp]⟩
  | some e =>
    right
    refine ⟨e, rfl, ?_⟩
    cases ho : initializeSingleVideo h.img h.wrapper h.referenceImg σ with
    | returned σ1 =>
      left
      refine ⟨initializeSingleVideo_returned _ _ _ _ _ ho, ?_⟩
      simp only [placeholderClick, hp, ho, Outcome.state]
    | threw σ1 =>
      right
      obtain ⟨h1, h2⟩ := initializeSingleVideo_threw _ _ _ _ _ ho
      refine ⟨h1, ?_⟩
      simp only [placeholderClick, hp, ho]
      rw [h2]

theorem wellFormed_placeholderClick {page : List Img} {σ : State} (hσ : σ.WellFormed page)
    (h : ClickHandler) (hh : h ∈ σ.clickHandlers) :
    (placeholderClick h σ).state.WellFormed page := by
  obtain ⟨h1, h2, h3⟩ := hσ.handler_entry h hh
  rcases placeholderClick_cases h σ with ⟨_, hc⟩ | ⟨e, hp, ⟨_, hc⟩ | ⟨_, hc⟩⟩
  · rw [hc]; exact hσ
  · rw [hc, h1]
    exact wellFormed_consume hσ h.index e hp h.img h.referenceImg (by rw [h3]; exact h2) _
  · rw [hc]
    exact wellFormed_removePlaceholder hσ h.wrapper

theorem handleResizeItem_videoIndex (videoType : VideoType) (cs : ComputedStyle) (lay : Layout)
    (w : Wrapper) : (handleResizeItem videoType cs lay w).videoIndex = w.videoIndex := by
  unfold handleResizeItem handleResizeItemWith
  simp only
  split_ifs <;> first | rfl | (cases w.iframe <;> rfl)

theorem handleResize_wrappers (env : ℕ → ComputedStyle × Layout) (items : List Session) :
    ∀ ws : List Wrapper,
      (items.foldl
        (fun ws item =>
          modifyWrapper
            (handleResizeItem item.videoType (env item.wrapper).1 (env item.wrapper).2)
            ws item.wrapper) ws).length = ws.length ∧
      ∀ t : ℕ, ((items.foldl
        (fun ws item =>
          modifyWrapper
            (handleResizeItem item.videoType (env item.wrapper).1 (env item.wrapper).2)
            ws item.wrapper) ws)[t]?).bind (fun (w : Wrapper) => w.videoIndex) =
          (ws[t]?).bind (fun (w : Wrapper) => w.videoIndex) := by
  induction items with
  | nil => intro ws; exact ⟨rfl, fun _ => rfl⟩
  | cons item items ih =>
    intro ws
    obtain ⟨h1, h2⟩ := ih (modifyWrapper
      (handleResizeItem item.videoType (env item.wrapper).1 (env item.wrapper).2) ws item.wrapper)
    refine ⟨?_, ?_⟩
    · rw [List.foldl_cons, h1, modifyWrapper_length]
    · intro t
      rw [List.foldl_cons, h2 t]
      exact modifyWrapper_videoIndex _ (handleResizeItem_videoIndex _ _ _) ws item.wrapper t

theorem wellFormed_handleResize {page : List Img} {σ : State} (hσ : σ.WellFormed page)
    (env : ℕ → ComputedStyle × Layout) : (handleResize env σ).WellFormed page := by
  obtain ⟨h1, h2⟩ := handleResize_wrappers env σ.videoPlayers σ.wrappers
  refine wellFormed_extend hσ [] rfl h1 h2 (by simp [handleResize]) (by simp) ?_ ?_
  · intro j e he
    exact ⟨he, by simp⟩
  · simp

theorem wellFormed_step {page : List Img} {σ : State} (hσ : σ.WellFormed page) (ev : Event) :
    (step σ ev).WellFormed page := by
  cases ev with
  | intersect entries => exact wellFormed_lazyLoadObserver entries hσ
  | click n =>
    simp only [step]
    cases hn : σ.clickHandlers[n]? with
    | none => exact hσ
    | some h => exact wellFormed_placeholderClick hσ h (List.getElem?_mem hn)
  | resize env =>
    simp only [step]
    split_ifs
    · exact wellFormed_handleResize hσ env
    · exact hσ

theorem wellFormed_steps {page : List Img} (events : List Event) :
    ∀ {σ : State}, σ.WellFormed page → (events.foldl step σ).WellFormed page := by
  induction events with
  | nil => intro σ hσ; exact hσ
  | cons e es ih => intro σ hσ; exact ih (wellFormed_step hσ e)

theorem scanImage_wrappers_length (img : Img) (index : ℕ) (σ : State) :
    (scanImage img index σ).state.wrappers.length = σ.wrappers.length + 1 := by
  unfold scanImage
  simp only
  split_ifs
  · simp [Outcome.state]
  · rw [initializeSingleVideo_wrappers_length]
    simp

theorem getElem?_append_singleton_bind {α β : Type} (ws : List α) (el : α) (f : α → Option β)
    (t : ℕ) :
    ((ws ++ [el])[t]?).bind f =
      if t = ws.length then f el else (ws[t]?).bind f := by
  by_cases h : t < ws.length
  · rw [List.getElem?_append_left h, if_neg (Nat.ne_of_lt h)]
  · by_cases h2 : t = ws.length
    · subst h2
      simp
    · have h3 : ws.length < t := by omega
      rw [if_neg h2, List.getElem?_eq_none (by simp; omega), List.getElem?_eq_none (by omega)]

theorem wellFormed_scanImage {page : List Img} {σ : State} (hσ : σ.WellFormed page)
    (img : Img) (index : ℕ) (hidx : σ.wrappers.length = index) (himg : page[index]? = some img) :
    (scanImage img index σ).state.WellFormed page := by
  unfold scanImage
  simp only
  split_ifs with hlazy
  · simp only [Outcome.state]
    refine ⟨?_, ?_, ?_, ?_, ?_, ?_⟩
    · intro i e he
      simp only at he
      by_cases hi : i = index
      · subst hi
        rw [getSlot_setSlot_eq] at he
        simp only [Option.some.injEq] at he
        subst he
        exact ⟨hidx, himg, rfl⟩
      · rw [getSlot_setSlot_ne _ _ _ _ hi] at he
        exact hσ.pending_entry i e he
    · intro i e he
      simp only at he
      simp only [List.length_append, List.length_singleton]
      by_cases hi : i = index
      · subst hi
        refine ⟨by omega, ?_⟩
        intro s hs h
        have := (hσ.session_entry s hs).1
        omega
      · rw [getSlot_setSlot_ne _ _ _ _ hi] at he
        obtain ⟨h1, h2⟩ := hσ.pending_fresh i e he
        exact ⟨by omega, h2⟩
    · intro h hh
      simp only [List.mem_append, List.mem_singleton] at hh
      rcases hh with hh | rfl
      · exact hσ.handler_entry h hh
      · exact ⟨hidx, himg, rfl⟩
    · intro t i hti
      simp only [datasetIndex, getElem?_append_singleton_bind, createWrapper, hlazy,
        if_true] at hti
      split_ifs at hti with ht
      · simp only [Option.some.injEq] at hti
        omega
      · exact hσ.dataset_entry t i hti
    · intro s hs
      obtain ⟨h1, h2⟩ := hσ.session_entry s hs
      simp only [List.length_append, List.length_singleton]
      exact ⟨by omega, h2⟩
    · exact hσ.session_nodup
  · have hσ1 : State.WellFormed page
        { σ with wrappers := σ.wrappers ++
          [createWrapper img false index] } := by
      refine ⟨hσ.pending_entry, ?_, hσ.handler_entry, ?_, ?_, hσ.session_nodup⟩
      · intro i e he
        obtain ⟨h1, h2⟩ := hσ.pending_fresh i e he
        simp only [List.length_append, List.length_singleton]
        exact ⟨by omega, h2⟩
      · intro t i hti
        simp only [datasetIndex, getElem?_append_singleton_bind, createWrapper,
          Bool.false_eq_true, if_false] at hti
        split_ifs at hti with ht
        exact hσ.dataset_entry t i hti
      · intro s hs
        obtain ⟨h1, h2⟩ := hσ.session_entry s hs
        simp only [List.length_append, List.length_singleton]
        exact ⟨by omega, h2⟩
    simp only [Bool.not_eq_true] at hlazy
    simp only [hlazy, Bool.false_eq_true, if_false]
    obtain ⟨l, hvp, hlen, hl⟩ := initializeSingleVideo_videoPlayers img σ.wrappers.length img
      { σ with wrappers := σ.wrappers ++
          [createWrapper img false index] }
    refine wellFormed_extend hσ1 l ?_ ?_ ?_ hvp ?_ ?_ ?_
    · exact initializeSingleVideo_clickHandlers _ _ _ _
    · exact initializeSingleVideo_wrappers_length _ _ _ _
    · intro t
      exact initializeSingleVideo_datasetIndex _ _ _ _ t
    · rw [hlen]; split_ifs <;> simp
    · intro j e he
      rw [initializeSingleVideo_pending] at he
      refine ⟨he, ?_⟩
      intro s hs h
      have := (hσ.pending_fresh j e he).1
      have := (hl s hs).1
      omega
    · intro s hs
      obtain ⟨h1, h2⟩ := hl s hs
      rw [h1, h2]
      refine ⟨by simp, by rw [hidx]; exact himg, ?_⟩
      intro s1 hs1 h
      have := (hσ.session_entry s1 hs1).1
      omega

/-- The scan from an image on: either every image is handled, or the loop is
left at the first image whose construction throws. -/
theorem scanFrom_cons (img : Img) (rest : List Img) (index : ℕ) (σ : State) :
    (scanImage img index σ).hasThrown = false ∧
      scanFrom index (img :: rest) σ = scanFrom (index + 1) rest (scanImage img index σ).state ∨
    (scanImage img index σ).hasThrown = true ∧
      scanFrom index (img :: rest) σ = Outcome.threw (scanImage img index σ).state := by
  cases ho : scanImage img index σ with
  | returned σ1 => left; simp only [scanFrom, ho, Outcome.state, Outcome.hasThrown, and_self]
  | threw σ1 => right; simp only [scanFrom, ho, Outcome.state, Outcome.hasThrown, and_self]

theorem wellFormed_scanFrom {rest : List Img} :
    ∀ {done : List Img} {σ : State}, σ.WellFormed (done ++ rest) →
      σ.wrappers.length = done.length →
      (scanFrom done.length rest σ).state.WellFormed (done ++ rest) := by
  induction rest with
  | nil => intro done σ hσ _; exact hσ
  | cons img rest ih =>
    intro done σ hσ hlen
    have himg : (done ++ img :: rest)[done.length]? = some img := by
      rw [List.getElem?_append_right (Nat.le_refl _)]
      simp
    have h1 := wellFormed_scanImage hσ img done.length hlen himg
    have h2 : (scanImage img done.length σ).state.wrappers.length =
        (done ++ [img]).length := by
      rw [scanImage_wrappers_length, hlen]; simp
    rcases scanFrom_cons img rest done.length σ with ⟨_, hs⟩ | ⟨_, hs⟩
    · have heq : done ++ img :: rest = (done ++ [img]) ++ rest := by simp
      rw [hs]
      rw [heq] at h1 ⊢
      have := ih h1 h2
      simpa using this
    · rw [hs]
      exact h1

theorem wellFormed_initial (page : List Img) : State.initial.WellFormed page := by
  refine ⟨?_, ?_, ?_, ?_, ?_, ?_⟩ <;> simp [State.initial, getSlot, datasetIndex]

theorem wellFormed_scanImages (page : List Img) : (scanImages page).state.WellFormed page :=
  @wellFormed_scanFrom page [] State.initial (wellFormed_initial _) rfl

/-- The state after the scan has the fields of the state the scan left, but for
the resize listeners. -/
theorem afterScan_fields (page : List Img) :
    (afterScan page).pendingPlyrVideos = (scanImages page).state.pendingPlyrVideos ∧
    (afterScan page).videoPlayers = (scanImages page).state.videoPlayers ∧
    (afterScan page).observed = (scanImages page).state.observed ∧
    (afterScan page).wrappers = (scanImages page).state.wrappers ∧
    (afterScan page).clickHandlers = (scanImages page).state.clickHandlers := by
  unfold afterScan
  cases scanImages page <;> simp [Outcome.state]

theorem wellFormed_afterScan (page : List Img) : (afterScan page).WellFormed page := by
  have h := wellFormed_scanImages page
  obtain ⟨h1, h2, _, h4, h5⟩ := afterScan_fields page
  refine wellFormed_extend h [] h5 (by rw [h4]) ?_ (by rw [h2]; simp) (by simp) ?_ (by simp)
  · intro t
    simp only [datasetIndex, h4]
  · intro j e he
    rw [h1] at he
    exact ⟨he, by simp⟩

/-- Every state reached from the scan of a page is well formed. -/
theorem wellFormed_run (page : List Img) (events : List Event) :
    (run page events).WellFormed page :=
  wellFormed_steps events (wellFormed_afterScan page)

theorem nodup_map_filter_length {α : Type} (f : α → ℕ) (i : ℕ) :
    ∀ l : List α, (l.map f).Nodup → (l.filter (fun s => f s = i)).length ≤ 1 := by
  intro l
  induction l with
  | nil => intro _; simp
  | cons a l ih =>
    intro h
    rw [List.map_cons, List.nodup_cons] at h
    by_cases ha : f a = i
    · have hnil : l.filter (fun s => f s = i) = [] := by
        rw [List.filter_eq_nil_iff]
        intro s hs hsi
        simp only [decide_eq_true_eq] at hsi
        exact h.1 (List.mem_map.mpr ⟨s, hs, by rw [hsi, ha]⟩)
      simp [List.filter_cons, ha, hnil]
    · have := ih h.2
      simpa [List.filter_cons, ha] using this

theorem lazyLoadEntry_datasetIndex (σ : State) (entry : IntersectionEntry) (t : ℕ) :
    datasetIndex (lazyLoadEntry σ entry).state t = datasetIndex σ t := by
  rcases lazyLoadEntry_cases σ entry with h | ⟨i, e, _, _, _, ⟨_, h⟩ | ⟨_, h⟩⟩
  · rw [h]; rfl
  · rw [h]
    exact initializeSingleVideo_datasetIndex _ _ _ _ t
  · rw [h]
    exact modifyWrapper_videoIndex removePlaceholder (fun _ => rfl) σ.wrappers e.wrapper t

/-- The handling of an observer entry leaves every slot as it was, but for the
slot it consumes. -/
theorem lazyLoadEntry_pending (σ : State) (entry : IntersectionEntry) (j : ℕ) :
    getSlot (lazyLoadEntry σ entry).state.pendingPlyrVideos j = getSlot σ.pendingPlyrVideos j ∨
    getSlot (lazyLoadEntry σ entry).state.pendingPlyrVideos j = none := by
  rcases lazyLoadEntry_cases σ entry with h | ⟨i, e, _, _, _, ⟨_, h⟩ | ⟨_, h⟩⟩
  · left; rw [h]; rfl
  · rw [h]
    simp only [state_returned, initializeSingleVideo_pending]
    by_cases hj : j = i
    · right; subst hj; exact getSlot_setSlot_eq _ _ _
    · left; exact getSlot_setSlot_ne _ _ _ _ hj
  · left; rw [h]; rfl

/-- A slot that is empty stays empty when an observer entry is handled. -/
theorem lazyLoadEntry_pending_none (σ : State) (entry : IntersectionEntry) (i : ℕ)
    (h : getSlot σ.pendingPlyrVideos i = none) :
    getSlot (lazyLoadEntry σ entry).state.pendingPlyrVideos i = none := by
  rcases lazyLoadEntry_pending σ entry i with h1 | h1
  · rw [h1]; exact h
  · exact h1

/-- An intersecting entry for slot `i` leaves the slot empty and returns, when
the construction for the pending image, if any, does not throw. -/
theorem lazyLoadEntry_consumes (σ : State) (entry : IntersectionEntry) (i : ℕ)
    (hint : entry.isIntersecting = true) (hidx : datasetIndex σ entry.target = some i)
    (hsafe : ∀ e, getSlot σ.pendingPlyrVideos i = some e → constructionThrows e.img = false) :
    getSlot (lazyLoadEntry σ entry).state.pendingPlyrVideos i = none ∧
      (lazyLoadEntry σ entry).hasThrown = false := by
  rcases lazyLoadEntry_cases σ entry with h | ⟨j, e, _, hj, hp, ⟨_, h⟩ | ⟨ht, h⟩⟩
  · rw [h]
    refine ⟨?_, rfl⟩
    simp only [Outcome.state]
    unfold datasetIndex at hidx
    cases hp : getSlot σ.pendingPlyrVideos i with
    | none => rfl
    | some e =>
      exfalso
      have h2 := hsafe e hp
      have : lazyLoadEntry σ entry ≠ Outcome.returned σ := by
        rcases initializeSingleVideo_cases e.img e.wrapper e.referenceImg σ with
          ⟨_, _, h1⟩ | ⟨_, h3, _⟩ | ⟨_, _, type, _, h1⟩
        · simp only [lazyLoadEntry, if_pos hint, hidx, hp, h1]
          intro hc
          have := congrArg (fun o => getSlot o.state.pendingPlyrVideos i) hc
          simp only [Outcome.state, getSlot_setSlot_eq, hp] at this
          cases this
        · rw [h2] at h3; cases h3
        · simp only [lazyLoadEntry, if_pos hint, hidx, hp, h1]
          intro hc
          have := congrArg (fun o => getSlot o.state.pendingPlyrVideos i) hc
          simp only [Outcome.state, getSlot_setSlot_eq, hp] at this
          cases this
      exact this h
  · rw [hidx] at hj
    cases hj
    rw [h]
    exact ⟨by simp only [Outcome.state]; exact getSlot_setSlot_eq _ _ _, rfl⟩
  · rw [hidx] at hj
    cases hj
    rw [hsafe e hp] at ht
    cases ht

/-- An entry that is not intersecting, or is for a slot that is already empty,
changes nothing. -/
theorem lazyLoadEntry_noop (σ : State) (entry : IntersectionEntry) (i : ℕ)
    (hidx : entry.isIntersecting = true → datasetIndex σ entry.target = some i)
    (h : getSlot σ.pendingPlyrVideos i = none) : lazyLoadEntry σ entry = Outcome.returned σ := by
  unfold lazyLoadEntry
  split_ifs with hint
  · have := hidx hint
    unfold datasetIndex at this
    simp [this, h]
  · rfl

/-- The callback of the observer, entry by entry. -/
theorem lazyLoadObserver_cons (entry : IntersectionEntry) (entries : List IntersectionEntry)
    (σ : State) :
    (lazyLoadEntry σ entry).hasThrown = false ∧
      lazyLoadObserver (entry :: entries) σ =
        lazyLoadObserver entries (lazyLoadEntry σ entry).state ∨
    (lazyLoadEntry σ entry).hasThrown = true ∧
      lazyLoadObserver (entry :: entries) σ = Outcome.threw (lazyLoadEntry σ entry).state := by
  cases ho : lazyLoadEntry σ entry with
  | returned σ1 =>
    left; simp only [lazyLoadObserver, ho, Outcome.state, Outcome.hasThrown, and_self]
  | threw σ1 =>
    right; simp only [lazyLoadObserver, ho, Outcome.state, Outcome.hasThrown, and_self]

theorem lazyLoadObserver_pending_none (entries : List IntersectionEntry) (i : ℕ) :
    ∀ σ : State, getSlot σ.pendingPlyrVideos i = none →
      getSlot (lazyLoadObserver entries σ).state.pendingPlyrVideos i = none := by
  induction entries with
  | nil => intro σ h; exact h
  | cons e es ih =>
    intro σ h
    have h1 := lazyLoadEntry_pending_none σ e i h
    rcases lazyLoadObserver_cons e es σ with ⟨_, hs⟩ | ⟨_, hs⟩
    · rw [hs]; exact ih _ h1
    · rw [hs]; exact h1

theorem lazyLoadObserver_noop (entries : List IntersectionEntry) (i : ℕ) (σ : State)
    (hall : ∀ e ∈ entries, e.isIntersecting = true → datasetIndex σ e.target = some i)
    (h : getSlot σ.pendingPlyrVideos i = none) :
    lazyLoadObserver entries σ = Outcome.returned σ := by
  induction entries with
  | nil => rfl
  | cons e es ih =>
    have h1 := lazyLoadEntry_noop σ e i (hall e (by simp)) h
    simp only [lazyLoadObserver, h1]
    exact ih (fun e2 he2 => hall e2 (by simp [he2]))

theorem lazyLoadObserver_consumes (entries : List IntersectionEntry) (i : ℕ) (σ : State)
    (hex : ∃ e ∈ entries, e.isIntersecting = true)
    (hall : ∀ e ∈ entries, e.isIntersecting = true → datasetIndex σ e.target = some i)
    (hsafe : ∀ e, getSlot σ.pendingPlyrVideos i = some e → constructionThrows e.img = false) :
    getSlot (lazyLoadObserver entries σ).state.pendingPlyrVideos i = none := by
  induction entries with
  | nil => simp at hex
  | cons e es ih =>
    by_cases he : e.isIntersecting = true
    · obtain ⟨h1, h2⟩ := lazyLoadEntry_consumes σ e i he (hall e (by simp) he) hsafe
      rcases lazyLoadObserver_cons e es σ with ⟨_, hs⟩ | ⟨ht, _⟩
      · rw [hs]
        exact lazyLoadObserver_pending_none es i _ h1
      · rw [h2] at ht; cases ht
    · have hskip : lazyLoadEntry σ e = Outcome.returned σ := by
        unfold lazyLoadEntry
        rw [if_neg he]
      obtain ⟨e1, he1, hint⟩ := hex
      have hmem : e1 ∈ es := by
        rcases List.mem_cons.mp he1 with h | h
        · subst h; exact absurd hint he
        · exact h
      simp only [lazyLoadObserver, hskip]
      exact ih ⟨e1, hmem, hint⟩ (fun e2 he2 => hall e2 (by simp [he2]))

theorem placeholderClick_pending_none (hd : ClickHandler) (σ : State) (i : ℕ)
    (h : getSlot σ.pendingPlyrVideos i = none) :
    getSlot (placeholderClick hd σ).state.pendingPlyrVideos i = none := by
  rcases placeholderClick_cases hd σ with ⟨_, hc⟩ | ⟨e, hp, ⟨_, hc⟩ | ⟨_, hc⟩⟩
  · rw [hc]; exact h
  · rw [hc]
    simp only [state_returned, initializeSingleVideo_pending]
    by_cases hi : i = hd.index
    · subst hi; exact getSlot_setSlot_eq _ _ _
    · rw [getSlot_setSlot_ne _ _ _ _ hi]; exact h
  · rw [hc]; exact h

theorem placeholderClick_consumes (hd : ClickHandler) (σ : State)
    (hsafe : constructionThrows hd.img = false) :
    getSlot (placeholderClick hd σ).state.pendingPlyrVideos hd.index = none := by
  rcases placeholderClick_cases hd σ with ⟨hn, hc⟩ | ⟨e, hp, ⟨_, hc⟩ | ⟨ht, _⟩⟩
  · rw [hc]; exact hn
  · rw [hc]
    simp only [Outcome.state]
    exact getSlot_setSlot_eq _ _ _
  · rw [hsafe] at ht; cases ht

theorem placeholderClick_noop (hd : ClickHandler) (σ : State)
    (h : getSlot σ.pendingPlyrVideos hd.index = none) :
    placeholderClick hd σ = Outcome.returned σ := by
  unfold placeholderClick
  simp [h]

/-- An empty slot stays empty under every event. -/
theorem step_pending_none (σ : State) (ev : Event) (i : ℕ)
    (h : getSlot σ.pendingPlyrVideos i = none) :
    getSlot (step σ ev).pendingPlyrVideos i = none := by
  cases ev with
  | intersect entries => exact lazyLoadObserver_pending_none entries i σ h
  | click n =>
    simp only [step]
    cases hn : σ.clickHandlers[n]? with
    | none => exact h
    | some hd => exact placeholderClick_pending_none hd σ i h
  | resize env =>
    simp only [step]
    split_ifs
    · exact h
    · exact h

theorem steps_pending_none (events : List Event) (i : ℕ) :
    ∀ σ : State, getSlot σ.pendingPlyrVideos i = none →
      getSlot (events.foldl step σ).pendingPlyrVideos i = none := by
  induction events with
  | nil => intro σ h; exact h
  | cons e es ih => intro σ h; exact ih _ (step_pending_none σ e i h)

/-- A trigger of slot `i` leaves the slot empty, when the construction for the
image at position `i` does not throw. -/
theorem step_trigger_consumes {page : List Img} (σ : State) (hσ : σ.WellFormed page)
    (ev : Event) (i : ℕ)
    (hsafe : ∀ img, page[i]? = some img → constructionThrows img = false)
    (h : ev.triggers σ i) :
    getSlot (step σ ev).pendingPlyrVideos i = none := by
  cases ev with
  | intersect entries =>
    exact lazyLoadObserver_consumes entries i σ h.1 h.2
      (fun e he => hsafe e.img (hσ.pending_entry i e he).2.1)
  | click n =>
    obtain ⟨hd, hn, rfl⟩ := h
    simp only [step, hn]
    exact placeholderClick_consumes hd σ
      (hsafe hd.img (hσ.handler_entry hd (List.getElem?_mem hn)).2.1)
  | resize env => exact absurd h (by simp [Event.triggers])

/-- A trigger of a slot that is already empty changes nothing. -/
theorem step_trigger_noop (σ : State) (ev : Event) (i : ℕ) (h : ev.triggers σ i)
    (hp : getSlot σ.pendingPlyrVideos i = none) : step σ ev = σ := by
  cases ev with
  | intersect entries =>
    simp only [step, lazyLoadObserver_noop entries i σ h.2 hp, Outcome.state]
  | click n =>
    obtain ⟨hd, hn, rfl⟩ := h
    simp only [step, hn, placeholderClick_noop hd σ hp, Outcome.state]
  | resize env => exact absurd h (by simp [Event.triggers])

/-- C4, as amended: consumption of a lazy slot is idempotent when the
construction does not throw.  In a state reached from the page scan, let the
image at position `i` not be a direct file whose `video` element cannot be
built (`constructionThrows`).  Then the first trigger of slot `i` (an observer
callback whose intersecting entries are for slot `i`, or a click on its
placeholder) leaves `pendingPlyrVideos[i]` null; after any further events, a
later trigger of slot `i` by either path leaves the whole state, so the pending
list and the registry, unchanged.  In every reachable state, whatever the
images, at most one session of the registry belongs to wrapper `i`, each
session being the one of the image at the position of its wrapper. -/
theorem lazy_slot_idempotent (page : List Img) (before between : List Event)
    (first later : Event) (i : ℕ)
    (hsafe : ∀ img, page[i]? = some img → constructionThrows img = false)
    (hfirst : first.triggers (run page before) i)
    (hlater : later.triggers (between.foldl step (step (run page before) first)) i) :
    getSlot (step (run page before) first).pendingPlyrVideos i = none ∧
    step (between.foldl step (step (run page before) first)) later =
      between.foldl step (step (run page before) first) ∧
    ∀ events : List Event,
      ((run page events).videoPlayers.filter (fun s => s.wrapper = i)).length ≤ 1 ∧
      ∀ s ∈ (run page events).videoPlayers, page[s.wrapper]? = some s.referenceImg := by
  have h1 := step_trigger_consumes _ (wellFormed_run page before) first i hsafe hfirst
  refine ⟨h1, ?_, ?_⟩
  · exact step_trigger_noop _ later i hlater (steps_pending_none between i _ h1)
  · intro events
    have hwf := wellFormed_run page events
    exact ⟨nodup_map_filter_length (fun (s : Session) => s.wrapper) i _ hwf.session_nodup,
      fun s hs => (hwf.session_entry s hs).2⟩

/-- Witness of C4: a page with one lazy YouTube image; the placeholder is
clicked, then the observer reports the wrapper as intersecting. -/
theorem lazy_slot_idempotent_witness :
    getSlot (step (run [lazyYouTubeImg] []) (Event.click 0)).pendingPlyrVideos 0 = none ∧
    step (([] : List Event).foldl step (step (run [lazyYouTubeImg] []) (Event.click 0)))
        (Event.intersect [⟨true, 0⟩]) =
      ([] : List Event).foldl step (step (run [lazyYouTubeImg] []) (Event.click 0)) ∧
    ∀ events : List Event,
      ((run [lazyYouTubeImg] events).videoPlayers.filter (fun s => s.wrapper = 0)).length ≤ 1 ∧
      ∀ s ∈ (run [lazyYouTubeImg] events).videoPlayers,
        [lazyYouTubeImg][s.wrapper]? = some s.referenceImg :=
  lazy_slot_idempotent [lazyYouTubeImg] [] [] (Event.click 0) (Event.intersect [⟨true, 0⟩]) 0
    (by
      intro img himg
      have : img = lazyYouTubeImg := by simpa using himg.symm
      subst this
      decide)
    ⟨⟨0, lazyYouTubeImg, 0, lazyYouTubeImg⟩, by decide, rfl⟩
    ⟨⟨⟨true, 0⟩, by simp, rfl⟩, by
      intro e he _
      rw [List.mem_singleton] at he
      subst he
      decide⟩

/-- Counterexample to C4 as stated: a page with one lazy image for the direct
file `https://example.com/video.mp4` with playback rate `Infinity`.  A click on
the placeholder is a trigger of slot 0; the handler throws, the registry stays
empty and `pendingPlyrVideos[0]` is still the pending entry, not null.  A later
trigger by the observer runs the construction again and throws again. -/
theorem lazy_slot_counterexample :
    (run [lazyInfiniteRateImg] []).clickHandlers[0]? =
      some ⟨0, lazyInfiniteRateImg, 0, lazyInfiniteRateImg⟩ ∧
    (placeholderClick ⟨0, lazyInfiniteRateImg, 0, lazyInfiniteRateImg⟩
      (run [lazyInfiniteRateImg] [])).hasThrown = true ∧
    getSlot (step (run [lazyInfiniteRateImg] []) (Event.click 0)).pendingPlyrVideos 0 =
      some ⟨lazyInfiniteRateImg, 0, lazyInfiniteRateImg⟩ ∧
    (step (run [lazyInfiniteRateImg] []) (Event.click 0)).videoPlayers = [] ∧
    datasetIndex (step (run [lazyInfiniteRateImg] []) (Event.click 0)) 0 = some 0 ∧
    (lazyLoadObserver [⟨true, 0⟩]
      (step (run [lazyInfiniteRateImg] []) (Event.click 0))).hasThrown = true ∧
    getSlot (step (step (run [lazyInfiniteRateImg] []) (Event.click 0))
      (Event.intersect [⟨true, 0⟩])).pendingPlyrVideos 0 =
      some ⟨lazyInfiniteRateImg, 0, lazyInfiniteRateImg⟩ := by
  refine ⟨by decide, by decide, by decide, by decide, by decide, by decide, by decide⟩

theorem scanImage_eager (img : Img) (index : ℕ) (σ : State)
    (hl : img.flag "data-dt-video-lazy-load" = false) :
    scanImage img index σ =
      initializeSingleVideo img σ.wrappers.length img
        { σ with wrappers := σ.wrappers ++ [createWrapper img false index] } := by
  simp [scanImage, hl]

theorem scanImage_eager_hasThrown (img : Img) (index : ℕ) (σ : State)
    (hl : img.flag "data-dt-video-lazy-load" = false) :
    (scanImage img index σ).hasThrown = constructionThrows img := by
  rw [scanImage_eager img index σ hl, initializeSingleVideo_hasThrown]

theorem createWrapper_eager (img : Img) (index : ℕ) :
    createWrapper img false index = createWrapper img false 0 := by
  simp [createWrapper]

theorem filter_wrapper_append (vp l : List Session) (i n : ℕ)
    (hl : ∀ s ∈ l, s.wrapper = n) :
    ((vp ++ l).filter (fun s => s.wrapper = i)).length =
      (vp.filter (fun s => s.wrapper = i)).length + (if i = n then l.length else 0) := by
  rw [List.filter_append, List.length_append]
  congr 1
  split_ifs with h
  · subst h
    rw [List.filter_eq_self.mpr (fun s hs => by simp [hl s hs])]
  · rw [List.filter_eq_nil_iff.mpr (fun s hs => by simp [hl s hs]; omega)]
    rfl

/-- The scan of eager images throws exactly when the construction for one of
them does. -/
theorem scanFrom_eager_hasThrown :
    ∀ (rest : List Img) (index : ℕ) (σ : State),
      (∀ img ∈ rest, img.flag "data-dt-video-lazy-load" = false) →
      (scanFrom index rest σ).hasThrown = rest.any constructionThrows := by
  intro rest
  induction rest with
  | nil => intro index σ _; rfl
  | cons img rest ih =>
    intro index σ hrest
    have hl := hrest img (by simp)
    have ht := scanImage_eager_hasThrown img index σ hl
    rcases scanFrom_cons img rest index σ with ⟨h1, hs⟩ | ⟨h1, hs⟩
    · rw [hs, ih _ _ (fun x hx => hrest x (by simp [hx]))]
      rw [h1] at ht
      simp [← ht]
    · rw [hs]
      rw [h1] at ht
      simp [← ht, Outcome.hasThrown]

/-- The registry after scanning eager images: wrapper `i` has one session when
the image that got it resolves and the construction throws neither for it nor
for an image before it, and none otherwise. -/
theorem scanFrom_eager_count (i : ℕ) :
    ∀ (rest : List Img) (index : ℕ) (σ : State),
      (∀ img ∈ rest, img.flag "data-dt-video-lazy-load" = false) →
      ((scanFrom index rest σ).state.videoPlayers.filter (fun s => s.wrapper = i)).length =
        (σ.videoPlayers.filter (fun s => s.wrapper = i)).length +
          (if σ.wrappers.length ≤ i ∧ (rest[i - σ.wrappers.length]?).any resolves = true ∧
              (rest.take (i - σ.wrappers.length + 1)).any constructionThrows = false
            then 1 else 0) := by
  intro rest
  induction rest with
  | nil => intro index σ _; simp [scanFrom, Outcome.state]
  | cons img rest ih =>
    intro index σ hrest
    have hl := hrest img (by simp)
    have ht := scanImage_eager_hasThrown img index σ hl
    obtain ⟨l, hvp, hlen, hwr⟩ := initializeSingleVideo_videoPlayers img σ.wrappers.length img
      { σ with wrappers := σ.wrappers ++ [createWrapper img false index] }
    rw [← scanImage_eager img index σ hl] at hvp
    rcases scanFrom_cons img rest index σ with ⟨h1, hs⟩ | ⟨h1, hs⟩
    · rw [h1] at ht
      rw [hs, ih (index + 1) _ (fun x hx => hrest x (by simp [hx])),
        scanImage_wrappers_length, hvp,
        filter_wrapper_append _ _ _ _ (fun s hs => (hwr s hs).1), hlen, Nat.add_assoc]
      congr 1
      by_cases h2 : i = σ.wrappers.length
      · subst h2
        simp [← ht]
      · by_cases h3 : σ.wrappers.length ≤ i
        · have h4 : σ.wrappers.length + 1 ≤ i := by omega
          have h5 : i - σ.wrappers.length = (i - (σ.wrappers.length + 1)) + 1 := by omega
          simp [h2, h3, h4, h5, ← ht]
        · have h4 : ¬ σ.wrappers.length + 1 ≤ i := by omega
          simp [h2, h3, h4]
    · rw [h1] at ht
      have hl0 : l = [] := by
        apply List.eq_nil_of_length_eq_zero
        rw [hlen]
        simp [← ht]
      rw [hs, state_threw, hvp, hl0, List.append_nil]
      simp [← ht]

theorem sessionViews_congr (σ σ1 : State) (hvp : σ1.videoPlayers = σ.videoPlayers)
    (hw : ∀ s ∈ σ.videoPlayers, σ1.wrappers[s.wrapper]? = σ.wrappers[s.wrapper]?) :
    sessionViews σ1 = sessionViews σ := by
  unfold sessionViews
  rw [hvp]
  apply List.map_congr_left
  intro s hs
  rw [hw s hs]

/-- The view of the session an eager image gets, if it resolves and its
construction does not throw. -/
theorem scanImage_eager_view :
    ∃ view : Img → Option (Option Wrapper × Img × Bool × VideoType × JsString),
      (∀ img, resolves img = false → view img = none) ∧
      (∀ img, constructionThrows img = true → view img = none) ∧
      ∀ (img : Img) (index : ℕ) (σ : State),
        img.flag "data-dt-video-lazy-load" = false →
        (∀ s ∈ σ.videoPlayers, s.wrapper < σ.wrappers.length) →
        sessionViews (scanImage img index σ).state = sessionViews σ ++ (view img).toList ∧
        ∀ s ∈ (scanImage img index σ).state.videoPlayers,
          s.wrapper < (scanImage img index σ).state.wrappers.length := by
  refine ⟨fun img =>
    if resolves img = true ∧ constructionThrows img = false then
      ((detectVideoType (img.getAttribute "data-dt-video-url")).type).map (fun type =>
        (some (attachPlayer type (createWrapper img false 0)), img,
          img.flag "data-dt-video-autoplay", type, img.quality))
    else none, ?_, ?_, ?_⟩
  · intro img h
    simp [h]
  · intro img h
    simp [h]
  · intro img index σ hl hb
    rw [scanImage_eager img index σ hl, createWrapper_eager]
    rcases initializeSingleVideo_cases img σ.wrappers.length img
      { σ with wrappers := σ.wrappers ++ [createWrapper img false 0] } with
      ⟨hr, _, h⟩ | ⟨_, hthrow, h⟩ | ⟨hr, hthrow, type, ht, h⟩
    · rw [h, state_returned]
      refine ⟨?_, ?_⟩
      · simp only [hr, Bool.false_eq_true, false_and, if_false, Option.toList_none,
          List.append_nil]
        refine sessionViews_congr σ _ rfl ?_
        intro s hs
        exact List.getElem?_append_left (hb s hs)
      · intro s hs
        have := hb s hs
        simp only [List.length_append, List.length_singleton]
        omega
    · rw [h, state_threw]
      refine ⟨?_, ?_⟩
      · simp only [hthrow, Bool.true_eq_false, and_false, if_false, Option.toList_none,
          List.append_nil]
        refine sessionViews_congr σ _ rfl ?_
        intro s hs
        have hlt := hb s hs
        simp only
        rw [modifyWrapper_getElem?, if_neg (Nat.ne_of_lt (by simpa using hlt))]
        exact List.getElem?_append_left hlt
      · intro s hs
        have := hb s hs
        simp only [modifyWrapper_length, List.length_append, List.length_singleton]
        omega
    · rw [h, state_returned]
      refine ⟨?_, ?_⟩
      · simp only [hr, hthrow, and_self, if_true, ht, Option.map_some', Option.toList_some]
        unfold sessionViews
        simp only [List.map_append, List.map_cons, List.map_nil, modifyWrapper_append_last]
        congr 1
        · apply List.map_congr_left
          intro s hs
          rw [List.getElem?_append_left (hb s hs)]
        · simp
      · intro s hs
        simp only [modifyWrapper_append_last, List.length_append, List.length_singleton]
        simp only [List.mem_append, List.mem_singleton] at hs
        rcases hs with hs | rfl
        · have := hb s hs
          omega
        · simp

/-- The views of the registry after a scan of eager images are those of the
images that resolve and stand before the first image whose construction
throws, in page order. -/
theorem scanFrom_eager_views :
    ∃ view : Img → Option (Option Wrapper × Img × Bool × VideoType × JsString),
      (∀ img, resolves img = false → view img = none) ∧
      ∀ (rest : List Img) (index : ℕ) (σ : State),
        (∀ img ∈ rest, img.flag "data-dt-video-lazy-load" = false) →
        (∀ s ∈ σ.videoPlayers, s.wrapper < σ.wrappers.length) →
        sessionViews (scanFrom index rest σ).state =
          sessionViews σ ++
            (rest.takeWhile (fun img => !constructionThrows img)).filterMap view := by
  obtain ⟨view, hnone, hthrow, hstep⟩ := scanImage_eager_view
  refine ⟨view, hnone, ?_⟩
  intro rest
  induction rest with
  | nil => intro index σ _ _; simp [scanFrom, Outcome.state]
  | cons img rest ih =>
    intro index σ hrest hb
    have hl := hrest img (by simp)
    have ht := scanImage_eager_hasThrown img index σ hl
    obtain ⟨h1, h2⟩ := hstep img index σ hl hb
    rcases scanFrom_cons img rest index σ with ⟨h3, hs⟩ | ⟨h3, hs⟩
    · rw [h3] at ht
      rw [hs, ih (index + 1) _ (fun x hx => hrest x (by simp [hx])) h2, h1,
        List.append_assoc]
      congr 1
      cases hv : view img with
      | none => simp [List.takeWhile_cons, ← ht, List.filterMap_cons, hv]
      | some v => simp [List.takeWhile_cons, ← ht, List.filterMap_cons, hv]
    · rw [h3] at ht
      rw [hs, state_threw, h1, hthrow img ht.symm]
      simp [List.takeWhile_cons, ← ht]

/-- An image that does not resolve does not count among the views. -/
theorem takeWhile_filterMap_drop {α β : Type} (p : α → Bool) (view : α → Option β) (d : α)
    (hp : p d = true) (hv : view d = none) :
    ∀ (xs ys : List α),
      ((xs ++ d :: ys).takeWhile p).filterMap view = ((xs ++ ys).takeWhile p).filterMap view := by
  intro xs
  induction xs with
  | nil => intro ys; simp [List.takeWhile_cons, hp, List.filterMap_cons, hv]
  | cons x xs ih =>
    intro ys
    by_cases hx : p x = true
    · simp only [List.cons_append, List.takeWhile_cons, hx, if_true, List.filterMap_cons]
      rw [ih ys]
    · simp [List.takeWhile_cons, hx]

/-- C5, as amended: on a page of eager (non-lazy) images the scan throws
exactly when the construction for one of the images does, and the images from
that one on get no session.  After the scan the registry holds exactly one
session for the wrapper of each image whose URL classifies to a non-null type
with a non-null, non-empty id and which stands before every image whose
construction throws, and none for any other; each session is the one of the
image at the position of its wrapper; and the page without an image that does
not resolve gives the same sessions (each taken with the state of its wrapper
element). -/
theorem unresolved_never_promoted (page : List Img)
    (hpage : ∀ img ∈ page, img.flag "data-dt-video-lazy-load" = false) :
    (scanImages page).hasThrown = page.any constructionThrows ∧
    (∀ i : ℕ, ((scanImages page).state.videoPlayers.filter (fun s => s.wrapper = i)).length =
      if (page[i]?).any resolves = true ∧ (page.take (i + 1)).any constructionThrows = false
        then 1 else 0) ∧
    (∀ s ∈ (scanImages page).state.videoPlayers, page[s.wrapper]? = some s.referenceImg) ∧
    (∀ (xs ys : List Img) (d : Img), page = xs ++ d :: ys → resolves d = false →
      sessionViews (scanImages (xs ++ ys)).state = sessionViews (scanImages page).state) := by
  refine ⟨scanFrom_eager_hasThrown page 0 State.initial hpage, ?_, ?_, ?_⟩
  · intro i
    have := scanFrom_eager_count i page 0 State.initial hpage
    simpa [scanImages, State.initial] using this
  · intro s hs
    have hwf := wellFormed_scanImages page
    exact (hwf.session_entry s hs).2
  · intro xs ys d hxy hd
    obtain ⟨view, hnone, hviews⟩ := scanFrom_eager_views
    have h1 := hviews page 0 State.initial hpage (by simp [State.initial])
    have h2 := hviews (xs ++ ys) 0 State.initial
      (fun img himg => hpage img (by
        rw [hxy]
        simp only [List.mem_append, List.mem_cons] at himg ⊢
        tauto))
      (by simp [State.initial])
    have hsafe : constructionThrows d = false := by
      simp [constructionThrows, hd]
    unfold scanImages
    rw [h1, h2, hxy,
      takeWhile_filterMap_drop (fun img => !constructionThrows img) view d (by simp [hsafe])
        (hnone d hd)]

/-- Witness of C5: a page with a Vimeo image followed by an image whose URL
does not resolve. -/
theorem unresolved_never_promoted_witness :
    (scanImages [eagerVimeoImg, eagerUnknownImg]).hasThrown =
      [eagerVimeoImg, eagerUnknownImg].any constructionThrows ∧
    (∀ i : ℕ,
      ((scanImages [eagerVimeoImg, eagerUnknownImg]).state.videoPlayers.filter
        (fun s => s.wrapper = i)).length =
      if ([eagerVimeoImg, eagerUnknownImg][i]?).any resolves = true ∧
          ([eagerVimeoImg, eagerUnknownImg].take (i + 1)).any constructionThrows = false
        then 1 else 0) ∧
    (∀ s ∈ (scanImages [eagerVimeoImg, eagerUnknownImg]).state.videoPlayers,
      [eagerVimeoImg, eagerUnknownImg][s.wrapper]? = some s.referenceImg) ∧
    (∀ (xs ys : List Img) (d : Img), [eagerVimeoImg, eagerUnknownImg] = xs ++ d :: ys →
      resolves d = false →
      sessionViews (scanImages (xs ++ ys)).state =
        sessionViews (scanImages [eagerVimeoImg, eagerUnknownImg]).state) :=
  unresolved_never_promoted [eagerVimeoImg, eagerUnknownImg] (by decide)

/-- Counterexample to C5 as stated: a page with an eager image for the direct
file `https://example.com/video.mp4` with playback rate `Infinity`, followed by
an eager Vimeo image.  Both URLs resolve, but the construction for the first
image throws out of the scan: the registry is empty, and the second image is
not visited (one wrapper only was created). -/
theorem unresolved_never_promoted_counterexample :
    resolves eagerInfiniteRateImg = true ∧ resolves eagerVimeoImg = true ∧
    (scanImages [eagerInfiniteRateImg, eagerVimeoImg]).hasThrown = true ∧
    (scanImages [eagerInfiniteRateImg, eagerVimeoImg]).state.videoPlayers = [] ∧
    (scanImages [eagerInfiniteRateImg, eagerVimeoImg]).state.wrappers.length = 1 ∧
    (scanImages [eagerVimeoImg]).state.videoPlayers.length = 1 := by
  refine ⟨by decide, by decide, by decide, by decide, by decide, by decide⟩

theorem mem_run_rep_chr (p : Char → Bool) :
    ∀ (n : ℕ) (st m : MState), m ∈ (Re.rep n (Re.chr p)).run st →
      ∃ t, st.rest = t ++ m.rest ∧ t.length = n ∧ (∀ c ∈ t, p c = true) ∧ m.cap = st.cap := by
  intro n
  induction n with
  | zero =>
    intro st m h
    simp only [Re.rep, mem_run_eps] at h
    subst h
    exact ⟨[], rfl, rfl, by simp, rfl⟩
  | succ n ih =>
    intro st m h
    simp only [Re.rep, mem_run_seq, mem_run_chr] at h
    obtain ⟨x, ⟨c, hc, hx, hcap⟩, hm⟩ := h
    obtain ⟨t, ht, hlen, hall, hcap2⟩ := ih x m hm
    refine ⟨c :: t, by rw [hx, ht]; rfl, by simp [hlen], ?_, by rw [hcap2, hcap]⟩
    intro a ha
    rcases List.mem_cons.mp ha with rfl | ha
    · exact hc
    · exact hall a ha

/-- Whatever way the YouTube pattern matches, group 1 holds 11 characters of
the class `[^"&?\/\s]`. -/
theorem youTubeRe_cap (st m : MState) (h : m ∈ youTubeRe.run st) :
    ∃ id, m.cap = some id ∧ id.length = 11 ∧ ∀ c ∈ id, isYouTubeIdChar c = true := by
  simp only [youTubeRe, mem_run_seq] at h
  obtain ⟨x, _, hm⟩ := h
  rw [mem_run_cap] at hm
  obtain ⟨y, hy, rfl⟩ := hm
  obtain ⟨t, ht, hlen, hall, _⟩ := mem_run_rep_chr isYouTubeIdChar 11 x y hy
  refine ⟨t, ?_, hlen, hall⟩
  show some (List.take (x.rest.length - y.rest.length) x.rest) = some t
  rw [ht, take_consumed]

/-- C11 (the code at `"https://youtu.be/abc"`, and what holds): the short-link
branch of `getYouTubeId` returns whatever stands between `youtu.be/` and the
next `?`, `&` or `#`, here the 3-character `abc`, and `abc/d"e` with a `/`
and a `"` in it, while the pattern of the same function, which also knows
`youtu\.be\/`, finds no 11-character id in these URLs; for a URL without
`youtu.be/` the id is null or 11 characters of the class `[^"&?\/\s]`. -/
theorem youtube_short_link_unchecked :
    getYouTubeId "https://youtu.be/abc".data = some "abc".data ∧
    detectVideoType (some "https://youtu.be/abc".data) =
      ⟨some VideoType.youtube, some "abc".data⟩ ∧
    youTubeRe.exec "https://youtu.be/abc".data = none ∧
    getYouTubeId ("https://youtu.be/abc/d".data ++ [Char.ofNat 34, 'e']) =
      some ("abc/d".data ++ [Char.ofNat 34, 'e']) ∧
    ∀ (url id : JsString), includes "youtu.be/".data url = false →
      getYouTubeId url = some id → id.length = 11 ∧ ∀ c ∈ id, isYouTubeIdChar c = true := by
  refine ⟨by decide, by decide, by decide, by decide, ?_⟩
  intro url id hinc h
  rw [getYouTubeId, hinc] at h
  simp only [Bool.false_eq_true, if_false] at h
  cases he : youTubeRe.exec url with
  | none => rw [he] at h; simp at h
  | some m =>
    rw [he] at h
    obtain ⟨t, ht⟩ := exec_some_mem youTubeRe url m he
    obtain ⟨id1, h1, h2, h3⟩ := youTubeRe_cap _ _ ht
    have h4 : m.cap = some id := h
    rw [h1] at h4
    cases Option.some.inj h4
    exact ⟨h2, h3⟩

theorem jsSplitGo_single (c : Char) :
    ∀ (s acc : JsString), jsSplitGo [c] 0 acc s = List.splitOnP.go (fun x => x == c) s acc := by
  intro s
  induction s with
  | nil => intro acc; simp [jsSplitGo, List.splitOnP.go]
  | cons a s ih =>
    intro acc
    by_cases h : a = c
    · subst h
      simp [jsSplitGo, List.splitOnP.go, List.isPrefixOf, ih]
    · have h2 : ¬ c = a := fun e => h e.symm
      simp [jsSplitGo, List.splitOnP.go, List.isPrefixOf, ih, h, h2]

/-- Splitting at a one-character separator is `List.splitOn`. -/
theorem jsSplit_single (c : Char) (s : JsString) : jsSplit [c] s = s.splitOn c := by
  simp [jsSplit, jsSplitGo_single, List.splitOn, List.splitOnP]

theorem dropWhile_append_of_all {α : Type} (p : α → Bool) :
    ∀ (a l : List α), (∀ x ∈ a, p x = true) → (a ++ l).dropWhile p = l.dropWhile p := by
  intro a
  induction a with
  | nil => intro l _; rfl
  | cons x a ih =>
    intro l h
    have hx : p x = true := h x (by simp)
    rw [List.cons_append, List.dropWhile_cons, if_pos hx]
    exact ih l (fun y hy => h y (by simp [hy]))

theorem dropWhile_all {α : Type} (p : α → Bool) (a : List α) (h : ∀ x ∈ a, p x = true) :
    a.dropWhile p = [] := by
  have := dropWhile_append_of_all p a [] h
  simpa using this

/-- What `trim` does: of a string made of white space, a core that neither
begins nor ends with white space, and white space again, the core is left. -/
theorem jsTrim_spec (a core b : JsString) (ha : ∀ c ∈ a, isJsSpace c = true)
    (hb : ∀ c ∈ b, isJsSpace c = true)
    (hfirst : ∀ c r, core = c :: r → isJsSpace c = false)
    (hlast : ∀ r c, core = r ++ [c] → isJsSpace c = false) :
    jsTrim (a ++ core ++ b) = core := by
  unfold jsTrim
  rw [List.append_assoc, dropWhile_append_of_all isJsSpace a _ ha]
  cases core with
  | nil =>
    rw [List.nil_append, dropWhile_all isJsSpace b hb]
    rfl
  | cons c r =>
    have hc := hfirst c r rfl
    rw [List.cons_append, List.dropWhile_cons, if_neg (by simp [hc]), ← List.cons_append,
      List.reverse_append,
      dropWhile_append_of_all isJsSpace b.reverse _ (fun x hx => hb x (List.mem_reverse.mp hx))]
    rcases List.eq_nil_or_concat (c :: r) with h | ⟨L, d, h⟩
    · cases h
    · rw [List.concat_eq_append] at h
      have hd := hlast L d h
      rw [h, List.reverse_append, List.reverse_singleton, List.singleton_append,
        List.dropWhile_cons, if_neg (by simp [hd])]
      simp

/-- C12: for a non-empty controls string `s`, `parseCustomControls(s)` is the
list of the comma-separated tokens of `s`, each trimmed, filtered to the
members of the 13-name allow-list, in their original order: it is a sublist of
the trimmed tokens and holds allowed names only.  Trimming a token removes the
white space around it and nothing else: of white space, a core that neither
begins nor ends with white space, and white space, the core is left.  For a
missing or empty string the result is `null`; `"play,bogus,mute"` gives
`["play", "mute"]`, and so does `" play ,<tab>bogus, mute<newline>"`, while in
`"pl ay, mute"` the token `pl ay` keeps its inner blank and is dropped. -/
theorem custom_controls_filter (s : JsString) (hs : s ≠ []) :
    parseCustomControls (some s) =
      some (((s.splitOn ',').map jsTrim).filter (fun t => decide (t ∈ validControls))) ∧
    (∀ l, parseCustomControls (some s) = some l →
      l.Sublist ((s.splitOn ',').map jsTrim) ∧ (∀ t ∈ l, t ∈ validControls) ∧
      ∀ t ∈ (s.splitOn ',').map jsTrim, t ∈ validControls → t ∈ l) ∧
    (∀ a core b : JsString, (∀ c ∈ a, isJsSpace c = true) → (∀ c ∈ b, isJsSpace c = true) →
      (∀ c r, core = c :: r → isJsSpace c = false) →
      (∀ r c, core = r ++ [c] → isJsSpace c = false) →
      jsTrim (a ++ core ++ b) = core) ∧
    parseCustomControls none = none ∧
    parseCustomControls (some []) = none ∧
    validControls =
      ["play-large".data, "play".data, "progress".data, "current-time".data, "mute".data,
       "volume".data, "captions".data, "settings".data, "pip".data, "airplay".data,
       "fullscreen".data, "restart".data, "fast-forward".data] ∧
    parseCustomControls (some "play,bogus,mute".data) = some ["play".data, "mute".data] ∧
    parseCustomControls (some " play ,\tbogus, mute\n".data) =
      some ["play".data, "mute".data] ∧
    jsTrim " \t play-large \n ".data = "play-large".data ∧
    jsTrim "current - time".data = "current - time".data ∧
    parseCustomControls (some "pl ay, mute".data) = some ["mute".data] := by
  have hmain : parseCustomControls (some s) =
      some (((s.splitOn ',').map jsTrim).filter (fun t => decide (t ∈ validControls))) := by
    cases s with
    | nil => exact absurd rfl hs
    | cons c cs =>
      have hsep : ",".data = [','] := rfl
      simp only [parseCustomControls, hsep, jsSplit_single, Option.some.injEq]
      apply List.filter_congr
      intro t _
      simp [List.contains, List.elem_iff]
  refine ⟨hmain, ?_, jsTrim_spec, rfl, rfl, rfl, by decide, by decide, by decide, by decide,
    by decide⟩
  intro l hl
  rw [hmain] at hl
  cases Option.some.inj hl
  refine ⟨List.filter_sublist _, ?_, ?_⟩
  · intro t ht
    simpa using (List.mem_filter.mp ht).2
  · intro t ht hv
    exact List.mem_filter.mpr ⟨ht, by simpa using hv⟩

/-- Witness of C12: `" play , bogus,mute "`, with white space around the
tokens. -/
theorem custom_controls_filter_witness :
    parseCustomControls (some " play , bogus,mute ".data) =
      some (((" play , bogus,mute ".data.splitOn ',').map jsTrim).filter
        (fun t => decide (t ∈ validControls))) ∧
    (∀ l, parseCustomControls (some " play , bogus,mute ".data) = some l →
      l.Sublist ((" play , bogus,mute ".data.splitOn ',').map jsTrim) ∧
      (∀ t ∈ l, t ∈ validControls) ∧
      ∀ t ∈ (" play , bogus,mute ".data.splitOn ',').map jsTrim, t ∈ validControls → t ∈ l) ∧
    (∀ a core b : JsString, (∀ c ∈ a, isJsSpace c = true) → (∀ c ∈ b, isJsSpace c = true) →
      (∀ c r, core = c :: r → isJsSpace c = false) →
      (∀ r c, core = r ++ [c] → isJsSpace c = false) →
      jsTrim (a ++ core ++ b) = core) ∧
    parseCustomControls none = none ∧
    parseCustomControls (some []) = none ∧
    validControls =
      ["play-large".data, "play".data, "progress".data, "current-time".data, "mute".data,
       "volume".data, "captions".data, "settings".data, "pip".data, "airplay".data,
       "fullscreen".data, "restart".data, "fast-forward".data] ∧
    parseCustomControls (some "play,bogus,mute".data) = some ["play".data, "mute".data] ∧
    parseCustomControls (some " play ,\tbogus, mute\n".data) =
      some ["play".data, "mute".data] ∧
    jsTrim " \t play-large \n ".data = "play-large".data ∧
    jsTrim "current - time".data = "current - time".data ∧
    parseCustomControls (some "pl ay, mute".data) = some ["mute".data] :=
  custom_controls_filter " play , bogus,mute ".data (by decide)

/-- C13: when the image has `data-dt-video-autoplay="true"`, the Plyr options
and the native `video` element of a direct file are both muted, whatever
`data-dt-video-mute` says; otherwise both carry the declared mute flag. -/
theorem autoplay_forces_muted (img : Img) (id : JsString) :
    (img.flag "data-dt-video-autoplay" = true →
      (readConfig img).mute = true ∧ (plyrOptions (readConfig img)).muted = true ∧
      (createVideoElement (readConfig img) id).muted = true) ∧
    (img.flag "data-dt-video-autoplay" = false →
      (readConfig img).mute = img.flag "data-dt-video-mute" ∧
      (plyrOptions (readConfig img)).muted = img.flag "data-dt-video-mute" ∧
      (createVideoElement (readConfig img) id).muted = img.flag "data-dt-video-mute") := by
  constructor
  · intro h
    simp [readConfig, plyrOptions, createVideoElement, h]
  · intro h
    simp [readConfig, plyrOptions, createVideoElement, h]

theorem scale_400_300 :
    (if (400 : ℚ) / 300 > 16 / 9 then (400 : ℚ) / 300 / (16 / 9) else 16 / 9 / ((400 : ℚ) / 300))
      = 4 / 3 := by
  norm_num

theorem scale_800_300 :
    (if (800 : ℚ) / 300 > 16 / 9 then (800 : ℚ) / 300 / (16 / 9) else 16 / 9 / ((800 : ℚ) / 300))
      = 3 / 2 := by
  norm_num

/-- C14, as amended: for a YouTube session, recomputing at 400 × 300 gives
scale 4/3 with the width inflated (`400/3` %) and the height pinned at 100%;
recomputing then at 800 × 300 gives scale exactly 3/2 with the width pinned at
100% and the height inflated (150%): the inflated axis switches from width to
height.  This holds for `handleResize` and for `updateVideoScale`. -/
theorem resize_scenario :
    (handleResizeItem VideoType.youtube ComputedStyle.empty ⟨400, 300⟩ Wrapper.embedded).scaleVar
      = some (4 / 3) ∧
    (handleResizeItem VideoType.youtube ComputedStyle.empty ⟨400, 300⟩ Wrapper.embedded).iframe
      = some ⟨some (400 / 3), some 100⟩ ∧
    (handleResizeItem VideoType.youtube ComputedStyle.empty ⟨800, 300⟩
      (handleResizeItem VideoType.youtube ComputedStyle.empty ⟨400, 300⟩
        Wrapper.embedded)).scaleVar = some (3 / 2) ∧
    (handleResizeItem VideoType.youtube ComputedStyle.empty ⟨800, 300⟩
      (handleResizeItem VideoType.youtube ComputedStyle.empty ⟨400, 300⟩
        Wrapper.embedded)).iframe = some ⟨some 100, some 150⟩ ∧
    (updateVideoScale VideoType.youtube ⟨400, 300⟩ Wrapper.embedded).scaleVar = some (4 / 3) ∧
    (updateVideoScale VideoType.youtube ⟨400, 300⟩ Wrapper.embedded).iframe
      = some ⟨some (400 / 3), some 100⟩ ∧
    (updateVideoScale VideoType.youtube ⟨800, 300⟩
      (updateVideoScale VideoType.youtube ⟨400, 300⟩ Wrapper.embedded)).scaleVar
      = some (3 / 2) ∧
    (updateVideoScale VideoType.youtube ⟨800, 300⟩
      (updateVideoScale VideoType.youtube ⟨400, 300⟩ Wrapper.embedded)).iframe
      = some ⟨some 100, some 150⟩ := by
  have hv : VideoType.youtube ≠ VideoType.video := by decide
  have h4 : (400 : ℚ) ≠ 0 := by norm_num
  have h8 : (800 : ℚ) ≠ 0 := by norm_num
  have h3 : (300 : ℚ) ≠ 0 := by norm_num
  have a1 := handleResizeItem_fields VideoType.youtube hv ComputedStyle.empty 400 300 h4 h3
    Wrapper.embedded
  have a2 := handleResizeItem_fields VideoType.youtube hv ComputedStyle.empty 800 300 h8 h3
    (handleResizeItem VideoType.youtube ComputedStyle.empty ⟨400, 300⟩ Wrapper.embedded)
  have b1 := updateVideoScale_fields VideoType.youtube hv 400 300 h4 h3 Wrapper.embedded
  have b2 := updateVideoScale_fields VideoType.youtube hv 800 300 h8 h3
    (updateVideoScale VideoType.youtube ⟨400, 300⟩ Wrapper.embedded)
  rw [scale_400_300] at a1 b1
  rw [scale_800_300] at a2 b2
  rw [a1.2] at a2
  rw [b1.2] at b2
  have e1 : max (1 : ℚ) (4 / 3) = 4 / 3 := by norm_num
  have e2 : max (1 : ℚ) (3 / 2) = 3 / 2 := by norm_num
  have c1 : ¬ ((400 : ℚ) / 300 > 16 / 9) := by norm_num
  have c2 : (800 : ℚ) / 300 > 16 / 9 := by norm_num
  have n1 : (100 : ℚ) * (16 / 9 / (400 / 300)) = 400 / 3 := by norm_num
  have n2 : (100 : ℚ) * (800 / 300 / (16 / 9)) = 150 := by norm_num
  rw [e1] at a1 b1
  rw [e2] at a2 b2
  simp only [Wrapper.embedded, Option.map_some', if_neg c1, if_pos c2, n1, n2] at a1 a2 b1 b2
  exact ⟨a1.1, a1.2, a2.1, a2.2, b1.1, b1.2, b2.1, b2.2⟩

/-- Counterexample to C14 as stated: at 400 × 300 the height is pinned at 100%
and the width is `400/3` %, not 100%; at 800 × 300 the width is pinned and the
height is 150%. -/
theorem resize_scenario_counterexample :
    (handleResizeItem VideoType.youtube ComputedStyle.empty ⟨400, 300⟩ Wrapper.embedded).iframe
      = some ⟨some (400 / 3), some 100⟩ ∧
    (400 / 3 : ℚ) ≠ 100 ∧
    (handleResizeItem VideoType.youtube ComputedStyle.empty ⟨800, 300⟩ Wrapper.embedded).iframe
      = some ⟨some 100, some 150⟩ ∧
    (150 : ℚ) ≠ 100 := by
  have hv : VideoType.youtube ≠ VideoType.video := by decide
  have a1 := (handleResizeItem_fields VideoType.youtube hv ComputedStyle.empty 400 300
    (by norm_num) (by norm_num) Wrapper.embedded).2
  have a2 := (handleResizeItem_fields VideoType.youtube hv ComputedStyle.empty 800 300
    (by norm_num) (by norm_num) Wrapper.embedded).2
  have c1 : ¬ ((400 : ℚ) / 300 > 16 / 9) := by norm_num
  have c2 : (800 : ℚ) / 300 > 16 / 9 := by norm_num
  have n1 : (100 : ℚ) * (16 / 9 / (400 / 300)) = 400 / 3 := by norm_num
  have n2 : (100 : ℚ) * (800 / 300 / (16 / 9)) = 150 := by norm_num
  simp only [Wrapper.embedded, Option.map_some', if_neg c1, if_pos c2, n1, n2] at a1 a2
  exact ⟨a1, by norm_num, a2, by norm_num⟩

/-- During the scan an image adds at most one session, for the wrapper just
created. -/
theorem scanImage_videoPlayers (img : Img) (index : ℕ) (σ : State) :
    ∃ l : List Session, (scanImage img index σ).state.videoPlayers = σ.videoPlayers ++ l ∧
      l.length ≤ 1 ∧ ∀ s ∈ l, s.wrapper = σ.wrappers.length := by
  unfold scanImage
  simp only
  split_ifs
  · exact ⟨[], by simp [Outcome.state], by simp, by simp⟩
  · obtain ⟨l, h1, h2, h3⟩ := initializeSingleVideo_videoPlayers img σ.wrappers.length img
      { σ with wrappers := σ.wrappers ++
        [createWrapper img (img.flag "data-dt-video-lazy-load") index] }
    exact ⟨l, h1, by rw [h2]; split_ifs <;> simp, fun s hs => (h3 s hs).1⟩

/-- After the scan the registry is in page-scan order. -/
theorem scanFrom_sorted :
    ∀ (rest : List Img) (index : ℕ) (σ : State),
      (σ.videoPlayers.map (fun s => s.wrapper)).Pairwise (fun a b => a < b) →
      (∀ s ∈ σ.videoPlayers, s.wrapper < σ.wrappers.length) →
      ((scanFrom index rest σ).state.videoPlayers.map (fun s => s.wrapper)).Pairwise
        (fun a b => a < b) := by
  intro rest
  induction rest with
  | nil => intro index σ h _; exact h
  | cons img rest ih =>
    intro index σ hs hb
    obtain ⟨l, h1, hlen, h2⟩ := scanImage_videoPlayers img index σ
    have hsorted : ((scanImage img index σ).state.videoPlayers.map
        (fun s => s.wrapper)).Pairwise (fun a b => a < b) := by
      rw [h1, List.map_append, List.pairwise_append]
      refine ⟨hs, ?_, ?_⟩
      · cases l with
        | nil => simp
        | cons a l =>
          cases l with
          | nil => simp
          | cons b l => simp at hlen
      · intro a ha b hb2
        rw [List.mem_map] at ha hb2
        obtain ⟨s1, hs1, rfl⟩ := ha
        obtain ⟨s2, hs2, rfl⟩ := hb2
        rw [h2 s2 hs2]
        exact hb s1 hs1
    rcases scanFrom_cons img rest index σ with ⟨_, hsc⟩ | ⟨_, hsc⟩
    · rw [hsc]
      apply ih _ _ hsorted
      intro s hs1
      rw [scanImage_wrappers_length]
      rw [h1, List.mem_append] at hs1
      rcases hs1 with hs1 | hs1
      · have := hb s hs1; omega
      · have := h2 s hs1; omega
    · rw [hsc]
      exact hsorted

theorem lazyLoadEntry_videoPlayers (σ : State) (entry : IntersectionEntry) :
    ∃ l : List Session, (lazyLoadEntry σ entry).state.videoPlayers = σ.videoPlayers ++ l := by
  rcases lazyLoadEntry_cases σ entry with h | ⟨i, e, _, _, _, ⟨_, h⟩ | ⟨_, h⟩⟩
  · exact ⟨[], by rw [h]; simp [Outcome.state]⟩
  · obtain ⟨l, h1, _, _⟩ := initializeSingleVideo_videoPlayers e.img e.wrapper e.referenceImg σ
    exact ⟨l, by rw [h]; exact h1⟩
  · exact ⟨[], by rw [h]; simp [Outcome.state]⟩

theorem lazyLoadObserver_videoPlayers (entries : List IntersectionEntry) :
    ∀ σ : State, ∃ l : List Session,
      (lazyLoadObserver entries σ).state.videoPlayers = σ.videoPlayers ++ l := by
  induction entries with
  | nil => intro σ; exact ⟨[], by simp [lazyLoadObserver, Outcome.state]⟩
  | cons e es ih =>
    intro σ
    obtain ⟨l1, h1⟩ := lazyLoadEntry_videoPlayers σ e
    rcases lazyLoadObserver_cons e es σ with ⟨_, hs⟩ | ⟨_, hs⟩
    · obtain ⟨l2, h2⟩ := ih (lazyLoadEntry σ e).state
      refine ⟨l1 ++ l2, ?_⟩
      rw [hs, h2, h1, List.append_assoc]
    · exact ⟨l1, by rw [hs]; exact h1⟩

theorem placeholderClick_videoPlayers (hd : ClickHandler) (σ : State) :
    ∃ l : List Session, (placeholderClick hd σ).state.videoPlayers = σ.videoPlayers ++ l := by
  rcases placeholderClick_cases hd σ with ⟨_, hc⟩ | ⟨e, _, ⟨_, hc⟩ | ⟨_, hc⟩⟩
  · exact ⟨[], by rw [hc]; simp [Outcome.state]⟩
  · obtain ⟨l, h1, _, _⟩ := initializeSingleVideo_videoPlayers hd.img hd.wrapper
      hd.referenceImg σ
    exact ⟨l, by rw [hc]; exact h1⟩
  · exact ⟨[], by rw [hc]; simp [Outcome.state]⟩

/-- C15, as amended: after the page scan the sessions of the registry are in
page-scan order of their descriptors; every event after the scan only appends
to the registry (a lazy trigger puts the session it builds at the end, after
every session built before, whatever the index of its descriptor), and
`handleResize` leaves the registry as it is: it is never reordered or
shrunk. -/
theorem registry_append_only (page : List Img) :
    ((scanImages page).state.videoPlayers.map (fun s => s.wrapper)).Pairwise
      (fun a b => a < b) ∧
    (∀ (σ : State) (ev : Event), ∃ l : List Session,
      (step σ ev).videoPlayers = σ.videoPlayers ++ l) ∧
    (∀ (σ : State) (env : ℕ → ComputedStyle × Layout),
      (handleResize env σ).videoPlayers = σ.videoPlayers) ∧
    ∀ (events : List Event), ∀ s ∈ (run page events).videoPlayers,
      page[s.wrapper]? = some s.referenceImg := by
  refine ⟨?_, ?_, ?_, ?_⟩
  · exact scanFrom_sorted page 0 State.initial (by simp [State.initial])
      (by simp [State.initial])
  · intro σ ev
    cases ev with
    | intersect entries => exact lazyLoadObserver_videoPlayers entries σ
    | click n =>
      simp only [step]
      cases hn : σ.clickHandlers[n]? with
      | none => exact ⟨[], by simp⟩
      | some hd => exact placeholderClick_videoPlayers hd σ
    | resize env =>
      refine ⟨[], ?_⟩
      simp only [step]
      split_ifs <;> simp [handleResize]
  · intro σ env
    rfl
  · intro events s hs
    exact ((wellFormed_run page events).session_entry s hs).2

/-- Counterexample to C15 as stated: on a page with a lazy YouTube image
followed by an eager Vimeo image, a click on the placeholder builds the session
of image 0 after the session of image 1. -/
theorem registry_order_counterexample :
    (run [lazyYouTubeImg, eagerVimeoImg] [Event.click 0]).videoPlayers.map (fun s => s.wrapper)
      = [1, 0] := by
  decide

theorem includes_self_append (n : JsString) (b : JsString) : includes n (n ++ b) = true := by
  have h : n.isPrefixOf (n ++ b) = true := by
    induction n with
    | nil => cases b <;> simp [List.isPrefixOf]
    | cons c cs ih => simp [List.isPrefixOf, ih]
  cases hnb : n ++ b with
  | nil => rw [hnb] at h; simp [includes, h]
  | cons c cs => rw [hnb] at h; simp [includes, h]

theorem includes_cons (n : JsString) (c : Char) (s : JsString) (h : includes n s = true) :
    includes n (c :: s) = true := by
  simp [includes, h]

theorem includes_append_right (n a b : JsString) (h : includes n b = true) :
    includes n (a ++ b) = true := by
  induction a with
  | nil => exact h
  | cons c cs ih => exact includes_cons n c _ ih

theorem includes_append_left (n a b : JsString) (h : includes n a = true) :
    includes n (a ++ b) = true := by
  induction a with
  | nil =>
    have hn : n = [] := by
      cases n with
      | nil => rfl
      | cons c cs => simp [includes, List.isPrefixOf] at h
    subst hn
    cases b <;> simp [includes, List.isPrefixOf]
  | cons c cs ih =>
    simp only [includes, Bool.or_eq_true] at h
    rcases h with h | h
    · have hp : n.isPrefixOf ((c :: cs) ++ b) = true := by
        rw [List.isPrefixOf_iff_prefix] at h ⊢
        exact h.trans (List.prefix_append _ _)
      simp only [List.cons_append] at hp ⊢
      simp [includes, hp]
    · exact includes_cons n c _ (ih h)

theorem includes_tail (n a : JsString) : includes n (a ++ n) = true := by
  have := includes_self_append n []
  rw [List.append_nil] at this
  exact includes_append_right n a n this

theorem beforeFragment_eq_self (s : JsString) (h : '#' ∉ s) : beforeFragment s = s := by
  unfold beforeFragment
  rw [List.takeWhile_eq_self_iff]
  intro c hc
  have : c ≠ '#' := fun e => h (e ▸ hc)
  simp [this]

theorem beforeFragment_append_hash (a b : JsString) (h : '#' ∉ a) :
    beforeFragment (a ++ '#' :: b) = a := by
  unfold beforeFragment
  induction a with
  | nil => simp
  | cons c cs ih =>
    have hc : c ≠ '#' := fun e => h (by simp [e])
    have hcs : '#' ∉ cs := fun e => h (by simp [e])
    simp [List.takeWhile_cons, hc, ih hcs]

/-- A whole number below `2 ^ 64` is read exactly. -/
theorem value_decimal_nat (negative : Bool) (m : ℕ) (hm : 0 < m) (hm2 : m < 2 ^ 64) :
    (FloatLit.decimal negative m 0).value =
      JsNum.fin ((if negative then -1 else 1) * (m : ℚ)) := by
  have h1 : ¬ ((m : ℚ) * (10 : ℚ) ^ (0 : ℤ) ≤ 1 / 2 ^ 1075) := by
    rw [zpow_zero, mul_one, not_le]
    have h3 : (1 : ℚ) ≤ m := by exact_mod_cast hm
    have h4 : (1 : ℚ) / 2 ^ 1075 < 1 := by norm_num
    linarith
  have h2 : ¬ ((2 : ℚ) ^ 1024 - 2 ^ 970 ≤ (m : ℚ) * (10 : ℚ) ^ (0 : ℤ)) := by
    rw [zpow_zero, mul_one, not_le]
    have h3 : (m : ℚ) < 2 ^ 64 := by exact_mod_cast hm2
    have h4 : (2 : ℚ) ^ 64 ≤ 2 ^ 1024 - 2 ^ 970 := by norm_num
    linarith
  simp only [FloatLit.value, if_neg h1, if_neg h2]
  simp only [zpow_zero, mul_one]

theorem readConfig_autoplayVimeoImg :
    (readConfig autoplayVimeoImg).startTime = JsNum.fin 5 ∧
    (readConfig autoplayVimeoImg).endTime = JsNum.fin 10 ∧
    (readConfig autoplayVimeoImg).autoplay = true := by
  have a1 : autoplayVimeoImg.getAttribute "data-dt-video-start-time" = some "5".data := by decide
  have a2 : autoplayVimeoImg.getAttribute "data-dt-video-end-time" = some "10".data := by decide
  have s1 : scanFloat "5".data = FloatLit.decimal false 5 0 := by decide
  have s2 : scanFloat "10".data = FloatLit.decimal false 10 0 := by decide
  refine ⟨?_, ?_, by decide⟩
  · simp only [readConfig, a1, parseFloat, s1,
      value_decimal_nat false 5 (by norm_num) (by norm_num)]
    simp [JsNum.orElse, JsNum.truthy]
  · simp only [readConfig, a2, parseFloat, s2,
      value_decimal_nat false 10 (by norm_num) (by norm_num)]
    simp [JsNum.orElse, JsNum.truthy]

theorem showNumber_five : showNumber (JsNum.fin 5) = "5".data := by
  simp [showNumber]
  decide

theorem youtubeSrc_no_hash (toStr : JsNum → JsString) (origin id : JsString) (cfg : Config)
    (hid : '#' ∉ id) (horigin : '#' ∉ origin) (hstart : '#' ∉ toStr cfg.startTime.floor)
    (hend : '#' ∉ toStr cfg.endTime.floor) : '#' ∉ youtubeSrc toStr origin id cfg := by
  have l1 : '#' ∉ "https://www.youtube.com/embed/".data := by decide
  have l2 : '#' ∉ "?origin=".data := by decide
  have l3 : '#' ∉ "&enablejsapi=1&widgetid=1&modestbranding=1&playsinline=1&showinfo=0&rel=0&iv_load_policy=3&fs=0&autohide=0".data := by
    decide
  have l4 : '#' ∉ "&start=".data := by decide
  have l5 : '#' ∉ "&end=".data := by decide
  have l6 : '#' ∉ "&autoplay=1&mute=1".data := by decide
  unfold youtubeSrc
  simp only
  split_ifs <;> simp only [List.mem_append, not_or] <;> tauto

theorem youtubeSrc_eq (toStr : JsNum → JsString) (origin id : JsString) (cfg : Config) :
    youtubeSrc toStr origin id cfg =
      ((("https://www.youtube.com/embed/".data ++ id ++ "?origin=".data ++ origin ++
        "&enablejsapi=1&widgetid=1&modestbranding=1&playsinline=1&showinfo=0&rel=0&iv_load_policy=3&fs=0&autohide=0".data) ++
        (if cfg.startTime.gt (JsNum.fin 0) = true then
          "&start=".data ++ toStr cfg.startTime.floor else [])) ++
        (if cfg.endTime.gt (JsNum.fin 0) = true then
          "&end=".data ++ toStr cfg.endTime.floor else [])) ++
        (if cfg.autoplay = true then "&autoplay=1&mute=1".data else []) := by
  unfold youtubeSrc
  simp only
  split_ifs <;> simp only [List.append_assoc, List.append_nil]

/-- The start, end and autoplay parameters of the YouTube address. -/
theorem youtubeSrc_includes (toStr : JsNum → JsString) (origin id : JsString) (cfg : Config) :
    (cfg.startTime.gt (JsNum.fin 0) = true →
      includes ("&start=".data ++ toStr cfg.startTime.floor)
        (youtubeSrc toStr origin id cfg) = true) ∧
    (cfg.endTime.gt (JsNum.fin 0) = true →
      includes ("&end=".data ++ toStr cfg.endTime.floor)
        (youtubeSrc toStr origin id cfg) = true) ∧
    (cfg.autoplay = true →
      includes "&autoplay=1&mute=1".data (youtubeSrc toStr origin id cfg) = true) := by
  refine ⟨?_, ?_, ?_⟩
  · intro h
    rw [youtubeSrc_eq, if_pos h]
    exact includes_append_left _ _ _ (includes_append_left _ _ _ (includes_tail _ _))
  · intro h
    rw [youtubeSrc_eq, if_pos h]
    exact includes_append_left _ _ _ (includes_tail _ _)
  · intro h
    rw [youtubeSrc_eq, if_pos h]
    exact includes_tail _ _

theorem vimeoSrc_eq (toStr : JsNum → JsString) (id : JsString) (cfg : Config) :
    vimeoSrc toStr id cfg =
      ("https://player.vimeo.com/video/".data ++ id ++ "?byline=0&portrait=0&title=0".data ++
        (if cfg.startTime.gt (JsNum.fin 0) = true then
          '#' :: ("t=".data ++ toStr cfg.startTime ++ "s".data) else [])) ++
        (if cfg.autoplay = true then "&autoplay=1&muted=1".data else []) := by
  unfold vimeoSrc
  simp only
  split_ifs <;> simp [List.append_assoc]

theorem vimeo_base_no_hash (id : JsString) (hid : '#' ∉ id) :
    '#' ∉ "https://player.vimeo.com/video/".data ++ id ++ "?byline=0&portrait=0&title=0".data := by
  have l1 : '#' ∉ "https://player.vimeo.com/video/".data := by decide
  have l2 : '#' ∉ "?byline=0&portrait=0&title=0".data := by decide
  simp only [List.mem_append, not_or]
  exact ⟨⟨l1, hid⟩, l2⟩

/-- C16, as amended.  YouTube, for an id and an encoded origin without `#`: the
address has no fragment and holds `&start=` with the floored start time
whenever `startTime > 0`, `&end=` with the floored end time whenever
`endTime > 0`, and `&autoplay=1&mute=1` whenever autoplay is set.  Vimeo, for an
id without `#`: whenever `startTime > 0` the start time is the fragment
`#t=<startTime>s` that follows the query; the address does not depend on the
end time; and whenever autoplay is set and `startTime > 0` does not hold,
`&autoplay=1&muted=1` is in the query. -/
theorem iframe_address_encoding (toStr : JsNum → JsString) (origin id : JsString)
    (cfg : Config) (hid : '#' ∉ id) (horigin : '#' ∉ origin)
    (hstart : '#' ∉ toStr cfg.startTime.floor) (hend : '#' ∉ toStr cfg.endTime.floor) :
    (cfg.startTime.gt (JsNum.fin 0) = true →
      includes ("&start=".data ++ toStr cfg.startTime.floor)
        (beforeFragment (iframeSrc toStr origin VideoType.youtube id cfg)) = true) ∧
    (cfg.endTime.gt (JsNum.fin 0) = true →
      includes ("&end=".data ++ toStr cfg.endTime.floor)
        (beforeFragment (iframeSrc toStr origin VideoType.youtube id cfg)) = true) ∧
    (cfg.autoplay = true →
      includes "&autoplay=1&mute=1".data
        (beforeFragment (iframeSrc toStr origin VideoType.youtube id cfg)) = true) ∧
    (cfg.startTime.gt (JsNum.fin 0) = true →
      beforeFragment (iframeSrc toStr origin VideoType.vimeo id cfg) =
        "https://player.vimeo.com/video/".data ++ id ++ "?byline=0&portrait=0&title=0".data ∧
      ∃ rest, iframeSrc toStr origin VideoType.vimeo id cfg =
        "https://player.vimeo.com/video/".data ++ id ++ "?byline=0&portrait=0&title=0".data ++
          "#t=".data ++ toStr cfg.startTime ++ "s".data ++ rest) ∧
    (∀ e : JsNum, iframeSrc toStr origin VideoType.vimeo id { cfg with endTime := e } =
      iframeSrc toStr origin VideoType.vimeo id cfg) ∧
    (cfg.autoplay = true → cfg.startTime.gt (JsNum.fin 0) = false →
      includes "&autoplay=1&muted=1".data
        (beforeFragment (iframeSrc toStr origin VideoType.vimeo id cfg)) = true) := by
  have hy : iframeSrc toStr origin VideoType.youtube id cfg = youtubeSrc toStr origin id cfg := rfl
  have hv : ∀ c : Config, iframeSrc toStr origin VideoType.vimeo id c = vimeoSrc toStr id c :=
    fun _ => rfl
  have hno := youtubeSrc_no_hash toStr origin id cfg hid horigin hstart hend
  obtain ⟨y1, y2, y3⟩ := youtubeSrc_includes toStr origin id cfg
  have hbase := vimeo_base_no_hash id hid
  rw [hy, beforeFragment_eq_self _ hno]
  refine ⟨y1, y2, y3, ?_, ?_, ?_⟩
  · intro h
    rw [hv, vimeoSrc_eq, if_pos h]
    constructor
    · rw [List.append_assoc, List.cons_append]
      exact beforeFragment_append_hash _ _ hbase
    · exact ⟨if cfg.autoplay = true then "&autoplay=1&muted=1".data else [], by
        simp [List.append_assoc]⟩
  · intro e
    rw [hv, hv]
    rfl
  · intro ha hs
    rw [hv, vimeoSrc_eq, if_pos ha]
    simp only [hs, Bool.false_eq_true, if_false, List.append_nil]
    have hflags : '#' ∉ "&autoplay=1&muted=1".data := by decide
    rw [beforeFragment_eq_self _ (by
      simp only [List.mem_append, not_or] at hbase ⊢
      exact ⟨hbase, hflags⟩)]
    exact includes_tail _ _

theorem showNumber_floor_five : showNumber (JsNum.fin 5).floor = "5".data := by
  have h : (JsNum.fin 5).floor = JsNum.fin 5 := by simp [JsNum.floor]
  rw [h, showNumber_five]

theorem showNumber_floor_ten : showNumber (JsNum.fin 10).floor = "10".data := by
  have h : (JsNum.fin 10).floor = JsNum.fin 10 := by simp [JsNum.floor]
  rw [h]
  simp [showNumber]
  decide

theorem beforeFragment_append_of_mem (x y : JsString) (h : '#' ∈ x) :
    beforeFragment (x ++ y) = beforeFragment x := by
  unfold beforeFragment
  induction x with
  | nil => simp at h
  | cons c cs ih =>
    by_cases hc : c = '#'
    · simp [List.takeWhile_cons, hc]
    · have hcs : '#' ∈ cs := by
        rcases List.mem_cons.mp h with e | e
        · exact absurd e.symm hc
        · exact e
      simp [List.takeWhile_cons, hc, ih hcs]

/-- Witness of C16: the configuration of an image with autoplay, start time 5
and end time 10, for the id `123456789`. -/
theorem iframe_address_encoding_witness :
    ((readConfig autoplayVimeoImg).startTime.gt (JsNum.fin 0) = true →
      includes ("&start=".data ++ showNumber (readConfig autoplayVimeoImg).startTime.floor)
        (beforeFragment (iframeSrc showNumber "https%3A%2F%2Fexample.com".data
          VideoType.youtube "123456789".data (readConfig autoplayVimeoImg))) = true) ∧
    ((readConfig autoplayVimeoImg).endTime.gt (JsNum.fin 0) = true →
      includes ("&end=".data ++ showNumber (readConfig autoplayVimeoImg).endTime.floor)
        (beforeFragment (iframeSrc showNumber "https%3A%2F%2Fexample.com".data
          VideoType.youtube "123456789".data (readConfig autoplayVimeoImg))) = true) ∧
    ((readConfig autoplayVimeoImg).autoplay = true →
      includes "&autoplay=1&mute=1".data
        (beforeFragment (iframeSrc showNumber "https%3A%2F%2Fexample.com".data
          VideoType.youtube "123456789".data (readConfig autoplayVimeoImg))) = true) ∧
    ((readConfig autoplayVimeoImg).startTime.gt (JsNum.fin 0) = true →
      beforeFragment (iframeSrc showNumber "https%3A%2F%2Fexample.com".data VideoType.vimeo
          "123456789".data (readConfig autoplayVimeoImg)) =
        "https://player.vimeo.com/video/".data ++ "123456789".data ++
          "?byline=0&portrait=0&title=0".data ∧
      ∃ rest, iframeSrc showNumber "https%3A%2F%2Fexample.com".data VideoType.vimeo
          "123456789".data (readConfig autoplayVimeoImg) =
        "https://player.vimeo.com/video/".data ++ "123456789".data ++
          "?byline=0&portrait=0&title=0".data ++
          "#t=".data ++ showNumber (readConfig autoplayVimeoImg).startTime ++ "s".data ++ rest) ∧
    (∀ e : JsNum, iframeSrc showNumber "https%3A%2F%2Fexample.com".data VideoType.vimeo
        "123456789".data { readConfig autoplayVimeoImg with endTime := e } =
      iframeSrc showNumber "https%3A%2F%2Fexample.com".data VideoType.vimeo "123456789".data
        (readConfig autoplayVimeoImg)) ∧
    ((readConfig autoplayVimeoImg).autoplay = true →
      (readConfig autoplayVimeoImg).startTime.gt (JsNum.fin 0) = false →
      includes "&autoplay=1&muted=1".data
        (beforeFragment (iframeSrc showNumber "https%3A%2F%2Fexample.com".data VideoType.vimeo
          "123456789".data (readConfig autoplayVimeoImg))) = true) :=
  iframe_address_encoding showNumber "https%3A%2F%2Fexample.com".data "123456789".data
    (readConfig autoplayVimeoImg) (by decide) (by decide)
    (by rw [readConfig_autoplayVimeoImg.1, showNumber_floor_five]; decide)
    (by rw [readConfig_autoplayVimeoImg.2.1, showNumber_floor_ten]; decide)

/-- Counterexample to C16 as stated.  For the Vimeo image with autoplay, start
time 5 and end time 10 the address is
`...?byline=0&portrait=0&title=0#t=5s&autoplay=1&muted=1`: the part before `#`
holds neither the end time nor the autoplay and mute flags.  For the YouTube
URL `https://www.youtube.com/watch?v=abcde#ghijk` the id is `abcde#ghijk`,
and the whole query of the address lies after the `#`. -/
theorem iframe_address_counterexample :
    (readConfig autoplayVimeoImg).endTime.gt (JsNum.fin 0) = true ∧
    (readConfig autoplayVimeoImg).autoplay = true ∧
    iframeSrc showNumber "https%3A%2F%2Fexample.com".data VideoType.vimeo "123456789".data
        (readConfig autoplayVimeoImg) =
      "https://player.vimeo.com/video/123456789?byline=0&portrait=0&title=0#t=5s&autoplay=1&muted=1".data ∧
    beforeFragment
        "https://player.vimeo.com/video/123456789?byline=0&portrait=0&title=0#t=5s&autoplay=1&muted=1".data =
      "https://player.vimeo.com/video/123456789?byline=0&portrait=0&title=0".data ∧
    includes "autoplay".data
      "https://player.vimeo.com/video/123456789?byline=0&portrait=0&title=0".data = false ∧
    includes "end".data
      "https://player.vimeo.com/video/123456789?byline=0&portrait=0&title=0#t=5s&autoplay=1&muted=1".data
        = false ∧
    detectVideoType (some "https://www.youtube.com/watch?v=abcde#ghijk".data) =
      ⟨some VideoType.youtube, some "abcde#ghijk".data⟩ ∧
    beforeFragment (iframeSrc showNumber "https%3A%2F%2Fexample.com".data VideoType.youtube
        "abcde#ghijk".data (readConfig autoplayVimeoImg)) =
      "https://www.youtube.com/embed/abcde".data := by
  obtain ⟨h1, h2, h3⟩ := readConfig_autoplayVimeoImg
  have hgt : (JsNum.fin 5).gt (JsNum.fin 0) = true := by simp [JsNum.gt, JsNum.lt]
  have hgt2 : (JsNum.fin 10).gt (JsNum.fin 0) = true := by simp [JsNum.gt, JsNum.lt]
  refine ⟨by rw [h2]; exact hgt2, h3, ?_, by decide, by decide, by decide, by decide, ?_⟩
  · show vimeoSrc showNumber "123456789".data (readConfig autoplayVimeoImg) = _
    rw [vimeoSrc_eq, h1, h3, if_pos hgt, if_pos rfl, showNumber_five]
    decide
  · show beforeFragment (youtubeSrc showNumber "https%3A%2F%2Fexample.com".data
      "abcde#ghijk".data (readConfig autoplayVimeoImg)) = _
    rw [youtubeSrc_eq]
    have hsplit : "https://www.youtube.com/embed/".data ++ "abcde#ghijk".data =
        "https://www.youtube.com/embed/abcde".data ++ '#' :: "ghijk".data := by decide
    rw [hsplit]
    have hX : '#' ∈ "https://www.youtube.com/embed/abcde".data ++ '#' :: "ghijk".data := by
      decide
    rw [beforeFragment_append_of_mem _ _ (List.mem_append_left _ (List.mem_append_left _
        (List.mem_append_left _ (List.mem_append_left _ (List.mem_append_left _ hX))))),
      beforeFragment_append_of_mem _ _ (List.mem_append_left _ (List.mem_append_left _
        (List.mem_append_left _ (List.mem_append_left _ hX)))),
      beforeFragment_append_of_mem _ _ (List.mem_append_left _ (List.mem_append_left _
        (List.mem_append_left _ hX))),
      beforeFragment_append_of_mem _ _ (List.mem_append_left _ (List.mem_append_left _ hX)),
      beforeFragment_append_of_mem _ _ (List.mem_append_left _ hX),
      beforeFragment_append_of_mem _ _ hX]
    exact beforeFragment_append_hash _ _ (by decide)

/-- C17: the `timeupdate` handler that enforces the end time is registered for
direct files only.  For a `youtube` or `vimeo` session no handler is
registered whatever `endTime` is, and none is registered when `endTime` is `0`
or not greater than `0`.  For a direct file with `endTime > 0` the one handler
is `endTimeHandler`: at `currentTime >= endTime` it pauses when `loop` is
false, and sets `currentTime` to `startTime` and plays when `loop` is true; at
`currentTime < endTime` (or whenever the comparison `>=` is false) it leaves
the player as it is. -/
theorem end_time_polling (type : VideoType) (cfg : Config) (player : Player) :
    (type ≠ VideoType.video → timeUpdateHandlers type cfg = []) ∧
    (cfg.endTime = JsNum.fin 0 → timeUpdateHandlers type cfg = []) ∧
    (cfg.endTime.gt (JsNum.fin 0) = false → timeUpdateHandlers type cfg = []) ∧
    (cfg.endTime.gt (JsNum.fin 0) = true →
      timeUpdateHandlers VideoType.video cfg = [endTimeHandler cfg]) ∧
    (player.currentTime.ge cfg.endTime = true → cfg.loop = false →
      endTimeHandler cfg player = { currentTime := player.currentTime, paused := true }) ∧
    (player.currentTime.ge cfg.endTime = true → cfg.loop = true →
      endTimeHandler cfg player = { currentTime := cfg.startTime, paused := false }) ∧
    (player.currentTime.lt cfg.endTime = true → endTimeHandler cfg player = player) ∧
    (player.currentTime.ge cfg.endTime = false → endTimeHandler cfg player = player) := by
  refine ⟨?_, ?_, ?_, ?_, ?_, ?_, ?_, ?_⟩
  · intro h
    simp [timeUpdateHandlers, h]
  · intro h
    simp [timeUpdateHandlers, h, JsNum.gt, JsNum.lt]
  · intro h
    simp [timeUpdateHandlers, h]
  · intro h
    simp [timeUpdateHandlers, h]
  · intro h hl
    simp [endTimeHandler, h, hl]
  · intro h hl
    simp [endTimeHandler, h, hl]
  · intro h
    have h2 : player.currentTime.ge cfg.endTime = false := by
      cases hc : player.currentTime <;> cases he : cfg.endTime <;>
        simp [hc, he, JsNum.ge, JsNum.lt] at h ⊢ <;> simp [h]
    simp [endTimeHandler, h2]
  · intro h
    simp [endTimeHandler, h]

/-- C18 (code bug): `hexToRgb` never throws, so the `catch` clause with the
blue fallback is never taken: `rgbColor` is always what `hexToRgb` returns for
the colour without its first `#`.  The malformed colour `"zzz"` gives
`(NaN, NaN, NaN)`, not `(0, 138, 255)`; `"red"` gives `(NaN, 238, 221)` and
`"#12"` gives `(18, NaN, NaN)`.  The valid colours `"#0f8"` and `"#008aff"`
give `(0, 255, 136)` and `(0, 138, 255)`. -/
theorem theme_fallback_never_taken :
    rgbColor "zzz".data = ⟨JsNum.nan, JsNum.nan, JsNum.nan⟩ ∧
    rgbColor "zzz".data ≠ ⟨JsNum.fin 0, JsNum.fin 138, JsNum.fin 255⟩ ∧
    rgbColor "red".data = ⟨JsNum.nan, JsNum.fin 238, JsNum.fin 221⟩ ∧
    rgbColor "#12".data = ⟨JsNum.fin 18, JsNum.nan, JsNum.nan⟩ ∧
    rgbColor "#0f8".data = ⟨JsNum.fin 0, JsNum.fin 255, JsNum.fin 136⟩ ∧
    rgbColor "#008aff".data = ⟨JsNum.fin 0, JsNum.fin 138, JsNum.fin 255⟩ ∧
    (∀ hex : JsString, ∃ rgb, hexToRgb hex = Except.ok rgb) ∧
    (∀ themeColor : JsString,
      hexToRgb (themeColor.erase '#') = Except.ok (rgbColor themeColor)) := by
  have hexOk : ∀ hex : JsString, ∃ rgb, hexToRgb hex = Except.ok rgb := by
    intro hex
    unfold hexToRgb
    dsimp only
    split <;> exact ⟨_, rfl⟩
  have hrr : scanHexInt "rr".data = none := by decide
  have hee : scanHexInt "ee".data = some 238 := by decide
  have hdd : scanHexInt "dd".data = some 221 := by decide
  have h12 : scanHexInt "12".data = some 18 := by decide
  have hnil : scanHexInt [] = none := by decide
  have h00 : scanHexInt "00".data = some 0 := by decide
  have h8a : scanHexInt "8a".data = some 138 := by decide
  have hff : scanHexInt "ff".data = some 255 := by decide
  have h88 : scanHexInt "88".data = some 136 := by decide
  refine ⟨by decide, by decide, ?_, ?_, ?_, ?_, hexOk, ?_⟩
  · simp [rgbColor, hexToRgb, parseIntHex, hrr, hee, hdd]
  · simp [rgbColor, hexToRgb, parseIntHex, h12, hnil]
  · simp [rgbColor, hexToRgb, parseIntHex, h00, hff, h88]
  · simp [rgbColor, hexToRgb, parseIntHex, h00, h8a, hff]
  · intro themeColor
    obtain ⟨rgb, h⟩ := hexOk (themeColor.erase '#')
    simp [rgbColor, h]

theorem orElse_of_falsy (x d : JsNum) (h : x.truthy = false) : x.orElse d = d := by
  simp [JsNum.orElse, h]

theorem orElse_of_truthy (x d : JsNum) (h : x.truthy = true) : x.orElse d = x := by
  simp [JsNum.orElse, h]

/-- With a positive default, `x || d` is positive unless `x` is negative. -/
theorem orElse_pos (x : JsNum) (d : ℚ) (hd : 0 < d) (h : x.lt (JsNum.fin 0) = false) :
    (x.orElse (JsNum.fin d)).gt (JsNum.fin 0) = true := by
  cases x with
  | nan => simpa [JsNum.orElse, JsNum.truthy, JsNum.gt, JsNum.lt] using hd
  | inf negative =>
    simp [JsNum.lt] at h
    simp [JsNum.orElse, JsNum.truthy, JsNum.gt, JsNum.lt, h]
  | fin q =>
    simp [JsNum.lt] at h
    by_cases hq : q = 0
    · simpa [JsNum.orElse, JsNum.truthy, JsNum.gt, JsNum.lt, hq] using hd
    · simp [JsNum.orElse, JsNum.truthy, JsNum.gt, JsNum.lt, hq]
      exact lt_of_le_of_ne h (Ne.symm hq)

/-- With the default `0`, `x || 0` is at least `0` unless `x` is negative. -/
theorem orElse_nonneg (x : JsNum) (h : x.lt (JsNum.fin 0) = false) :
    (x.orElse (JsNum.fin 0)).ge (JsNum.fin 0) = true := by
  cases x with
  | nan => simp [JsNum.orElse, JsNum.truthy, JsNum.ge, JsNum.lt]
  | inf negative =>
    simp [JsNum.lt] at h
    simp [JsNum.orElse, JsNum.truthy, JsNum.ge, JsNum.lt, h]
  | fin q =>
    simp [JsNum.lt] at h
    by_cases hq : q = 0
    · simp [JsNum.orElse, JsNum.truthy, JsNum.ge, JsNum.lt, hq]
    · simp [JsNum.orElse, JsNum.truthy, JsNum.ge, JsNum.lt, hq, h]

/-- A negative number is truthy and passes through `x || d`. -/
theorem orElse_neg (x d : JsNum) (h : x.lt (JsNum.fin 0) = true) : x.orElse d = x := by
  apply orElse_of_truthy
  cases x with
  | nan => simp [JsNum.lt] at h
  | inf negative => simp [JsNum.truthy]
  | fin q =>
    simp [JsNum.lt] at h
    simp [JsNum.truthy, ne_of_lt h]

/-- The values `parseFloat` gives that are falsy: `NaN` for a missing
attribute or one without a number at its start, and zero, which is what a
decimal of at most `2 ^ (-1075)` reads as. -/
theorem parseFloat_falsy_iff (attr : Option JsString) :
    (parseFloat attr).truthy = false ↔
      attr = none ∨
        ∃ s, attr = some s ∧
          (scanFloat s = FloatLit.none ∨
            ∃ negative m e, scanFloat s = FloatLit.decimal negative m e ∧
              (m : ℚ) * (10 : ℚ) ^ e ≤ 1 / 2 ^ 1075) := by
  cases attr with
  | none => simp [parseFloat, JsNum.truthy]
  | some s =>
    simp only [parseFloat, Option.some.injEq, false_or, exists_eq_left', reduceCtorEq]
    cases h : scanFloat s with
    | none => simp [FloatLit.value, JsNum.truthy]
    | infinity negative => simp [FloatLit.value, JsNum.truthy]
    | decimal negative mantissa exponent =>
      by_cases h1 : (mantissa : ℚ) * (10 : ℚ) ^ exponent ≤ 1 / 2 ^ 1075
      · simp only [FloatLit.value, if_pos h1, JsNum.truthy, ne_eq, not_true_eq_false,
          decide_False, true_iff]
        exact Or.inr ⟨negative, mantissa, exponent, rfl, h1⟩
      · have hrhs : ¬ (FloatLit.decimal negative mantissa exponent = FloatLit.none ∨
            ∃ negative1 m e, FloatLit.decimal negative mantissa exponent =
              FloatLit.decimal negative1 m e ∧ (m : ℚ) * (10 : ℚ) ^ e ≤ 1 / 2 ^ 1075) := by
          rintro (hc | ⟨n1, m, e, hc, hle⟩)
          · cases hc
          · cases hc
            exact h1 hle
        have hpos : (0 : ℚ) < (mantissa : ℚ) * (10 : ℚ) ^ exponent := by
          have : (0 : ℚ) < 1 / 2 ^ 1075 := by positivity
          linarith [not_le.mp h1]
        by_cases h2 : (2 : ℚ) ^ 1024 - 2 ^ 970 ≤ (mantissa : ℚ) * (10 : ℚ) ^ exponent
        · simp only [FloatLit.value, if_neg h1, if_pos h2, JsNum.truthy, Bool.true_eq_false,
            false_iff]
          exact hrhs
        · have hne : (if negative = true then (-1 : ℚ) else 1) * (mantissa : ℚ) *
              (10 : ℚ) ^ exponent ≠ 0 := by
            rw [mul_assoc]
            apply mul_ne_zero
            · split_ifs <;> norm_num
            · exact ne_of_gt hpos
          simp only [FloatLit.value, if_neg h1, if_neg h2, JsNum.truthy, hne, ne_eq,
            not_false_eq_true, decide_True, Bool.true_eq_false, false_iff]
          exact hrhs

/-- The attributes `1e-400` and `1e400`: the first reads as zero, so the
default is taken; the second reads as `Infinity`. -/
theorem readConfig_outOfRange :
    (readConfig outOfRangeNumbersImg).playbackRate = JsNum.fin 1 ∧
    (readConfig outOfRangeNumbersImg).startTime = JsNum.inf false := by
  have a1 : outOfRangeNumbersImg.getAttribute "data-dt-video-playback-rate" =
      some "1e-400".data := by decide
  have a2 : outOfRangeNumbersImg.getAttribute "data-dt-video-start-time" =
      some "1e400".data := by decide
  have s1 : scanFloat "1e-400".data = FloatLit.decimal false 1 (-400) := by decide
  have s2 : scanFloat "1e400".data = FloatLit.decimal false 1 400 := by decide
  have t1 : ((1 : ℕ) : ℚ) * (10 : ℚ) ^ (-400 : ℤ) ≤ 1 / 2 ^ 1075 := by
    rw [Nat.cast_one, one_mul, zpow_neg, ← one_div]
    apply one_div_le_one_div_of_le (by positivity)
    norm_num
  have t2 : (2 : ℚ) ^ 1024 - 2 ^ 970 ≤ ((1 : ℕ) : ℚ) * (10 : ℚ) ^ (400 : ℤ) := by
    rw [Nat.cast_one, one_mul]
    norm_num
  have t3 : ¬ (((1 : ℕ) : ℚ) * (10 : ℚ) ^ (400 : ℤ) ≤ 1 / 2 ^ 1075) := by
    rw [Nat.cast_one, one_mul, not_le]
    norm_num
  refine ⟨?_, ?_⟩
  · simp only [readConfig, a1, parseFloat, s1, FloatLit.value, if_pos t1]
    simp [JsNum.orElse, JsNum.truthy]
  · simp only [readConfig, a2, parseFloat, s2, FloatLit.value, if_neg t3, if_pos t2]
    simp [JsNum.orElse, JsNum.truthy]

/-- C19, as the code has it: each of `playbackRate`, `startTime` and `endTime`
is `parseFloat(attribute) || default` with defaults `1`, `0` and `0`.  The
default is taken exactly when the attribute is missing, has no number at its
start, or reads as zero (a decimal of at most `2 ^ (-1075)`, as `1e-400`);
every other value is kept as parsed (`1e400` as `Infinity`).  So
`playbackRate > 0`, `startTime >= 0` and `endTime >= 0` hold whenever the parsed
value is not negative, and a negative value is kept as it is. -/
theorem numeric_config (img : Img) :
    (∀ attr : Option JsString, (parseFloat attr).truthy = false ↔
      attr = none ∨
        ∃ s, attr = some s ∧
          (scanFloat s = FloatLit.none ∨
            ∃ negative m e, scanFloat s = FloatLit.decimal negative m e ∧
              (m : ℚ) * (10 : ℚ) ^ e ≤ 1 / 2 ^ 1075)) ∧
    ((parseFloat (img.getAttribute "data-dt-video-playback-rate")).truthy = false →
      (readConfig img).playbackRate = JsNum.fin 1) ∧
    ((parseFloat (img.getAttribute "data-dt-video-start-time")).truthy = false →
      (readConfig img).startTime = JsNum.fin 0) ∧
    ((parseFloat (img.getAttribute "data-dt-video-end-time")).truthy = false →
      (readConfig img).endTime = JsNum.fin 0) ∧
    ((parseFloat (img.getAttribute "data-dt-video-playback-rate")).truthy = true →
      (readConfig img).playbackRate =
        parseFloat (img.getAttribute "data-dt-video-playback-rate")) ∧
    ((parseFloat (img.getAttribute "data-dt-video-start-time")).truthy = true →
      (readConfig img).startTime = parseFloat (img.getAttribute "data-dt-video-start-time")) ∧
    ((parseFloat (img.getAttribute "data-dt-video-end-time")).truthy = true →
      (readConfig img).endTime = parseFloat (img.getAttribute "data-dt-video-end-time")) ∧
    ((parseFloat (img.getAttribute "data-dt-video-playback-rate")).lt (JsNum.fin 0) = false →
      (readConfig img).playbackRate.gt (JsNum.fin 0) = true) ∧
    ((parseFloat (img.getAttribute "data-dt-video-start-time")).lt (JsNum.fin 0) = false →
      (readConfig img).startTime.ge (JsNum.fin 0) = true) ∧
    ((parseFloat (img.getAttribute "data-dt-video-end-time")).lt (JsNum.fin 0) = false →
      (readConfig img).endTime.ge (JsNum.fin 0) = true) ∧
    ((parseFloat (img.getAttribute "data-dt-video-playback-rate")).lt (JsNum.fin 0) = true →
      (readConfig img).playbackRate =
        parseFloat (img.getAttribute "data-dt-video-playback-rate")) ∧
    ((parseFloat (img.getAttribute "data-dt-video-start-time")).lt (JsNum.fin 0) = true →
      (readConfig img).startTime = parseFloat (img.getAttribute "data-dt-video-start-time")) ∧
    ((parseFloat (img.getAttribute "data-dt-video-end-time")).lt (JsNum.fin 0) = true →
      (readConfig img).endTime = parseFloat (img.getAttribute "data-dt-video-end-time")) ∧
    (readConfig outOfRangeNumbersImg).playbackRate = JsNum.fin 1 ∧
    (readConfig outOfRangeNumbersImg).startTime = JsNum.inf false ∧
    (readConfig outOfRangeNumbersImg).endTime = JsNum.fin 0 :=
  ⟨parseFloat_falsy_iff,
    orElse_of_falsy _ _, orElse_of_falsy _ _, orElse_of_falsy _ _,
    orElse_of_truthy _ _, orElse_of_truthy _ _, orElse_of_truthy _ _,
    orElse_pos _ 1 one_pos, orElse_nonneg _, orElse_nonneg _,
    orElse_neg _ _, orElse_neg _ _, orElse_neg _ _,
    readConfig_outOfRange.1, readConfig_outOfRange.2, by decide⟩

/-- Counterexample to C19 as stated: with the attributes `"-2"`, `"-5"` and
`"-1"` the configuration has `playbackRate = -2`, `startTime = -5` and
`endTime = -1`, so none of `playbackRate > 0`, `startTime >= 0`,
`endTime >= 0` holds. -/
theorem numeric_config_counterexample :
    (readConfig negativeNumbersImg).playbackRate = JsNum.fin (-2) ∧
    (readConfig negativeNumbersImg).playbackRate.gt (JsNum.fin 0) = false ∧
    (readConfig negativeNumbersImg).startTime = JsNum.fin (-5) ∧
    (readConfig negativeNumbersImg).startTime.ge (JsNum.fin 0) = false ∧
    (readConfig negativeNumbersImg).endTime = JsNum.fin (-1) ∧
    (readConfig negativeNumbersImg).endTime.ge (JsNum.fin 0) = false := by
  have a1 : negativeNumbersImg.getAttribute "data-dt-video-playback-rate" = some "-2".data := by
    decide
  have a2 : negativeNumbersImg.getAttribute "data-dt-video-start-time" = some "-5".data := by
    decide
  have a3 : negativeNumbersImg.getAttribute "data-dt-video-end-time" = some "-1".data := by
    decide
  have s1 : scanFloat "-2".data = FloatLit.decimal true 2 0 := by decide
  have s2 : scanFloat "-5".data = FloatLit.decimal true 5 0 := by decide
  have s3 : scanFloat "-1".data = FloatLit.decimal true 1 0 := by decide
  have p1 : (readConfig negativeNumbersImg).playbackRate = JsNum.fin (-2) := by
    simp only [readConfig, a1, parseFloat, s1,
      value_decimal_nat true 2 (by norm_num) (by norm_num)]
    simp [JsNum.orElse, JsNum.truthy]
  have p2 : (readConfig negativeNumbersImg).startTime = JsNum.fin (-5) := by
    simp only [readConfig, a2, parseFloat, s2,
      value_decimal_nat true 5 (by norm_num) (by norm_num)]
    simp [JsNum.orElse, JsNum.truthy]
  have p3 : (readConfig negativeNumbersImg).endTime = JsNum.fin (-1) := by
    simp only [readConfig, a3, parseFloat, s3,
      value_decimal_nat true 1 (by norm_num) (by norm_num)]
    simp [JsNum.orElse, JsNum.truthy]
  refine ⟨p1, ?_, p2, ?_, p3, ?_⟩
  · rw [p1]; simp [JsNum.gt, JsNum.lt]
  · rw [p2]; simp [JsNum.ge, JsNum.lt]
  · rw [p3]; simp [JsNum.ge, JsNum.lt]

theorem jsSplitGo_class (c : Char) :
    ∀ (s acc : JsString), jsSplitGo [c] 0 acc s = splitClassGo (fun x => x == c) acc s := by
  intro s
  induction s with
  | nil => intro acc; simp [jsSplitGo, splitClassGo]
  | cons a s ih =>
    intro acc
    by_cases h : a = c
    · subst h
      simp [jsSplitGo, splitClassGo, List.isPrefixOf, ih]
    · have h2 : ¬ c = a := fun e => h e.symm
      simp [jsSplitGo, splitClassGo, List.isPrefixOf, ih, h, h2]

theorem splitClassGo_ne_nil (p : Char → Bool) :
    ∀ (s acc : JsString), splitClassGo p acc s ≠ [] := by
  intro s
  induction s with
  | nil => intro acc; simp [splitClassGo]
  | cons a s ih =>
    intro acc
    by_cases h : p a = true
    · simp [splitClassGo, h]
    · simpa [splitClassGo, h] using ih (a :: acc)

/-- The last segment of a split is the text after the last separator. -/
theorem splitClassGo_getLast (p : Char → Bool) (c : Char) (rest : JsString) (hc : p c = true)
    (hrest : ∀ a ∈ rest, p a = false) :
    ∀ (pre acc : JsString), (splitClassGo p acc (pre ++ c :: rest)).getLast? = some rest := by
  intro pre
  induction pre with
  | nil =>
    intro acc
    simp [splitClassGo, hc, splitClassGo_all p rest [] hrest]
  | cons a pre ih =>
    intro acc
    by_cases h : p a = true
    · rw [List.cons_append, splitClassGo, if_pos h]
      have hne := splitClassGo_ne_nil p (pre ++ c :: rest) []
      cases hl : splitClassGo p [] (pre ++ c :: rest) with
      | nil => exact absurd hl hne
      | cons x l =>
        have := ih []
        rw [hl] at this
        simpa [List.getLast?_cons_cons] using this
    · rw [List.cons_append, splitClassGo, if_neg h]
      exact ih (a :: acc)

/-- The extensions of the switch hold no `.` and no `?`. -/
theorem extension_chars (ext : JsString)
    (hext : ext.map Char.toLower ∈ ["mp4".data, "webm".data, "ogg".data, "mov".data]) :
    '.' ∉ ext ∧ '?' ∉ ext := by
  have key : ∀ c : Char, c.toLower = c → c ∉ "mp4".data → c ∉ "webm".data → c ∉ "ogg".data →
      c ∉ "mov".data → c ∉ ext := by
    intro c hc h1 h2 h3 h4 hmem
    have hm : c ∈ ext.map Char.toLower := by
      rw [List.mem_map]
      exact ⟨c, hmem, hc⟩
    simp only [List.mem_cons, List.mem_singleton, List.not_mem_nil, or_false] at hext
    rcases hext with h | h | h | h <;> rw [h] at hm
    · exact h1 hm
    · exact h2 hm
    · exact h3 hm
    · exact h4 hm
  exact ⟨key '.' (by decide) (by decide) (by decide) (by decide) (by decide),
    key '?' (by decide) (by decide) (by decide) (by decide) (by decide)⟩

/-- The text `getVideoMimeType` switches on, when no `.` follows the
extension. -/
theorem getVideoMimeType_of_last_dot (p ext q : JsString)
    (hext : ext.map Char.toLower ∈ ["mp4".data, "webm".data, "ogg".data, "mov".data])
    (hq : q = [] ∨ ∃ r, q = '?' :: r) (hdot : '.' ∉ q) :
    getVideoMimeType (p ++ ('.' :: (ext ++ q))) =
      if ext.map Char.toLower = "mp4".data then "video/mp4".data
      else if ext.map Char.toLower = "webm".data then "video/webm".data
      else if ext.map Char.toLower = "ogg".data then "video/ogg".data
      else "video/quicktime".data := by
  obtain ⟨hd, hqm⟩ := extension_chars ext hext
  have hlast : (jsSplit ".".data (p ++ ('.' :: (ext ++ q)))).getLast? = some (ext ++ q) := by
    have : ".".data = ['.'] := rfl
    rw [this, jsSplit, jsSplitGo_class]
    apply splitClassGo_getLast _ _ _ (by simp)
    intro a ha
    rcases List.mem_append.mp ha with h | h
    · simp only [beq_eq_false_iff_ne, ne_eq]
      rintro rfl
      exact hd h
    · simp only [beq_eq_false_iff_ne, ne_eq]
      rintro rfl
      exact hdot h
  have hnq : ∀ a ∈ ext, (fun x => x == '?') a = false := by
    intro a ha
    simp only [beq_eq_false_iff_ne, ne_eq]
    rintro rfl
    exact hqm ha
  have hfirst : (jsSplit "?".data (ext ++ q)).head? = some ext := by
    have : "?".data = ['?'] := rfl
    rw [this, jsSplit, jsSplitGo_class]
    rcases hq with rfl | ⟨r, rfl⟩
    · rw [List.append_nil, splitClassGo_all _ ext [] hnq]
      simp
    · rw [splitClassGo_run _ ext [] '?' r hnq (by simp)]
      simp
  unfold getVideoMimeType
  simp only [hlast, hfirst]
  simp only [List.mem_cons, List.mem_singleton, List.not_mem_nil, or_false] at hext
  rcases hext with h | h | h | h <;> rw [h] <;> decide

/-- C20 (code bug): `getVideoMimeType` switches on the text after the LAST `.`
of the URL, up to the first `?` after it, while `detectVideoType` looks for an
extension followed by the end of the URL or `?` anywhere.  For
`"https://example.com/video.webm?v=1.2"` the classification is `video` because
of `.webm`, but the MIME type is the default `"video/mp4"`, which is also the
`type` of the `<source>` element; for `"https://example.com/clip.mov?src=a.webm"`
the classification is due to `.mov`, but the MIME type is `"video/webm"`.  When
the extension is followed by nothing, or by a query without a `.`, the MIME
type is that of the extension. -/
theorem mime_type_last_dot :
    detectVideoType (some "https://example.com/video.webm?v=1.2".data) =
      ⟨some VideoType.video, some "https://example.com/video.webm?v=1.2".data⟩ ∧
    getVideoMimeType "https://example.com/video.webm?v=1.2".data = "video/mp4".data ∧
    (∀ cfg : Config,
      (createVideoElement cfg "https://example.com/video.webm?v=1.2".data).sourceType =
        "video/mp4".data) ∧
    detectVideoType (some "https://example.com/clip.mov?src=a.webm".data) =
      ⟨some VideoType.video, some "https://example.com/clip.mov?src=a.webm".data⟩ ∧
    getVideoMimeType "https://example.com/clip.mov?src=a.webm".data = "video/webm".data ∧
    (∀ p ext q : JsString,
      ext.map Char.toLower ∈ ["mp4".data, "webm".data, "ogg".data, "mov".data] →
      (q = [] ∨ ∃ r, q = '?' :: r) → '.' ∉ q →
      getVideoMimeType (p ++ ('.' :: (ext ++ q))) =
        if ext.map Char.toLower = "mp4".data then "video/mp4".data
        else if ext.map Char.toLower = "webm".data then "video/webm".data
        else if ext.map Char.toLower = "ogg".data then "video/ogg".data
        else "video/quicktime".data) := by
  have h : getVideoMimeType "https://example.com/video.webm?v=1.2".data = "video/mp4".data := by
    decide
  refine ⟨by decide, h, ?_, by decide, by decide, getVideoMimeType_of_last_dot⟩
  intro cfg
  simp only [createVideoElement]
  exact h

/-- C21: the `controls` list of `plyrOptions`.  When the attribute
`data-dt-video-custom-controls` is a non-empty string `s`, the list is
`parseCustomControls(s)`, whatever `data-dt-video-controls` says; when none of
the trimmed tokens of `s` is in the allow-list it is the empty list, as for the
image with controls `"true"` and custom controls `"bogus,nope"`.  When the
attribute is missing or empty, the list is the 9-name default if
`data-dt-video-controls` is `"true"` and the empty list otherwise. -/
theorem control_set_resolution (img : Img) :
    (∀ s : JsString, img.getAttribute "data-dt-video-custom-controls" = some s → s ≠ [] →
      parseCustomControls (some s) = some (plyrOptions (readConfig img)).controls) ∧
    (∀ s : JsString, img.getAttribute "data-dt-video-custom-controls" = some s → s ≠ [] →
      (∀ t ∈ (jsSplit ",".data s).map jsTrim, t ∉ validControls) →
      (plyrOptions (readConfig img)).controls = []) ∧
    (∀ (cfg : Config) (b : Bool), cfg.customControls ≠ none →
      (plyrOptions { cfg with controls := b }).controls = (plyrOptions cfg).controls) ∧
    (img.getAttribute "data-dt-video-custom-controls" = none ∨
        img.getAttribute "data-dt-video-custom-controls" = some [] →
      (plyrOptions (readConfig img)).controls =
        if img.flag "data-dt-video-controls" = true then
          ["play-large".data, "play".data, "progress".data, "current-time".data, "mute".data,
           "volume".data, "captions".data, "settings".data, "fullscreen".data]
        else []) ∧
    bogusControlsImg.flag "data-dt-video-controls" = true ∧
    (plyrOptions (readConfig bogusControlsImg)).controls = [] := by
  refine ⟨?_, ?_, ?_, ?_, by decide, by decide⟩
  · intro s hs hne
    cases s with
    | nil => exact absurd rfl hne
    | cons c cs => simp [plyrOptions, readConfig, hs, parseCustomControls]
  · intro s hs hne hall
    cases s with
    | nil => exact absurd rfl hne
    | cons c cs =>
      simp only [plyrOptions, readConfig, hs, parseCustomControls]
      rw [List.filter_eq_nil_iff]
      intro t ht
      have := hall t ht
      simpa [List.contains, List.elem_iff] using this
  · intro cfg b h
    cases hc : cfg.customControls with
    | none => exact absurd hc h
    | some l => simp [plyrOptions, hc]
  · intro h
    rcases h with h | h <;> simp [plyrOptions, readConfig, h, parseCustomControls]

theorem initializeSingleVideo_unresolved (img : Img) (w : ℕ) (r : Img) (σ : State)
    (h : resolves img = false) : initializeSingleVideo img w r σ = Outcome.returned σ := by
  rcases initializeSingleVideo_cases img w r σ with ⟨_, _, h2⟩ | ⟨h1, _⟩ | ⟨h1, _⟩
  · exact h2
  · rw [h] at h1
    exact absurd h1 (by simp)
  · rw [h] at h1
    exact absurd h1 (by simp)

theorem constructionThrows_unresolved (img : Img) (h : resolves img = false) :
    constructionThrows img = false := by
  simp [constructionThrows, h]

theorem initializeSingleVideo_getElem?_ne (img : Img) (w : ℕ) (r : Img) (σ : State) (j : ℕ)
    (hj : j ≠ w) : (initializeSingleVideo img w r σ).state.wrappers[j]? = σ.wrappers[j]? := by
  rcases initializeSingleVideo_cases img w r σ with ⟨_, _, h2⟩ | ⟨_, _, h2⟩ | ⟨_, _, type, _, h2⟩
  · rw [h2]; rfl
  · rw [h2]
    simp only [state_threw, modifyWrapper_getElem?, if_neg hj]
  · rw [h2]
    simp only [state_returned, modifyWrapper_getElem?, if_neg hj]

/-- A trigger of a pending slot whose descriptor does not resolve: the observer
entry only empties the slot and releases the observation. -/
theorem lazyLoadEntry_failed (σ : State) (entry : IntersectionEntry) (i : ℕ) (e : PendingEntry)
    (hint : entry.isIntersecting = true) (hidx : datasetIndex σ entry.target = some i)
    (hp : getSlot σ.pendingPlyrVideos i = some e) (hres : resolves e.img = false) :
    lazyLoadEntry σ entry =
      Outcome.returned
        { σ with
          pendingPlyrVideos := setSlot σ.pendingPlyrVideos i none
          observed := σ.observed.filter (fun t => t ≠ entry.target) } := by
  unfold datasetIndex at hidx
  unfold lazyLoadEntry
  rw [if_pos hint]
  simp only [hidx, hp, initializeSingleVideo_unresolved _ _ _ _ hres]

theorem placeholderClick_failed (hd : ClickHandler) (σ : State) (e : PendingEntry)
    (hp : getSlot σ.pendingPlyrVideos hd.index = some e) (hres : resolves hd.img = false) :
    placeholderClick hd σ =
      Outcome.returned
        { σ with
          pendingPlyrVideos := setSlot σ.pendingPlyrVideos hd.index none
          observed := σ.observed.filter (fun t => t ≠ hd.wrapper) } := by
  unfold placeholderClick
  simp only [hp, initializeSingleVideo_unresolved _ _ _ _ hres]

theorem lazyLoadObserver_failed {page : List Img} (entries : List IntersectionEntry) (i : ℕ)
    (e : PendingEntry) (σ : State) (hσ : σ.WellFormed page)
    (hex : ∃ en ∈ entries, en.isIntersecting = true)
    (hall : ∀ en ∈ entries, en.isIntersecting = true → datasetIndex σ en.target = some i)
    (hp : getSlot σ.pendingPlyrVideos i = some e) (hres : resolves e.img = false) :
    lazyLoadObserver entries σ =
      Outcome.returned
        { σ with
          pendingPlyrVideos := setSlot σ.pendingPlyrVideos i none
          observed := σ.observed.filter (fun t => t ≠ i) } := by
  induction entries with
  | nil => simp at hex
  | cons en es ih =>
    by_cases hint : en.isIntersecting = true
    · have hidx := hall en (by simp) hint
      have ht : i = en.target := hσ.dataset_entry _ _ hidx
      simp only [lazyLoadObserver, lazyLoadEntry_failed σ en i e hint hidx hp hres, ← ht]
      apply lazyLoadObserver_noop es i
      · intro e2 he2 hint2
        exact hall e2 (by simp [he2]) hint2
      · exact getSlot_setSlot_eq _ _ _
    · have hskip : lazyLoadEntry σ en = Outcome.returned σ := by
        unfold lazyLoadEntry
        rw [if_neg hint]
      simp only [lazyLoadObserver, hskip]
      obtain ⟨e1, he1, hint1⟩ := hex
      have hmem : e1 ∈ es := by
        rcases List.mem_cons.mp he1 with h | h
        · subst h; exact absurd hint1 hint
        · exact h
      exact ih ⟨e1, hmem, hint1⟩ (fun e2 he2 => hall e2 (by simp [he2]))

/-- A trigger of a pending slot whose descriptor does not resolve only empties
the slot and releases the observation of its wrapper. -/
theorem step_failed {page : List Img} (σ : State) (hσ : σ.WellFormed page) (ev : Event) (i : ℕ)
    (e : PendingEntry) (hp : getSlot σ.pendingPlyrVideos i = some e)
    (hres : resolves e.img = false) (htrig : ev.triggers σ i) :
    step σ ev =
      { σ with
        pendingPlyrVideos := setSlot σ.pendingPlyrVideos i none
        observed := σ.observed.filter (fun t => t ≠ i) } := by
  cases ev with
  | intersect entries =>
    simp only [step, lazyLoadObserver_failed entries i e σ hσ htrig.1 htrig.2 hp hres,
      state_returned]
  | click n =>
    obtain ⟨hd, hn, rfl⟩ := htrig
    obtain ⟨h1, h2, _⟩ := hσ.handler_entry hd (List.getElem?_mem hn)
    obtain ⟨_, h4, _⟩ := hσ.pending_entry _ _ hp
    have himg : hd.img = e.img := by
      rw [h2] at h4
      exact Option.some.inj h4
    simp only [step, hn]
    rw [placeholderClick_failed hd σ e hp (by rw [himg]; exact hres), h1, state_returned]
  | resize env => exact absurd htrig (by simp [Event.triggers])

/-- Sessions built by an observer entry belong to wrappers of slots that were
pending: with slot `i` empty and no session for wrapper `i`, none appears. -/
theorem lazyLoadEntry_no_session {page : List Img} {σ : State} (hσ : σ.WellFormed page)
    (entry : IntersectionEntry) (i : ℕ) (hp : getSlot σ.pendingPlyrVideos i = none)
    (hs : ∀ s ∈ σ.videoPlayers, s.wrapper ≠ i) :
    ∀ s ∈ (lazyLoadEntry σ entry).state.videoPlayers, s.wrapper ≠ i := by
  rcases lazyLoadEntry_cases σ entry with h | ⟨j, e, _, _, hpv, ⟨_, h⟩ | ⟨_, h⟩⟩
  · rw [h]; exact hs
  · rw [h]
    obtain ⟨l, hvp, _, hl⟩ := initializeSingleVideo_videoPlayers e.img e.wrapper e.referenceImg σ
    simp only [state_returned]
    rw [hvp]
    intro s hmem
    rcases List.mem_append.mp hmem with h1 | h1
    · exact hs s h1
    · rw [(hl s h1).1, (hσ.pending_entry _ _ hpv).1]
      intro heq
      rw [heq, hp] at hpv
      exact absurd hpv (by simp)
  · rw [h]; exact hs

theorem lazyLoadObserver_no_session {page : List Img} (entries : List IntersectionEntry)
    (i : ℕ) :
    ∀ {σ : State}, σ.WellFormed page → getSlot σ.pendingPlyrVideos i = none →
      (∀ s ∈ σ.videoPlayers, s.wrapper ≠ i) →
      ∀ s ∈ (lazyLoadObserver entries σ).state.videoPlayers, s.wrapper ≠ i := by
  induction entries with
  | nil => intro σ _ _ hs; exact hs
  | cons en es ih =>
    intro σ hσ hp hs
    have h1 := lazyLoadEntry_no_session hσ en i hp hs
    rcases lazyLoadObserver_cons en es σ with ⟨_, hsc⟩ | ⟨_, hsc⟩
    · rw [hsc]
      exact ih (wellFormed_lazyLoadEntry hσ en) (lazyLoadEntry_pending_none σ en i hp) h1
    · rw [hsc]
      exact h1

theorem placeholderClick_no_session {page : List Img} {σ : State} (hσ : σ.WellFormed page)
    (hd : ClickHandler) (hh : hd ∈ σ.clickHandlers) (i : ℕ)
    (hp : getSlot σ.pendingPlyrVideos i = none)
    (hs : ∀ s ∈ σ.videoPlayers, s.wrapper ≠ i) :
    ∀ s ∈ (placeholderClick hd σ).state.videoPlayers, s.wrapper ≠ i := by
  rcases placeholderClick_cases hd σ with ⟨_, hc⟩ | ⟨e, hpv, ⟨_, hc⟩ | ⟨_, hc⟩⟩
  · rw [hc]; exact hs
  · rw [hc]
    obtain ⟨l, hvp, _, hl⟩ := initializeSingleVideo_videoPlayers hd.img hd.wrapper
      hd.referenceImg σ
    simp only [state_returned]
    rw [hvp]
    intro s hmem
    rcases List.mem_append.mp hmem with h | h
    · exact hs s h
    · rw [(hl s h).1, (hσ.handler_entry hd hh).1]
      intro heq
      rw [heq, hp] at hpv
      exact absurd hpv (by simp)
  · rw [hc]; exact hs

/-- Once slot `i` is empty and no session belongs to wrapper `i`, no event
builds one. -/
theorem step_no_session {page : List Img} {σ : State} (hσ : σ.WellFormed page) (ev : Event)
    (i : ℕ) (hp : getSlot σ.pendingPlyrVideos i = none)
    (hs : ∀ s ∈ σ.videoPlayers, s.wrapper ≠ i) :
    ∀ s ∈ (step σ ev).videoPlayers, s.wrapper ≠ i := by
  cases ev with
  | intersect entries => exact lazyLoadObserver_no_session entries i hσ hp hs
  | click n =>
    simp only [step]
    cases hn : σ.clickHandlers[n]? with
    | none => exact hs
    | some hd => exact placeholderClick_no_session hσ hd (List.getElem?_mem hn) i hp hs
  | resize env =>
    simp only [step]
    split_ifs
    · exact hs
    · exact hs

theorem steps_no_session {page : List Img} (events : List Event) (i : ℕ) :
    ∀ {σ : State}, σ.WellFormed page → getSlot σ.pendingPlyrVideos i = none →
      (∀ s ∈ σ.videoPlayers, s.wrapper ≠ i) →
      ∀ s ∈ (events.foldl step σ).videoPlayers, s.wrapper ≠ i := by
  induction events with
  | nil => intro σ _ _ hs; exact hs
  | cons ev es ih =>
    intro σ hσ hp hs
    exact ih (wellFormed_step hσ ev) (step_pending_none σ ev i hp)
      (step_no_session hσ ev i hp hs)

theorem handleResizeItem_hasPlaceholder (videoType : VideoType) (cs : ComputedStyle)
    (lay : Layout) (w : Wrapper) :
    (handleResizeItem videoType cs lay w).hasPlaceholder = w.hasPlaceholder := by
  unfold handleResizeItem handleResizeItemWith
  simp only
  split_ifs <;> first | rfl | (cases w.iframe <;> rfl)

theorem handleResize_hasPlaceholder (env : ℕ → ComputedStyle × Layout) (items : List Session) :
    ∀ (ws : List Wrapper) (t : ℕ),
      ((items.foldl
        (fun ws item =>
          modifyWrapper
            (handleResizeItem item.videoType (env item.wrapper).1 (env item.wrapper).2)
            ws item.wrapper) ws)[t]?).map (fun (w : Wrapper) => w.hasPlaceholder) =
          (ws[t]?).map (fun (w : Wrapper) => w.hasPlaceholder) := by
  induction items with
  | nil => intro ws t; rfl
  | cons item items ih =>
    intro ws t
    rw [List.foldl_cons, ih, modifyWrapper_getElem?]
    split_ifs with h
    · cases ws[t]? with
      | none => rfl
      | some w => simp [handleResizeItem_hasPlaceholder]
    · rfl

theorem placeholderKept_iff (σ : State) :
    σ.PlaceholderKept ↔ ∀ i e, getSlot σ.pendingPlyrVideos i = some e →
      constructionThrows e.img = false →
      (σ.wrappers[i]?).map (fun (w : Wrapper) => w.hasPlaceholder) = some true := by
  unfold State.PlaceholderKept
  constructor
  · intro h i e he hsafe
    obtain ⟨w, hw, hpl⟩ := h i e he hsafe
    simp [hw, hpl]
  · intro h i e he hsafe
    have := h i e he hsafe
    cases hw : σ.wrappers[i]? with
    | none => simp [hw] at this
    | some w =>
      simp [hw] at this
      exact ⟨w, rfl, this⟩

theorem placeholderKept_handleResize {σ : State} (hk : σ.PlaceholderKept)
    (env : ℕ → ComputedStyle × Layout) : (handleResize env σ).PlaceholderKept := by
  rw [placeholderKept_iff] at hk ⊢
  intro i e he hsafe
  have := hk i e he hsafe
  simp only [handleResize]
  rw [handleResize_hasPlaceholder]
  exact this

/-- Consuming slot `i` with the wrapper `i` keeps the placeholders of the other
pending slots. -/
theorem placeholderKept_consume {σ : State} (hk : σ.PlaceholderKept) (i : ℕ) (img r : Img)
    (obs : List ℕ) :
    State.PlaceholderKept
      { (initializeSingleVideo img i r σ).state with
        pendingPlyrVideos :=
          setSlot (initializeSingleVideo img i r σ).state.pendingPlyrVideos i none
        observed := obs } := by
  intro j e he hsafe
  simp only [initializeSingleVideo_pending] at he
  by_cases hj : j = i
  · subst hj
    rw [getSlot_setSlot_eq] at he
    exact absurd he (by simp)
  · rw [getSlot_setSlot_ne _ _ _ _ hj] at he
    obtain ⟨w, hw, hpl⟩ := hk j e he hsafe
    refine ⟨w, ?_, hpl⟩
    simp only
    rw [initializeSingleVideo_getElem?_ne _ _ _ _ _ hj]
    exact hw

/-- A construction that throws for the image of slot `i` removes the
placeholder of wrapper `i` only. -/
theorem placeholderKept_threw {σ : State} (hk : σ.PlaceholderKept) (i : ℕ) (e : PendingEntry)
    (he : getSlot σ.pendingPlyrVideos i = some e) (hthrow : constructionThrows e.img = true) :
    State.PlaceholderKept
      { σ with wrappers := modifyWrapper removePlaceholder σ.wrappers i } := by
  intro j e1 he1 hsafe
  simp only at he1
  by_cases hj : j = i
  · subst hj
    rw [he] at he1
    cases he1
    rw [hthrow] at hsafe
    cases hsafe
  · obtain ⟨w, hw, hpl⟩ := hk j e1 he1 hsafe
    refine ⟨w, ?_, hpl⟩
    simp only [modifyWrapper_getElem?, if_neg hj]
    exact hw

theorem placeholderKept_lazyLoadEntry {page : List Img} {σ : State} (hσ : σ.WellFormed page)
    (hk : σ.PlaceholderKept) (entry : IntersectionEntry) :
    (lazyLoadEntry σ entry).state.PlaceholderKept := by
  rcases lazyLoadEntry_cases σ entry with h | ⟨i, e, _, _, hpv, ⟨_, h⟩ | ⟨hthrow, h⟩⟩
  · rw [h]; exact hk
  · rw [h, (hσ.pending_entry _ _ hpv).1]
    exact placeholderKept_consume hk i e.img e.referenceImg _
  · rw [h, (hσ.pending_entry _ _ hpv).1]
    exact placeholderKept_threw hk i e hpv hthrow

theorem placeholderKept_lazyLoadObserver {page : List Img} (entries : List IntersectionEntry) :
    ∀ {σ : State}, σ.WellFormed page → σ.PlaceholderKept →
      (lazyLoadObserver entries σ).state.PlaceholderKept := by
  induction entries with
  | nil => intro σ _ hk; exact hk
  | cons en es ih =>
    intro σ hσ hk
    have h1 := placeholderKept_lazyLoadEntry hσ hk en
    rcases lazyLoadObserver_cons en es σ with ⟨_, hsc⟩ | ⟨_, hsc⟩
    · rw [hsc]
      exact ih (wellFormed_lazyLoadEntry hσ en) h1
    · rw [hsc]
      exact h1

theorem placeholderKept_placeholderClick {page : List Img} {σ : State}
    (hσ : σ.WellFormed page) (hk : σ.PlaceholderKept) (hd : ClickHandler)
    (hh : hd ∈ σ.clickHandlers) : (placeholderClick hd σ).state.PlaceholderKept := by
  obtain ⟨h1, h2, _⟩ := hσ.handler_entry hd hh
  rcases placeholderClick_cases hd σ with ⟨_, hc⟩ | ⟨e, hpv, ⟨_, hc⟩ | ⟨hthrow, hc⟩⟩
  · rw [hc]; exact hk
  · rw [hc, h1]
    exact placeholderKept_consume hk hd.index hd.img hd.referenceImg _
  · rw [hc, h1]
    have himg : hd.img = e.img := by
      have h4 := (hσ.pending_entry _ _ hpv).2.1
      rw [h2] at h4
      exact Option.some.inj h4
    exact placeholderKept_threw hk hd.index e hpv (by rw [← himg]; exact hthrow)

theorem placeholderKept_step {page : List Img} {σ : State} (hσ : σ.WellFormed page)
    (hk : σ.PlaceholderKept) (ev : Event) : (step σ ev).PlaceholderKept := by
  cases ev with
  | intersect entries => exact placeholderKept_lazyLoadObserver entries hσ hk
  | click n =>
    simp only [step]
    cases hn : σ.clickHandlers[n]? with
    | none => exact hk
    | some hd => exact placeholderKept_placeholderClick hσ hk hd (List.getElem?_mem hn)
  | resize env =>
    simp only [step]
    split_ifs
    · exact placeholderKept_handleResize hk env
    · exact hk

theorem placeholderKept_steps {page : List Img} (events : List Event) :
    ∀ {σ : State}, σ.WellFormed page → σ.PlaceholderKept →
      (events.foldl step σ).PlaceholderKept := by
  induction events with
  | nil => intro σ _ hk; exact hk
  | cons ev es ih =>
    intro σ hσ hk
    exact ih (wellFormed_step hσ ev) (placeholderKept_step hσ hk ev)

theorem placeholderKept_scanImage {page : List Img} {σ : State} (hσ : σ.WellFormed page)
    (hk : σ.PlaceholderKept) (img : Img) (index : ℕ) (hidx : σ.wrappers.length = index) :
    (scanImage img index σ).state.PlaceholderKept := by
  unfold scanImage
  simp only
  split_ifs with hlazy
  · intro j e he hsafe
    simp only [state_returned] at he ⊢
    by_cases hj : j = index
    · subst hj
      refine ⟨createWrapper img true j, ?_, rfl⟩
      rw [hlazy, ← hidx]
      simp
    · rw [getSlot_setSlot_ne _ _ _ _ hj] at he
      obtain ⟨w, hw, hpl⟩ := hk j e he hsafe
      have hlt := (hσ.pending_fresh j e he).1
      exact ⟨w, by rw [List.getElem?_append_left hlt]; exact hw, hpl⟩
  · intro j e he hsafe
    rw [initializeSingleVideo_pending] at he
    simp only at he
    obtain ⟨w, hw, hpl⟩ := hk j e he hsafe
    have hlt := (hσ.pending_fresh j e he).1
    refine ⟨w, ?_, hpl⟩
    rw [initializeSingleVideo_getElem?_ne _ _ _ _ _ (Nat.ne_of_lt hlt)]
    simp only
    rw [List.getElem?_append_left hlt]
    exact hw

theorem placeholderKept_scanFrom {rest : List Img} :
    ∀ {done : List Img} {σ : State}, σ.WellFormed (done ++ rest) → σ.PlaceholderKept →
      σ.wrappers.length = done.length →
      (scanFrom done.length rest σ).state.PlaceholderKept := by
  induction rest with
  | nil => intro done σ _ hk _; exact hk
  | cons img rest ih =>
    intro done σ hσ hk hlen
    have himg : (done ++ img :: rest)[done.length]? = some img := by
      rw [List.getElem?_append_right (Nat.le_refl _)]
      simp
    have h1 := wellFormed_scanImage hσ img done.length hlen himg
    have hk1 := placeholderKept_scanImage hσ hk img done.length hlen
    have h2 : (scanImage img done.length σ).state.wrappers.length =
        (done ++ [img]).length := by
      rw [scanImage_wrappers_length, hlen]; simp
    rcases scanFrom_cons img rest done.length σ with ⟨_, hsc⟩ | ⟨_, hsc⟩
    · have heq : done ++ img :: rest = (done ++ [img]) ++ rest := by simp
      rw [heq] at h1
      have := ih h1 hk1 h2
      rw [hsc]
      simpa using this
    · rw [hsc]
      exact hk1

/-- In every state reached from the scan of a page, the wrapper of a pending
slot holds its placeholder, unless the construction for its image throws. -/
theorem placeholderKept_run (page : List Img) (events : List Event) :
    (run page events).PlaceholderKept := by
  have hk0 : State.initial.PlaceholderKept := by
    intro i e he
    simp [State.initial, getSlot] at he
  have hk := @placeholderKept_scanFrom page [] State.initial (wellFormed_initial _) hk0 rfl
  have hk1 : (afterScan page).PlaceholderKept := by
    obtain ⟨h1, _, _, h4, _⟩ := afterScan_fields page
    intro i e he hsafe
    rw [h1] at he
    rw [h4]
    exact hk i e he hsafe
  exact placeholderKept_steps events (wellFormed_afterScan page) hk1

/-- An observer entry leaves the wrapper of an empty slot as it is. -/
theorem lazyLoadEntry_wrapper_of_empty {page : List Img} {σ : State} (hσ : σ.WellFormed page)
    (entry : IntersectionEntry) (i : ℕ) (hp : getSlot σ.pendingPlyrVideos i = none) :
    (lazyLoadEntry σ entry).state.wrappers[i]? = σ.wrappers[i]? := by
  rcases lazyLoadEntry_cases σ entry with h | ⟨j, e, _, _, hpv, ⟨_, h⟩ | ⟨_, h⟩⟩
  · rw [h]; rfl
  · have hji : i ≠ e.wrapper := by
      rw [(hσ.pending_entry _ _ hpv).1]
      intro heq
      rw [← heq, hp] at hpv
      exact absurd hpv (by simp)
    rw [h]
    exact initializeSingleVideo_getElem?_ne _ _ _ _ _ hji
  · have hji : i ≠ e.wrapper := by
      rw [(hσ.pending_entry _ _ hpv).1]
      intro heq
      rw [← heq, hp] at hpv
      exact absurd hpv (by simp)
    rw [h]
    simp only [state_threw, modifyWrapper_getElem?, if_neg hji]

theorem lazyLoadObserver_wrapper_of_empty {page : List Img} (entries : List IntersectionEntry)
    (i : ℕ) :
    ∀ {σ : State}, σ.WellFormed page → getSlot σ.pendingPlyrVideos i = none →
      (lazyLoadObserver entries σ).state.wrappers[i]? = σ.wrappers[i]? := by
  induction entries with
  | nil => intro σ _ _; rfl
  | cons en es ih =>
    intro σ hσ hp
    have h1 := lazyLoadEntry_wrapper_of_empty hσ en i hp
    rcases lazyLoadObserver_cons en es σ with ⟨_, hsc⟩ | ⟨_, hsc⟩
    · rw [hsc, ih (wellFormed_lazyLoadEntry hσ en) (lazyLoadEntry_pending_none σ en i hp), h1]
    · rw [hsc]
      exact h1

theorem placeholderClick_wrapper_of_empty {page : List Img} {σ : State}
    (hσ : σ.WellFormed page) (hd : ClickHandler) (hh : hd ∈ σ.clickHandlers) (i : ℕ)
    (hp : getSlot σ.pendingPlyrVideos i = none) :
    (placeholderClick hd σ).state.wrappers[i]? = σ.wrappers[i]? := by
  rcases placeholderClick_cases hd σ with ⟨_, hc⟩ | ⟨e, hpv, hc⟩
  · rw [hc]; rfl
  · have hji : i ≠ hd.wrapper := by
      rw [(hσ.handler_entry hd hh).1]
      intro heq
      rw [← heq, hp] at hpv
      exact absurd hpv (by simp)
    rcases hc with ⟨_, hc⟩ | ⟨_, hc⟩
    · rw [hc]
      exact initializeSingleVideo_getElem?_ne _ _ _ _ _ hji
    · rw [hc]
      simp only [state_threw, modifyWrapper_getElem?, if_neg hji]

/-- The placeholder in the wrapper of an empty slot stays under every event. -/
theorem step_placeholder_of_empty {page : List Img} {σ : State} (hσ : σ.WellFormed page)
    (ev : Event) (i : ℕ) (hp : getSlot σ.pendingPlyrVideos i = none) :
    ((step σ ev).wrappers[i]?).map (fun (w : Wrapper) => w.hasPlaceholder) =
      (σ.wrappers[i]?).map (fun (w : Wrapper) => w.hasPlaceholder) := by
  cases ev with
  | intersect entries =>
    simp only [step]
    rw [lazyLoadObserver_wrapper_of_empty entries i hσ hp]
  | click n =>
    simp only [step]
    cases hn : σ.clickHandlers[n]? with
    | none => rfl
    | some hd =>
      simp only
      rw [placeholderClick_wrapper_of_empty hσ hd (List.getElem?_mem hn) i hp]
  | resize env =>
    simp only [step]
    split_ifs
    · exact handleResize_hasPlaceholder env σ.videoPlayers σ.wrappers i
    · rfl

theorem steps_placeholder_of_empty {page : List Img} (events : List Event) (i : ℕ) :
    ∀ {σ : State}, σ.WellFormed page → getSlot σ.pendingPlyrVideos i = none →
      ((events.foldl step σ).wrappers[i]?).map (fun (w : Wrapper) => w.hasPlaceholder) =
        (σ.wrappers[i]?).map (fun (w : Wrapper) => w.hasPlaceholder) := by
  induction events with
  | nil => intro σ _ _; rfl
  | cons ev es ih =>
    intro σ hσ hp
    show ((es.foldl step (step σ ev)).wrappers[i]?).map _ = _
    rw [ih (wellFormed_step hσ ev) (step_pending_none σ ev i hp),
      step_placeholder_of_empty hσ ev i hp]

/-- C22: a failed lazy construction still consumes the slot.  In a state
reached from the page scan, let slot `i` be pending for a descriptor (the
image at position `i`) whose URL does not resolve to a type and a non-empty
id, and let an event trigger slot `i` (an observer callback whose intersecting
entries are for slot `i`, or a click on its placeholder).  Then the registry
and every wrapper are left as they were, so no session is appended and the
placeholder of wrapper `i` is still there; `pendingPlyrVideos[i]` is null and
wrapper `i` is no longer observed.  After any later events the slot is still
null, no session belongs to wrapper `i`, its placeholder is still there, and a
later trigger of slot `i` by either path changes nothing. -/
theorem failed_lazy_consumes_slot (page : List Img) (before : List Event) (ev : Event) (i : ℕ)
    (e : PendingEntry)
    (hpend : getSlot (run page before).pendingPlyrVideos i = some e)
    (hres : resolves e.img = false)
    (htrig : ev.triggers (run page before) i) :
    page[i]? = some e.img ∧
    (step (run page before) ev).videoPlayers = (run page before).videoPlayers ∧
    (step (run page before) ev).wrappers = (run page before).wrappers ∧
    (∃ w, (step (run page before) ev).wrappers[i]? = some w ∧ w.hasPlaceholder = true) ∧
    getSlot (step (run page before) ev).pendingPlyrVideos i = none ∧
    i ∉ (step (run page before) ev).observed ∧
    ∀ later : List Event,
      getSlot (later.foldl step (step (run page before) ev)).pendingPlyrVideos i = none ∧
      (∀ s ∈ (later.foldl step (step (run page before) ev)).videoPlayers, s.wrapper ≠ i) ∧
      ((later.foldl step (step (run page before) ev)).wrappers[i]?).map
        (fun (w : Wrapper) => w.hasPlaceholder) = some true ∧
      ∀ again : Event, again.triggers (later.foldl step (step (run page before) ev)) i →
        step (later.foldl step (step (run page before) ev)) again =
          later.foldl step (step (run page before) ev) := by
  have hσ := wellFormed_run page before
  have hk := placeholderKept_run page before
  have hstep := step_failed (run page before) hσ ev i e hpend hres htrig
  have hσ1 : (step (run page before) ev).WellFormed page := wellFormed_step hσ ev
  obtain ⟨w, hw, hpl⟩ := hk i e hpend (constructionThrows_unresolved e.img hres)
  have hnone : getSlot (step (run page before) ev).pendingPlyrVideos i = none := by
    rw [hstep]
    exact getSlot_setSlot_eq _ _ _
  have hvp : (step (run page before) ev).videoPlayers = (run page before).videoPlayers := by
    rw [hstep]
  have hws : (step (run page before) ev).wrappers = (run page before).wrappers := by
    rw [hstep]
  have hno : ∀ s ∈ (step (run page before) ev).videoPlayers, s.wrapper ≠ i := by
    rw [hvp]
    exact (hσ.pending_fresh i e hpend).2
  refine ⟨(hσ.pending_entry i e hpend).2.1, hvp, hws, ⟨w, by rw [hws]; exact hw, hpl⟩, hnone, ?_,
    ?_⟩
  · rw [hstep]
    simp
  · intro later
    have hl := steps_pending_none later i _ hnone
    refine ⟨hl, steps_no_session later i hσ1 hnone hno, ?_, ?_⟩
    · rw [steps_placeholder_of_empty later i hσ1 hnone, hws, hw]
      simp [hpl]
    · intro again hagain
      exact step_trigger_noop _ again i hagain hl

/-- Witness of C22: a page with one lazy image for `https://example.com/page`;
the placeholder is clicked. -/
theorem failed_lazy_consumes_slot_witness :
    [lazyUnknownImg][0]? = some lazyUnknownImg ∧
    (step (run [lazyUnknownImg] []) (Event.click 0)).videoPlayers =
      (run [lazyUnknownImg] []).videoPlayers ∧
    (step (run [lazyUnknownImg] []) (Event.click 0)).wrappers =
      (run [lazyUnknownImg] []).wrappers ∧
    (∃ w, (step (run [lazyUnknownImg] []) (Event.click 0)).wrappers[0]? = some w ∧
      w.hasPlaceholder = true) ∧
    getSlot (step (run [lazyUnknownImg] []) (Event.click 0)).pendingPlyrVideos 0 = none ∧
    0 ∉ (step (run [lazyUnknownImg] []) (Event.click 0)).observed ∧
    ∀ later : List Event,
      getSlot (later.foldl step
        (step (run [lazyUnknownImg] []) (Event.click 0))).pendingPlyrVideos 0 = none ∧
      (∀ s ∈ (later.foldl step (step (run [lazyUnknownImg] []) (Event.click 0))).videoPlayers,
        s.wrapper ≠ 0) ∧
      ((later.foldl step (step (run [lazyUnknownImg] []) (Event.click 0))).wrappers[0]?).map
        (fun (w : Wrapper) => w.hasPlaceholder) = some true ∧
      ∀ again : Event,
        again.triggers (later.foldl step (step (run [lazyUnknownImg] []) (Event.click 0))) 0 →
        step (later.foldl step (step (run [lazyUnknownImg] []) (Event.click 0))) again =
          later.foldl step (step (run [lazyUnknownImg] []) (Event.click 0)) :=
  failed_lazy_consumes_slot [lazyUnknownImg] [] (Event.click 0) 0
    ⟨lazyUnknownImg, 0, lazyUnknownImg⟩ (by decide) (by decide)
    ⟨⟨0, lazyUnknownImg, 0, lazyUnknownImg⟩, by decide, rfl⟩

end PlyrHelper
